import Mathlib

/-!
The login backend: the user model (`backend/models/User.js`, `backend/database/init.js`),
the protected routes (`backend/routes/users.js`), the rate limiters of `backend/server.js`,
the registration validators of `test-registration-basic.js`, the mock validators of
`tests/unit/security-negative-tests.js` and the report of
`tests/ui/visual-regression-tester.js`.

A shallow embedding of the `users` table and of the `User` class that reads and writes it,
of the token middleware and the three `GET` handlers behind it, of the two limiters in
front of `/api/auth`, of `isStrongPassword`, `isValidEmail`, `getPasswordStrength` and the
form-validation scenario, of `mockValidateInput` and the Unicode pattern, and of
`generateVisualReport` with the two places that read its `failedTests`.

Modelling conventions
* The clock is a `Nat` of milliseconds since the epoch, and one operation reads one clock
  value `env.now`.  A `DATETIME` column holds the text SQLite's `CURRENT_TIMESTAMP` and
  `datetime('now', ...)` write, UTC to the whole second, and is represented by the count of
  seconds that text spells.  A date property of an object is the string it holds
  (`DateText`): the text of the column, or an ISO string with milliseconds and `Z`.
  `new Date(...)` reads an ISO string as the instant it names and the text of the column,
  which has no zone mark, as local time of the process (`TimeZone`).
* The table is the list of its rows in storage order together with the `AUTOINCREMENT`
  high-water mark.  `NULL` in a nullable column is `none`.
* Everything the source obtains from outside is an explicit part of `Env`: the clock, the
  bcrypt primitive (with the entropy it draws for the salt), the error object the sqlite3
  driver hands to a callback when storage fails.  The errors the driver reports for a
  violated `UNIQUE` constraint and for a bound value SQLite cannot take as an integer are
  fixed (`uniqueViolation`, `datatypeMismatch`).  A promise is the `Except String` it
  settles with: `.error msg` for `reject(new Error(msg))`.
* Each operation runs to completion before the next one starts; interleavings of concurrent
  requests are not modelled.
* JavaScript numbers that the class increments are `JsNum`, with unbounded integers.  The
  numbers `GET /all` computes with are `JsNumber`: integers, the infinities and `NaN`, an
  integer result being rounded to the nearest double (`nearestDouble`).  `parseInt` is a
  builtin: the handler is a function of the integer the parameter's leading digits spell.
* jsonwebtoken is a parameter (`Jwt`), like bcrypt.  express-rate-limit is modelled by the
  behaviour it documents for its default store.
* A JavaScript string is a Lean `String`; its `length` is `jsLength`, the number of UTF-16
  code units.  A pattern is matched on the classes of characters it distinguishes.
* An object literal is the list of its properties in source order; reading a property
  takes the last one written under that name.
-/

namespace UserModel

/-- One row of the `users` table created by `createUsersTable` (init.js 27-41).
`id` is the `INTEGER PRIMARY KEY AUTOINCREMENT`; `email`, `password`, `firstName`,
`lastName` are `TEXT NOT NULL`; the remaining columns are nullable.  A `DATETIME` column
holds the text `YYYY-MM-DD HH:MM:SS` that `CURRENT_TIMESTAMP` or `datetime(...)` wrote,
a UTC wall-clock reading without zone mark; the number stands for that text and is the
count of whole seconds since the epoch that it spells. -/
structure Row where
  id : Nat
  email : String
  password : String
  firstName : String
  lastName : String
  createdAt : Option Nat
  updatedAt : Option Nat
  isActive : Option Int
  lastLogin : Option Nat
  loginAttempts : Option Int
  lockedUntil : Option Nat
  deriving DecidableEq, Repr

/-- State of the `users` table: its rows in storage order and the largest rowid ever
handed out (the `sqlite_sequence` entry kept for an `AUTOINCREMENT` key). -/
structure Db where
  rows : List Row
  seq : Nat
  deriving DecidableEq, Repr

/-- Constraints of the schema that span rows: `id` is a primary key, `email` is `UNIQUE`. -/
def Db.WF (db : Db) : Prop :=
  (db.rows.map Row.id).Nodup ∧ (db.rows.map Row.email).Nodup

instance (db : Db) : Decidable db.WF := by
  unfold Db.WF; infer_instance

/-- The stored row with a given id (first in storage order; unique when `Db.WF`). -/
def Db.rowOf (db : Db) (id : Nat) : Option Row :=
  db.rows.find? (fun r => r.id == id)

/-- Effect of `UPDATE users SET ... WHERE id = ?`: every row with that id is rewritten. -/
def Db.updateWhereId (db : Db) (id : Nat) (set : Row → Row) : Db :=
  { db with rows := db.rows.map (fun r => if r.id = id then set r else r) }

/-- Error object the sqlite3 driver passes to a callback. -/
structure SqliteError where
  code : String
  message : String
  deriving DecidableEq, Repr

/-- The error object with which the sqlite3 driver calls back when an `INSERT` violates
the `UNIQUE` constraint on `email`: `code` is the name of SQLite's primary result code,
`SQLITE_CONSTRAINT` (the driver does not report the extended code
`SQLITE_CONSTRAINT_UNIQUE`), and `message` is that name followed by SQLite's text. -/
def uniqueViolation : SqliteError :=
  { code := "SQLITE_CONSTRAINT"
    message := "SQLITE_CONSTRAINT: UNIQUE constraint failed: users.email" }

/-- The bcryptjs primitive.  `hash plain rounds entropy` is what the callback of
`bcrypt.hash` receives (`none` when it receives an error); `entropy` stands for the random
salt.  `compare plain hashed` is what the callback of `bcrypt.compare` receives. -/
structure Bcrypt where
  hash : String → Nat → Nat → Option String
  compare : String → String → Option Bool

/-- Everything one operation obtains from outside the program. -/
structure Env where
  /-- the clock, read by SQLite and by `Date.now()` -/
  now : Nat
  bcrypt : Bcrypt
  /-- randomness drawn by `bcrypt.hash` -/
  entropy : Nat
  /-- error of `db.run` for a reason other than a constraint (`none`: the statement ran) -/
  runFault : Option SqliteError
  /-- error of `db.get` / `db.all` (`none`: the query ran) -/
  getFault : Option SqliteError

/-- A JavaScript value in a numeric property of a `User` object. -/
inductive JsNum where
  | undefined
  | null
  | nan
  | num (n : Int)
  deriving DecidableEq, Repr

/-- The value of `x` after `x++`: `ToNumber(x) + 1`. -/
def JsNum.incr : JsNum → JsNum
  | .undefined => .nan
  | .null => .num 1
  | .nan => .nan
  | .num n => .num (n + 1)

/-- The comparison `x >= k` for an integer `k`. -/
def JsNum.ge : JsNum → Int → Bool
  | .undefined, _ => false
  | .null, k => decide (0 ≥ k)
  | .nan, _ => false
  | .num n, k => decide (n ≥ k)

/-- A nullable `INTEGER` column as the driver delivers it. -/
def JsNum.ofSql : Option Int → JsNum
  | none => .null
  | some n => .num n

/-- A date as a property of a JavaScript object holds it here: a string.  `sqlText s` is
the text `YYYY-MM-DD HH:MM:SS` of a `DATETIME` column as the driver delivers it, named by
the number `s` of whole seconds since the epoch that it spells; `isoString ms` is the text
`YYYY-MM-DDTHH:MM:SS.mmmZ` that `toISOString()` gives for the instant `ms`. -/
inductive DateText where
  | sqlText (seconds : Nat)
  | isoString (ms : Nat)
  deriving DecidableEq, Repr

/-- The time zone of the server process: `offset s` is the number of milliseconds by
which its local clocks are ahead of UTC when they show the wall-clock reading `s`
(in seconds).  In UTC the offset is 0 throughout. -/
structure TimeZone where
  offset : Nat → Int

/-- The time value of `new Date(text)`, in milliseconds since the epoch.  The ISO text
ends in `Z` and is the instant it names.  The text of a `DATETIME` column has a space
where the ISO format has `T` and no zone mark: the engine reads it as local time. -/
def DateText.getTime (zone : TimeZone) : DateText → Int
  | .sqlText seconds => (seconds : Int) * 1000 - zone.offset seconds
  | .isoString ms => (ms : Int)

/-- The object passed to `new User(data)`: a result row of a query.  For the nullable
date columns `none` is `null` or `undefined` (a column the query did not select). -/
structure Data where
  id : Nat
  email : String
  firstName : String
  lastName : String
  createdAt : Option DateText
  updatedAt : Option DateText
  isActive : Option Int
  lastLogin : Option DateText
  loginAttempts : JsNum
  lockedUntil : Option DateText
  deriving DecidableEq, Repr

/-- A `User` object (User.js 7-19).  `password` is the extra property that only
`findByEmail` adds; `none` means the object has no such property. -/
structure User where
  id : Nat
  email : String
  firstName : String
  lastName : String
  createdAt : Option DateText
  updatedAt : Option DateText
  isActive : Option Int
  lastLogin : Option DateText
  loginAttempts : JsNum
  lockedUntil : Option DateText
  password : Option String
  deriving DecidableEq, Repr

/-- The constructor, `constructor(data)` (User.js 8-19): copies ten properties. -/
def User.new (data : Data) : User :=
  { id := data.id
    email := data.email
    firstName := data.firstName
    lastName := data.lastName
    createdAt := data.createdAt
    updatedAt := data.updatedAt
    isActive := data.isActive
    lastLogin := data.lastLogin
    loginAttempts := data.loginAttempts
    lockedUntil := data.lockedUntil
    password := none }

/-- Result row of `SELECT *`. -/
def Row.selectAll (r : Row) : Data :=
  { id := r.id
    email := r.email
    firstName := r.firstName
    lastName := r.lastName
    createdAt := r.createdAt.map DateText.sqlText
    updatedAt := r.updatedAt.map DateText.sqlText
    isActive := r.isActive
    lastLogin := r.lastLogin.map DateText.sqlText
    loginAttempts := JsNum.ofSql r.loginAttempts
    lockedUntil := r.lockedUntil.map DateText.sqlText }

/-- Result row of `SELECT id, email, firstName, lastName, createdAt, lastLogin, isActive`
(User.js 198): the other properties are `undefined`. -/
def Row.selectListed (r : Row) : Data :=
  { id := r.id
    email := r.email
    firstName := r.firstName
    lastName := r.lastName
    createdAt := r.createdAt.map DateText.sqlText
    updatedAt := none
    isActive := r.isActive
    lastLogin := r.lastLogin.map DateText.sqlText
    loginAttempts := JsNum.undefined
    lockedUntil := none }

/-- The SQL condition `isActive = 1`. -/
def Row.active (r : Row) : Bool := r.isActive == some 1

/-- Rejection raised for a driver error: `'Database error: ' + err.message`. -/
def databaseError (err : SqliteError) : String := "Database error: " ++ err.message

/-- `User.findByEmail(email, includePassword)` (User.js 71-94). -/
def User.findByEmail (env : Env) (db : Db) (email : String) (includePassword : Bool) :
    Except String (Option User) :=
  match env.getFault with
  | some err => .error (databaseError err)
  | none =>
    match db.rows.find? (fun r => r.email == email && r.active) with
    | some row =>
      let user := User.new row.selectAll
      if includePassword then .ok (some { user with password := some row.password })
      else .ok (some user)
    | none => .ok none

/-- `User.findById(id)` (User.js 97-115). -/
def User.findById (env : Env) (db : Db) (id : Nat) : Except String (Option User) :=
  match env.getFault with
  | some err => .error (databaseError err)
  | none =>
    match db.rows.find? (fun r => r.id == id && r.active) with
    | some row => .ok (some (User.new row.selectAll))
    | none => .ok none

/-- `User.verifyPassword(plainPassword, hashedPassword)` (User.js 118-128). -/
def User.verifyPassword (env : Env) (plainPassword hashedPassword : String) :
    Except String Bool :=
  match env.bcrypt.compare plainPassword hashedPassword with
  | none => .error "Password verification failed"
  | some result => .ok result

/-- The rowid an `AUTOINCREMENT` insert assigns: one more than the largest rowid that ever
existed in the table. -/
def Db.nextId (db : Db) : Nat :=
  max db.seq (db.rows.foldr (fun r m => max r.id m) 0) + 1

/-- The argument of `User.create`. -/
structure UserData where
  email : String
  password : String
  firstName : String
  lastName : String
  deriving DecidableEq, Repr

/-- The text `CURRENT_TIMESTAMP` yields when the clock shows `now` milliseconds: the
current UTC date and time cut to the whole second. -/
def currentTimestamp (now : Nat) : Nat := now / 1000

/-- The row stored by `INSERT INTO users (email, password, firstName, lastName, createdAt,
updatedAt) VALUES (?, ?, ?, ?, CURRENT_TIMESTAMP, CURRENT_TIMESTAMP)`; the columns not
listed take their defaults from the schema. -/
def insertedRow (now : Nat) (id : Nat) (email hashedPassword firstName lastName : String) :
    Row :=
  { id := id
    email := email
    password := hashedPassword
    firstName := firstName
    lastName := lastName
    createdAt := some (currentTimestamp now)
    updatedAt := some (currentTimestamp now)
    isActive := some 1
    lastLogin := none
    loginAttempts := some 0
    lockedUntil := none }

/-- The bcrypt cost used by `create`. -/
def saltRounds : Nat := 12

/-- `User.create(userData)` (User.js 26-68).  Returns the table afterwards and what the
promise settles with (`.error msg` for `reject(new Error(msg))`). -/
def User.create (env : Env) (db : Db) (userData : UserData) :
    Db × Except String (Option User) :=
  match env.bcrypt.hash userData.password saltRounds env.entropy with
  | none => (db, .error "Password hashing failed")
  | some hashedPassword =>
    let insertErr : Option SqliteError :=
      match env.runFault with
      | some err => some err
      | none =>
        if db.rows.any (fun r => r.email == userData.email) then some uniqueViolation
        else none
    match insertErr with
    | some err =>
      if err.code = "SQLITE_CONSTRAINT_UNIQUE" then (db, .error "Email already exists")
      else (db, .error (databaseError err))
    | none =>
      let lastID := db.nextId
      let db1 : Db :=
        { rows := db.rows ++ [insertedRow env.now lastID userData.email hashedPassword
            userData.firstName userData.lastName]
          seq := lastID }
      (db1, User.findById env db1 lastID)

/-- The `SET` clause of `updateLastLogin` (User.js 136):
`lastLogin = CURRENT_TIMESTAMP, loginAttempts = 0, updatedAt = CURRENT_TIMESTAMP`. -/
def Row.lastLoginSet (now : Nat) (r : Row) : Row :=
  { r with
    lastLogin := some (currentTimestamp now)
    loginAttempts := some 0
    updatedAt := some (currentTimestamp now) }

/-- `updateLastLogin()` (User.js 131-151): the table afterwards and the settled promise.
The object gets `new Date().toISOString()`, the row `CURRENT_TIMESTAMP`. -/
def User.updateLastLogin (env : Env) (db : Db) (self : User) : Db × Except String User :=
  match env.runFault with
  | some err => (db, .error (databaseError err))
  | none =>
    (db.updateWhereId self.id (Row.lastLoginSet env.now),
      .ok { self with lastLogin := some (.isoString env.now), loginAttempts := .num 0 })

/-- Constant `maxAttempts` of `incrementLoginAttempts`. -/
def maxAttempts : Int := 5

/-- Constant `lockDuration` of `incrementLoginAttempts`, in milliseconds. -/
def lockDuration : Nat := 15 * 60 * 1000

/-- The text `datetime('now', '+N seconds')` yields when the clock shows `now`
milliseconds: the UTC date and time `N` seconds later, cut to the whole second. -/
def datetimeNowPlus (now seconds : Nat) : Nat := (now + seconds * 1000) / 1000

/-- The `SET` clause of `incrementLoginAttempts` (User.js 160-170); every right-hand side
reads the row as it was before the statement.  Arithmetic and comparison on `NULL` give
`NULL`, which sends `CASE` to its `ELSE`. -/
def Row.incrementSet (now : Nat) (r : Row) : Row :=
  { r with
    loginAttempts := r.loginAttempts.map (fun n => n + 1)
    lockedUntil :=
      match r.loginAttempts with
      | some n =>
        if n + 1 ≥ maxAttempts then some (datetimeNowPlus now (lockDuration / 1000))
        else r.lockedUntil
      | none => r.lockedUntil
    updatedAt := some (currentTimestamp now) }

/-- What the callback of `incrementLoginAttempts` does to the object (User.js 178-181):
`this.loginAttempts++`, then the lock when the new count is at least `maxAttempts`, as
`new Date(Date.now() + lockDuration).toISOString()`. -/
def User.incremented (now : Nat) (self : User) : User :=
  let self1 : User := { self with loginAttempts := self.loginAttempts.incr }
  if self1.loginAttempts.ge maxAttempts then
    { self1 with lockedUntil := some (.isoString (now + lockDuration)) }
  else self1

/-- `incrementLoginAttempts()` (User.js 154-185): the table afterwards and the settled
promise. -/
def User.incrementLoginAttempts (env : Env) (db : Db) (self : User) :
    Db × Except String User :=
  match env.runFault with
  | some err => (db, .error (databaseError err))
  | none => (db.updateWhereId self.id (Row.incrementSet env.now), .ok (self.incremented env.now))

/-- Consecutive `incrementLoginAttempts()` calls on one object, one per element of `envs`,
each awaited before the next; stops at the first rejection. -/
def User.incrementLoginAttemptsSeq : List Env → Db → User → Db × Except String User
  | [], db, self => (db, .ok self)
  | env :: envs, db, self =>
    match self.incrementLoginAttempts env db with
    | (db1, .ok self1) => User.incrementLoginAttemptsSeq envs db1 self1
    | (db1, .error msg) => (db1, .error msg)

/-- `isLocked()` (User.js 188-191), evaluated in a process of time zone `zone` when the
clock shows `now`: `new Date(this.lockedUntil) > new Date()`. -/
def User.isLocked (self : User) (zone : TimeZone) (now : Nat) : Bool :=
  match self.lockedUntil with
  | none => false
  | some lockedUntil => decide (lockedUntil.getTime zone > (now : Int))

/-- Sort key of `ORDER BY createdAt`: `NULL` sorts below every value, and the texts of
the column compare as the seconds they spell. -/
def Row.createdKey (r : Row) : Nat :=
  match r.createdAt with
  | none => 0
  | some t => t + 1

/-- The rows selected by the query of `findAll` (User.js 197-203): active rows, newest
first (rows with equal `createdAt` keep their storage order), `LIMIT ? OFFSET ?` with
SQLite's reading of negative values (no limit; offset 0). -/
def Db.listActive (db : Db) (limit offset : Int) : List Row :=
  let sorted := (db.rows.filter Row.active).insertionSort
    (fun a b => b.createdKey ≤ a.createdKey)
  let skipped := sorted.drop offset.toNat
  if limit < 0 then skipped else skipped.take limit.toNat

/-- `User.findAll(limit, offset)` (User.js 194-215). -/
def User.findAll (env : Env) (db : Db) (limit offset : Int) : Except String (List User) :=
  match env.getFault with
  | some err => .error (databaseError err)
  | none => .ok ((db.listActive limit offset).map (fun row => User.new row.selectListed))

/-- `User.count()` (User.js 218-232). -/
def User.count (env : Env) (db : Db) : Except String Nat :=
  match env.getFault with
  | some err => .error (databaseError err)
  | none => .ok (db.rows.filter Row.active).length

/-- A property value of the object literal returned by `toJSON`. -/
inductive JsValue where
  | null
  | num (n : Int)
  | str (s : String)
  | date (t : DateText)
  deriving DecidableEq, Repr

/-- A nullable date property as a value. -/
def JsValue.ofDate : Option DateText → JsValue
  | none => .null
  | some t => .date t

/-- A nullable integer property as a value. -/
def JsValue.ofInt : Option Int → JsValue
  | none => .null
  | some n => .num n

/-- `toJSON()` (User.js 235-246): the object literal as its list of properties, in source
order. -/
def User.toJSON (self : User) : List (String × JsValue) :=
  [ ("id", .num self.id),
    ("email", .str self.email),
    ("firstName", .str self.firstName),
    ("lastName", .str self.lastName),
    ("fullName", .str (self.firstName ++ " " ++ self.lastName)),
    ("createdAt", JsValue.ofDate self.createdAt),
    ("lastLogin", JsValue.ofDate self.lastLogin),
    ("isActive", JsValue.ofInt self.isActive) ]

/-! The protected routes (`backend/routes/users.js`). -/

/-- The environment variables the server reads (`process.env`); `none` is an unset
variable. -/
structure ProcessEnv where
  JWT_SECRET : Option String
  NODE_ENV : Option String
  deriving DecidableEq, Repr

/-- `JWT_SECRET` of routes/users.js 6:
`process.env.JWT_SECRET || 'your-super-secret-jwt-key-change-in-production'`. -/
def ProcessEnv.jwtSecret (penv : ProcessEnv) : String :=
  match penv.JWT_SECRET with
  | some s => if s = "" then "your-super-secret-jwt-key-change-in-production" else s
  | none => "your-super-secret-jwt-key-change-in-production"

/-- The decoded payload of a token: the `userId` the routes read (`none` when the payload
has no such property) and the remaining properties. -/
structure Payload where
  userId : Option Nat
  rest : List (String × JsValue)
  deriving DecidableEq, Repr

/-- The error classes with which `jwt.verify` calls back. -/
inductive JwtError where
  | tokenExpired
  | jsonWebToken (message : String)
  | notBefore
  deriving DecidableEq, Repr

/-- The jsonwebtoken primitive: `verify token secret now` is what the callback of
`jwt.verify(token, secret, cb)` receives when the clock shows `now`. -/
structure Jwt where
  verify : String → String → Nat → Except JwtError Payload

/-- The part of an Express request the routes read: the `authorization` header, the
`user` property middleware may have set, and the client address. -/
structure Request where
  authorization : Option String
  user : Option Payload
  ip : String
  deriving DecidableEq, Repr

/-- A JavaScript number as `GET /all` computes with it: an integer (every finite value
that arises there is one), an infinity or `NaN`. -/
inductive JsNumber where
  | nan
  | negInf
  | posInf
  | int (n : Int)
  deriving DecidableEq, Repr

/-- The pagination object of `GET /all`. -/
structure Pagination where
  currentPage : JsNumber
  totalPages : JsNumber
  totalUsers : Nat
  usersPerPage : JsNumber
  hasNextPage : Bool
  hasPrevPage : Bool
  deriving DecidableEq, Repr

/-- The JSON bodies the server sends, by shape. -/
inductive Body where
  /-- shape `{ success: false, message }` -/
  | failure (message : String)
  /-- shape `{ success: false, message, error }` -/
  | failureDetail (message error : String)
  /-- shape `{ success: true, data: { user } }` -/
  | profile (user : List (String × JsValue))
  /-- shape `{ success: true, data: { users, pagination } }` -/
  | users (users : List (List (String × JsValue))) (pagination : Pagination)
  /-- shape `{ success: true, data: { totalUsers, registeredToday, activeLastMonth,
  timestamp } }` -/
  | stats (totalUsers : Nat) (registeredToday activeLastMonth : Nat) (timestamp : Nat)
  /-- body sent as plain text -/
  | text (message : String)
  deriving DecidableEq, Repr

/-- A response that was sent: `res.status(status).json(body)`; `res.json(body)` sends 200. -/
structure Response where
  status : Nat
  body : Body
  deriving DecidableEq, Repr

/-- `s.split(' ')` on the characters of `s`. -/
def splitOnSpace : List Char → List (List Char)
  | [] => [[]]
  | c :: cs =>
    if c = ' ' then [] :: splitOnSpace cs
    else
      match splitOnSpace cs with
      | [] => [[c]]
      | w :: ws => (c :: w) :: ws

/-- The value of `authHeader && authHeader.split(' ')[1]` (routes/users.js 10-11) when it
is truthy, i.e. a non-empty string; `none` when it is `undefined` or `''`. -/
def bearerToken (req : Request) : Option String :=
  match req.authorization with
  | none => none
  | some authHeader =>
    if authHeader = "" then none
    else
      match (splitOnSpace authHeader.toList)[1]? with
      | none => none
      | some [] => none
      | some (c :: cs) => some (String.mk (c :: cs))

/-- What a middleware did with a request: the request as it leaves (with the properties
it set), the response it sent if any, and whether it called `next()`. -/
structure Handled where
  req : Request
  response : Option Response
  nextCalled : Bool
  deriving DecidableEq, Repr

/-- `authenticateToken` (routes/users.js 9-30). -/
def authenticateToken (jwt : Jwt) (penv : ProcessEnv) (now : Nat) (req : Request) : Handled :=
  match bearerToken req with
  | none =>
    { req := req
      response := some { status := 401, body := .failure "Access token required" }
      nextCalled := false }
  | some token =>
    match jwt.verify token penv.jwtSecret now with
    | .error _ =>
      { req := req
        response := some { status := 403, body := .failure "Invalid or expired token" }
        nextCalled := false }
    | .ok decoded =>
      { req := { req with user := some decoded }
        response := none
        nextCalled := true }

/-- A route `router.METHOD(path, authenticateToken, handler)`: the handler runs when the
middleware called `next()`, on the request the middleware left; its `req.user` is the
payload. -/
def protectedRoute (jwt : Jwt) (penv : ProcessEnv) (now : Nat)
    (handler : Request → Payload → Response) (req : Request) : Option Response :=
  let handled := authenticateToken jwt penv now req
  if handled.nextCalled then
    match handled.req.user with
    | some decoded => some (handler handled.req decoded)
    | none => handled.response
  else handled.response

/-- The `error` property of the 500 bodies:
`process.env.NODE_ENV === 'development' ? error.message : 'Internal server error'`. -/
def errorDetail (penv : ProcessEnv) (message : String) : String :=
  if penv.NODE_ENV = some "development" then message else "Internal server error"

/-- `User.findById(req.user.userId)`: a payload without `userId` binds `NULL`, which no
row matches. -/
def User.findByUserId (env : Env) (db : Db) (userId : Option Nat) :
    Except String (Option User) :=
  match userId with
  | some id => User.findById env db id
  | none =>
    match env.getFault with
    | some err => .error (databaseError err)
    | none => .ok none

/-- Handler of `GET /profile` (routes/users.js 33-59). -/
def getProfile (penv : ProcessEnv) (env : Env) (db : Db) (decoded : Payload) : Response :=
  match User.findByUserId env db decoded.userId with
  | .error message =>
    { status := 500
      body := .failureDetail "Failed to fetch profile" (errorDetail penv message) }
  | .ok none => { status := 404, body := .failure "User not found" }
  | .ok (some user) => { status := 200, body := .profile user.toJSON }

/-- How many low bits a double drops from the natural number `n`: the largest `e` up to
the bound with `2 ^ (e + 52) <= n`, or 0 (a double carries 53 significant bits). -/
def droppedBits (n : Nat) : Nat → Nat
  | 0 => 0
  | e + 1 => if 1 <<< (e + 53) ≤ n then e + 1 else droppedBits n e

/-- The power of two just beyond the doubles, `2 ^ 1024`. -/
def doubleBound : Nat := 1 <<< 1024

/-- The double nearest to the natural number `n`, ties going to the even significand;
`none` when that lies beyond the largest double, where the Number value is an infinity. -/
def nearestDouble (n : Nat) : Option Nat :=
  if doubleBound ≤ n then none
  else
    let e := droppedBits n 971
    let q := n / (1 <<< e)
    let r := n % (1 <<< e)
    let significand := if 1 <<< e < 2 * r ∨ (2 * r = 1 <<< e ∧ q % 2 = 1) then q + 1 else q
    if doubleBound ≤ significand * (1 <<< e) then none else some (significand * (1 <<< e))

/-- The Number value of a mathematical integer: the nearest double, or an infinity. -/
def JsNumber.ofInt (n : Int) : JsNumber :=
  match nearestDouble n.natAbs with
  | none => if n < 0 then .negInf else .posInf
  | some m => .int (if n < 0 then -(m : Int) else (m : Int))

/-- What `parseInt` returns for a query parameter, as a function of the integer that the
parameter's leading sign and digits spell; `none` when the parameter is missing or does
not start with a number, and the result is `NaN`. -/
def parseInt (digits : Option Int) : JsNumber :=
  match digits with
  | none => .nan
  | some n => JsNumber.ofInt n

/-- The value of `x || d`: `NaN` and 0 are falsy. -/
def JsNumber.orElse (x d : JsNumber) : JsNumber :=
  if x = .nan ∨ x = .int 0 then d else x

/-- The value of `Math.max(a, b)`. -/
def JsNumber.max : JsNumber → JsNumber → JsNumber
  | .nan, _ => .nan
  | _, .nan => .nan
  | .posInf, _ => .posInf
  | _, .posInf => .posInf
  | .negInf, b => b
  | a, .negInf => a
  | .int a, .int b => .int (Max.max a b)

/-- The value of `Math.min(a, b)`. -/
def JsNumber.min : JsNumber → JsNumber → JsNumber
  | .nan, _ => .nan
  | _, .nan => .nan
  | .negInf, _ => .negInf
  | _, .negInf => .negInf
  | .posInf, b => b
  | a, .posInf => a
  | .int a, .int b => .int (Min.min a b)

/-- The value of `a - b`. -/
def JsNumber.sub : JsNumber → JsNumber → JsNumber
  | .nan, _ => .nan
  | _, .nan => .nan
  | .posInf, .posInf => .nan
  | .negInf, .negInf => .nan
  | .posInf, _ => .posInf
  | .negInf, _ => .negInf
  | .int _, .posInf => .negInf
  | .int _, .negInf => .posInf
  | .int a, .int b => JsNumber.ofInt (a - b)

/-- The sign of a number that is not `NaN`, as -1, 0 or 1. -/
def JsNumber.sign : JsNumber → Int
  | .nan => 0
  | .negInf => -1
  | .posInf => 1
  | .int n => Int.sign n

/-- The value of `a * b`. -/
def JsNumber.mul : JsNumber → JsNumber → JsNumber
  | .nan, _ => .nan
  | _, .nan => .nan
  | .int a, .int b => JsNumber.ofInt (a * b)
  | a, b =>
    if a.sign * b.sign = 0 then .nan
    else if a.sign * b.sign > 0 then .posInf
    else .negInf

/-- The value of `a < b`. -/
def JsNumber.lt : JsNumber → JsNumber → Bool
  | .nan, _ => false
  | _, .nan => false
  | .int a, .int b => decide (a < b)
  | .negInf, .negInf => false
  | .negInf, _ => true
  | .posInf, _ => false
  | .int _, .posInf => true
  | .int _, .negInf => false

/-- The integer SQLite takes for a number bound where it needs an integer (`LIMIT`,
`OFFSET`): the driver binds a JavaScript number as an integer or as a float, and SQLite
converts a float that is a whole number of size below `2 ^ 63`; `none` when there is no
such integer, and the statement fails with `SQLITE_MISMATCH`. -/
def JsNumber.sqlInteger : JsNumber → Option Int
  | .int n => if -(2 ^ 63 : Int) < n ∧ n < 2 ^ 63 then some n else none
  | _ => none

/-- The error object with which the driver calls back when SQLite refuses a bound value
where it needs an integer. -/
def datatypeMismatch : SqliteError :=
  { code := "SQLITE_MISMATCH", message := "SQLITE_MISMATCH: datatype mismatch" }

/-- `User.findAll(limit, offset)` (User.js 194-215) as the route calls it, with the
JavaScript numbers it computed: `db.all` binds the two numbers, the statement fails when
one of them is not an integer SQLite can take, and otherwise the query runs with the two
integers. -/
def User.findAllBound (env : Env) (db : Db) (limit offset : JsNumber) :
    Except String (List User) :=
  match env.getFault with
  | some err => .error (databaseError err)
  | none =>
    match limit.sqlInteger, offset.sqlInteger with
    | some l, some o => User.findAll env db l o
    | _, _ => .error (databaseError datatypeMismatch)

/-- The `page` of `GET /all`: `Math.max(1, parseInt(req.query.page) || 1)`. -/
def pageOf (parsedPage : Option Int) : JsNumber :=
  JsNumber.max (.int 1) ((parseInt parsedPage).orElse (.int 1))

/-- The `limit` of `GET /all`:
`Math.min(100, Math.max(1, parseInt(req.query.limit) || 10))`. -/
def limitOf (parsedLimit : Option Int) : JsNumber :=
  JsNumber.min (.int 100) (JsNumber.max (.int 1) ((parseInt parsedLimit).orElse (.int 10)))

/-- The `offset` of `GET /all`: `(page - 1) * limit`. -/
def offsetOf (parsedPage parsedLimit : Option Int) : JsNumber :=
  ((pageOf parsedPage).sub (.int 1)).mul (limitOf parsedLimit)

/-- The value of `Math.ceil(totalUsers / limit)` for a positive `limit`. -/
def ceilDiv (totalUsers : Nat) (limit : Int) : Int :=
  ((totalUsers : Int) + limit - 1) / limit

/-- The `totalPages` of `GET /all`: `Math.ceil(totalUsers / limit)` for the count
`User.count()` resolved with.  A division by 0 gives an infinity or `NaN`, a division by
an infinity gives 0. -/
def totalPagesOf (totalUsers : Nat) : JsNumber → JsNumber
  | .nan => .nan
  | .posInf => .int 0
  | .negInf => .int 0
  | .int limit =>
    if limit > 0 then .int (ceilDiv totalUsers limit)
    else if limit < 0 then .int (-((totalUsers : Int) / (-limit)))
    else if totalUsers = 0 then .nan
    else .posInf

/-- Handler of `GET /all` (routes/users.js 103-136), as a function of the integers the
two query parameters spell (`none`: `parseInt` gives `NaN`); `envList` serves
`User.findAll` and `envCount` serves `User.count`. -/
def getAll (penv : ProcessEnv) (envList envCount : Env) (db : Db)
    (parsedPage parsedLimit : Option Int) : Response :=
  let page := pageOf parsedPage
  let limit := limitOf parsedLimit
  let offset := (page.sub (.int 1)).mul limit
  match User.findAllBound envList db limit offset with
  | .error message =>
    { status := 500
      body := .failureDetail "Failed to fetch users" (errorDetail penv message) }
  | .ok users =>
    match User.count envCount db with
    | .error message =>
      { status := 500
        body := .failureDetail "Failed to fetch users" (errorDetail penv message) }
    | .ok totalUsers =>
      let totalPages := totalPagesOf totalUsers limit
      { status := 200
        body := .users (users.map User.toJSON)
          { currentPage := page
            totalPages := totalPages
            totalUsers := totalUsers
            usersPerPage := limit
            hasNextPage := page.lt totalPages
            hasPrevPage := (JsNumber.int 1).lt page } }

/-- Handler of `GET /stats` (routes/users.js 139-166). -/
def getStats (penv : ProcessEnv) (env : Env) (db : Db) : Response :=
  match User.count env db with
  | .error message =>
    { status := 500
      body := .failureDetail "Failed to fetch statistics" (errorDetail penv message) }
  | .ok totalUsers => { status := 200, body := .stats totalUsers 0 0 env.now }

/-! The rate limiters of `backend/server.js`. -/

/-- The options object passed to `rateLimit` of express-rate-limit. -/
structure RateLimitOptions where
  windowMs : Nat
  max : Nat
  message : String
  deriving DecidableEq, Repr

/-- Options of `limiter` (server.js 22-26), mounted on `/api/`. -/
def limiterOptions : RateLimitOptions :=
  { windowMs := 15 * 60 * 1000
    max := 100
    message := "Too many requests from this IP, please try again later." }

/-- Options of `authLimiter` (server.js 30-34), mounted on `/api/auth`. -/
def authLimiterOptions : RateLimitOptions :=
  { windowMs := 15 * 60 * 1000
    max := 5
    message := "Too many authentication attempts, please try again later." }

/-- One entry of a limiter's store: the hits counted in the current window of a key and
the instant at which that window ends. -/
structure Hits where
  totalHits : Nat
  resetTime : Nat
  deriving DecidableEq, Repr

/-- The memory store of one limiter: the entry of each key (client address), if any. -/
def HitStore := String → Option Hits

/-- The empty store of a limiter that has seen no request. -/
def HitStore.empty : HitStore := fun _ => none

/-- Counting one request of `key` at time `now`, as express-rate-limit documents its
default store (the library is a dependency of the repository, not part of it): a key
without a live window opens one of length `windowMs` with one hit, otherwise its hit count
goes up by one.  Returns the entry after counting. -/
def HitStore.hit (opts : RateLimitOptions) (store : HitStore) (key : String) (now : Nat) :
    Hits :=
  match store key with
  | none => { totalHits := 1, resetTime := now + opts.windowMs }
  | some entry =>
    if now < entry.resetTime then { entry with totalHits := entry.totalHits + 1 }
    else { totalHits := 1, resetTime := now + opts.windowMs }

/-- The store after counting one request of `key` at time `now`. -/
def HitStore.record (opts : RateLimitOptions) (store : HitStore) (key : String) (now : Nat) :
    HitStore :=
  fun k => if k = key then some (store.hit opts key now) else store k

/-- The limiter lets a request through while the hit count of its window is at most
`max`; beyond that it answers 429 with `message`. -/
def RateLimitOptions.allows (opts : RateLimitOptions) (entry : Hits) : Bool :=
  decide (entry.totalHits ≤ opts.max)

/-- The response of a limiter that does not let a request through. -/
def RateLimitOptions.tooMany (opts : RateLimitOptions) : Response :=
  { status := 429, body := .text opts.message }

/-- The stores of the two limiters a request to `/api/auth/...` meets. -/
structure Limiters where
  general : HitStore
  auth : HitStore

/-- What the limiters did with one request to a path under `/api/auth`: `window` is the
end of the `authLimiter` window in which the request was counted. -/
inductive Throttle where
  | tooManyGeneral
  | tooManyAuth (window : Nat)
  | passedOn (window : Nat)
  deriving DecidableEq, Repr

/-- The 429 response for a request that is not passed on. -/
def Throttle.response : Throttle → Option Response
  | .tooManyGeneral => some limiterOptions.tooMany
  | .tooManyAuth _ => some authLimiterOptions.tooMany
  | .passedOn _ => none

/-- One request from address `ip` at time `now` to a path under `/api/auth`
(server.js 27 and 50): `limiter` first, then `authLimiter`, then the auth routes. -/
def Limiters.step (ls : Limiters) (ip : String) (now : Nat) : Limiters × Throttle :=
  let general := ls.general.record limiterOptions ip now
  if limiterOptions.allows (ls.general.hit limiterOptions ip now) then
    let entry := ls.auth.hit authLimiterOptions ip now
    let auth := ls.auth.record authLimiterOptions ip now
    if authLimiterOptions.allows entry then
      ({ general := general, auth := auth }, .passedOn entry.resetTime)
    else ({ general := general, auth := auth }, .tooManyAuth entry.resetTime)
  else ({ general := general, auth := ls.auth }, .tooManyGeneral)

/-- A sequence of requests (address, time) to paths under `/api/auth`, in the order the
server handles them: for each its address, its time and what the limiters did with it. -/
def Limiters.run : Limiters → List (String × Nat) → List (String × Nat × Throttle)
  | _, [] => []
  | ls, (ip, now) :: rest =>
    (ip, now, (ls.step ip now).2) :: Limiters.run (ls.step ip now).1 rest

/-- The limiters of a server that has just started. -/
def Limiters.fresh : Limiters := { general := HitStore.empty, auth := HitStore.empty }

/-- How many more requests of `ip` the `authLimiter` store can still let through in the
window that ends at `window`: all of `max` while the address is in an earlier window or in
none, what is left of `max` while it is in that window, none once it is in a later one. -/
def HitStore.budget (store : HitStore) (ip : String) (window : Nat) : Nat :=
  match store ip with
  | none => authLimiterOptions.max
  | some entry =>
    if entry.resetTime < window then authLimiterOptions.max
    else if entry.resetTime = window then authLimiterOptions.max - entry.totalHits
    else 0

/-- The whole of `app.use('/api/auth', authLimiter, authRoutes)` behind `limiter` for one
request: the auth routes (routes/auth.js, a parameter) see the request and the table only
when both limiters let it through. -/
def apiAuth (authRoutes : Db → Request → Db × Response) (ls : Limiters) (db : Db)
    (req : Request) (now : Nat) : Limiters × Db × Response :=
  match (ls.step req.ip now).2.response with
  | some tooMany => ((ls.step req.ip now).1, db, tooMany)
  | none => ((ls.step req.ip now).1, authRoutes db req)

/-! The validators of `test-registration-basic.js`. -/

/-- The `length` of a JavaScript string: its number of UTF-16 code units. -/
def jsLength (s : String) : Nat :=
  (s.toList.map (fun c => if c.toNat < 65536 then 1 else 2)).sum

/-- Membership in the class `[a-z]`. -/
def isLowerAZ (c : Char) : Bool := decide (97 ≤ c.toNat) && decide (c.toNat ≤ 122)

/-- Membership in the class `[A-Z]`. -/
def isUpperAZ (c : Char) : Bool := decide (65 ≤ c.toNat) && decide (c.toNat ≤ 90)

/-- Membership in the class `[0-9]`. -/
def isDigit09 (c : Char) : Bool := decide (48 ≤ c.toNat) && decide (c.toNat ≤ 57)

/-- `/[...]/.test(s)` for a pattern made of one character class: some character of `s`
is in the class (a character outside the basic plane is two code units, neither of them
ASCII). -/
def testClass (cls : Char → Bool) (s : String) : Bool := s.toList.any cls

/-- `isStrongPassword(password)` (test-registration-basic.js 33-39). -/
def isStrongPassword (password : String) : Bool :=
  decide (jsLength password ≥ 8) &&
  testClass isLowerAZ password &&
  testClass isUpperAZ password &&
  testClass isDigit09 password &&
  testClass (fun c => !(isLowerAZ c || isUpperAZ c || isDigit09 c)) password

/-- Membership in the class `\s` of a JavaScript pattern. -/
def isJsSpace (c : Char) : Bool :=
  let n := c.toNat
  (decide (9 ≤ n) && decide (n ≤ 13)) || n == 32 || n == 160 || n == 5760 ||
  (decide (8192 ≤ n) && decide (n ≤ 8202)) || n == 8232 || n == 8233 || n == 8239 ||
  n == 8287 || n == 12288 || n == 65279

/-- The distinctions the pattern of `isValidEmail` makes between characters. -/
inductive EmailSym where
  | space
  | at
  | dot
  | other
  deriving DecidableEq, Repr

/-- The class of a character for the pattern of `isValidEmail`. -/
def EmailSym.ofChar (c : Char) : EmailSym :=
  if isJsSpace c then .space
  else if c = '@' then .at
  else if c = '.' then .dot
  else .other

/-- The class `[^\s@]`. -/
def notSpaceAt : RegularExpression EmailSym :=
  RegularExpression.char EmailSym.dot + RegularExpression.char EmailSym.other

/-- The piece `[^\s@]+`. -/
def notSpaceAtPlus : RegularExpression EmailSym :=
  notSpaceAt * RegularExpression.star notSpaceAt

/-- The pattern `^[^\s@]+@[^\s@]+\.[^\s@]+$` over character classes; the anchors make the
match cover the whole string. -/
def emailRegex : RegularExpression EmailSym :=
  notSpaceAtPlus * (RegularExpression.char EmailSym.at *
    (notSpaceAtPlus * (RegularExpression.char EmailSym.dot * notSpaceAtPlus)))

/-- `isValidEmail(email)` (test-registration-basic.js 28-31). -/
def isValidEmail (email : String) : Bool :=
  emailRegex.rmatch (email.toList.map EmailSym.ofChar)

/-- The frame of an `UPDATE ... WHERE id = ?` that stamps `updatedAt` with the text for
second `stamp`: the table keeps its length and its `AUTOINCREMENT` mark, exactly one row
has the id, every row with another id is unchanged in its place, and the row with the id
stays in place under the same id with `updatedAt = stamp`. -/
def Db.touchesOnly (before after : Db) (id stamp : Nat) : Prop :=
  after.rows.length = before.rows.length ∧ after.seq = before.seq ∧
  before.rows.countP (fun r => r.id == id) = 1 ∧
  ∀ (i : Nat) (r : Row), before.rows[i]? = some r →
    (r.id ≠ id → after.rows[i]? = some r) ∧
    (r.id = id → ∃ r1, after.rows[i]? = some r1 ∧ r1.id = id ∧ r1.updatedAt = some stamp)

/-- The object `getPasswordStrength` returns: `text` and `class`. -/
structure Strength where
  text : String
  cssClass : String
  deriving DecidableEq, Repr

/-- `getPasswordStrength(password)` (test-registration-basic.js 41-60). -/
def getPasswordStrength (password : String) : Strength :=
  if jsLength password = 0 then { text := "", cssClass := "" }
  else
    let score0 : Nat := 0
    let score1 := if jsLength password ≥ 8 then score0 + 1 else score0
    let score2 := if testClass isLowerAZ password then score1 + 1 else score1
    let score3 := if testClass isUpperAZ password then score2 + 1 else score2
    let score4 := if testClass isDigit09 password then score3 + 1 else score3
    let score :=
      if testClass (fun c => !(isLowerAZ c || isUpperAZ c || isDigit09 c)) password then
        score4 + 1
      else score4
    if score < 3 then { text := "Weak password", cssClass := "strength-weak" }
    else if score < 5 then { text := "Medium strength", cssClass := "strength-medium" }
    else { text := "Strong password", cssClass := "strength-strong" }

/-- The `data` of a form-validation scenario (test-registration-basic.js 91-130). -/
structure FormData where
  firstName : String
  lastName : String
  email : String
  password : String
  confirmPassword : String
  deriving DecidableEq, Repr

/-- The truth value of `!s` for a string `s`: only the empty string is falsy. -/
def jsNot (s : String) : Bool := decide (jsLength s = 0)

/-- The body of the scenario loop (test-registration-basic.js 133-158): the final `valid`
and the `errors` pushed, in order. -/
def validateForm (data : FormData) : Bool × List String :=
  let valid0 := true
  let errors0 : List String := []
  let (valid1, errors1) :=
    if jsNot data.firstName || decide (jsLength data.firstName < 2) then
      (false, errors0 ++ ["First name invalid"])
    else (valid0, errors0)
  let (valid2, errors2) :=
    if jsNot data.lastName || decide (jsLength data.lastName < 2) then
      (false, errors1 ++ ["Last name invalid"])
    else (valid1, errors1)
  let (valid3, errors3) :=
    if jsNot data.email || !isValidEmail data.email then
      (false, errors2 ++ ["Email invalid"])
    else (valid2, errors2)
  let (valid4, errors4) :=
    if jsNot data.password || !isStrongPassword data.password then
      (false, errors3 ++ ["Password not strong enough"])
    else (valid3, errors3)
  if data.password ≠ data.confirmPassword then
    (false, errors4 ++ ["Passwords do not match"])
  else (valid4, errors4)

/-! The mock validators of `tests/unit/security-negative-tests.js`. -/

/-- Membership in the class `\w`. -/
def isWordChar (c : Char) : Bool :=
  isLowerAZ c || isUpperAZ c || isDigit09 c || c.toNat == 95

/-- The assertion `\b` between two neighbouring positions: exactly one side is a word
character (the outside of the string counts as none). -/
def wordBoundary (before after : Option Char) : Bool :=
  (match before with | some c => isWordChar c | none => false) !=
  (match after with | some c => isWordChar c | none => false)

/-- The canonical form under the flag `i` (without `u`): upper case, where a character
outside ASCII never becomes an ASCII one; on the letters a-z this is `c - 32`. -/
def canonicalize (c : Char) : Nat := if isLowerAZ c then c.toNat - 32 else c.toNat

/-- Matching a literal word at the head of the input under the flag `i`: the rest of the
input after the word and the last character matched. -/
def matchWord : List Char → Option Char → List Char → Option (Option Char × List Char)
  | [], last, input => some (last, input)
  | _ :: _, _, [] => none
  | k :: ks, _, c :: cs =>
    if canonicalize k = canonicalize c then matchWord ks (some c) cs else none

/-- The alternatives of `sqlKeywords` (security-negative-tests.js 44). -/
def sqlKeywordList : List String :=
  ["SELECT", "INSERT", "UPDATE", "DELETE", "DROP", "UNION", "OR", "AND"]

/-- Whether `\b(SELECT|...|AND)\b` matches starting right here, `before` being the
character in front of this position. -/
def sqlKeywordHere (before : Option Char) (input : List Char) : Bool :=
  wordBoundary before input.head? &&
  sqlKeywordList.any (fun word =>
    match matchWord word.toList before input with
    | some (last, rest) => wordBoundary last rest.head?
    | none => false)

/-- `sqlKeywords.test(input)`: the pattern matches at some position. -/
def sqlKeywordsFrom (before : Option Char) : List Char → Bool
  | [] => sqlKeywordHere before []
  | c :: cs => sqlKeywordHere before (c :: cs) || sqlKeywordsFrom (some c) cs

/-- `mockValidateInput(input)` (security-negative-tests.js 42-46). -/
def mockValidateInput (input : String) : Bool :=
  !sqlKeywordsFrom none input.toList && decide (jsLength input < 100)

/-- The list `sqlPatterns` (security-negative-tests.js 35-40). -/
def sqlPatterns : List String :=
  ["'; DROP TABLE users; --", "' OR '1'='1", "admin'--", "' UNION SELECT * FROM users --"]

/-- The counter `sqlTestsPassed` after the loop (security-negative-tests.js 48-53). -/
def sqlTestsPassed : Nat := (sqlPatterns.filter (fun pattern => !mockValidateInput pattern)).length

/-- A pattern over characters: classes are given by their membership test. -/
inductive Pat where
  | never
  | empty
  | cls (member : Char → Bool)
  | seq (first second : Pat)
  | alt (left right : Pat)
  | star (body : Pat)

/-- Whether a pattern matches the empty string. -/
def Pat.nullable : Pat → Bool
  | .never => false
  | .empty => true
  | .cls _ => false
  | .seq a b => a.nullable && b.nullable
  | .alt a b => a.nullable || b.nullable
  | .star _ => true

/-- The pattern for what may follow the character `c`. -/
def Pat.deriv (c : Char) : Pat → Pat
  | .never => .never
  | .empty => .never
  | .cls member => if member c then .empty else .never
  | .seq a b =>
    if a.nullable then .alt (.seq (a.deriv c) b) (b.deriv c) else .seq (a.deriv c) b
  | .alt a b => .alt (a.deriv c) (b.deriv c)
  | .star a => .seq (a.deriv c) (.star a)

/-- `/^pattern$/.test(input)`: the pattern matches the whole input. -/
def Pat.test (pattern : Pat) (input : String) : Bool :=
  (input.toList.foldl (fun p c => p.deriv c) pattern).nullable

/-- A range `x-y` of a class, by character codes. -/
def inRange (lo hi : Char) (c : Char) : Bool :=
  decide (lo.toNat ≤ c.toNat) && decide (c.toNat ≤ hi.toNat)

/-- The class `[a-zA-Z0-9._%+-À-ÿ]` as the pattern syntax reads it: the ranges `a-z`,
`A-Z`, `0-9`, the characters `.`, `_`, `%`, the range `+-À` (from `+` to `À`), then the
characters `-` and `ÿ`. -/
def unicodeLocalClass (c : Char) : Bool :=
  inRange 'a' 'z' c || inRange 'A' 'Z' c || inRange '0' '9' c || c == '.' || c == '_' ||
  c == '%' || inRange '+' 'À' c || c == '-' || c == 'ÿ'

/-- The class `[a-zA-Z0-9.-À-ÿ]` as the pattern syntax reads it: the ranges `a-z`, `A-Z`,
`0-9`, the range `.-À` (from `.` to `À`), then the characters `-` and `ÿ`. -/
def unicodeDomainClass (c : Char) : Bool :=
  inRange 'a' 'z' c || inRange 'A' 'Z' c || inRange '0' '9' c || inRange '.' 'À' c ||
  c == '-' || c == 'ÿ'

/-- The pattern `^[a-zA-Z0-9._%+-À-ÿ]+@[a-zA-Z0-9.-À-ÿ]+\.[a-zA-Z]{2,}$`
(security-negative-tests.js 112). -/
def unicodePattern : Pat :=
  .seq (.seq (.cls unicodeLocalClass) (.star (.cls unicodeLocalClass)))
    (.seq (.cls (fun c => c == '@'))
      (.seq (.seq (.cls unicodeDomainClass) (.star (.cls unicodeDomainClass)))
        (.seq (.cls (fun c => c == '.'))
          (.seq (.cls (fun c => inRange 'a' 'z' c || inRange 'A' 'Z' c))
            (.seq (.cls (fun c => inRange 'a' 'z' c || inRange 'A' 'Z' c))
              (.star (.cls (fun c => inRange 'a' 'z' c || inRange 'A' 'Z' c))))))))

/-- The list `specialInputs` (security-negative-tests.js 102-108): name, input,
`shouldPass`. -/
def specialInputs : List (String × String × Bool) :=
  [ ("Unicode email", "tëst@ëxample.com", true),
    ("Emoji in email", "😀@example.com", false),
    ("Control characters", "test\x00@example.com", false),
    ("Unicode password", "Pässwörd1!", true),
    ("Zero-width characters", "test\u200B@example.com", false) ]

/-- The counter `unicodeTestsPassed` after the loop (security-negative-tests.js 110-120). -/
def unicodeTestsPassed : Nat :=
  (specialInputs.filter (fun test => unicodePattern.test test.2.1 == test.2.2)).length

/-- The writes of the user model, each with the environment it runs in. -/
inductive WriteOp where
  | create (env : Env) (userData : UserData)
  | updateLastLogin (env : Env) (user : User)
  | incrementLoginAttempts (env : Env) (user : User)

/-- The table after a write. -/
def WriteOp.apply (db : Db) : WriteOp → Db
  | .create env userData => (User.create env db userData).1
  | .updateLastLogin env user => (user.updateLastLogin env db).1
  | .incrementLoginAttempts env user => (user.incrementLoginAttempts env db).1

/-- Whether a write is an `updateLastLogin` of a user with the given id. -/
def WriteOp.resets (id : Nat) : WriteOp → Bool
  | .updateLastLogin _ user => user.id == id
  | _ => false

/-! The report of `tests/ui/visual-regression-tester.js`. -/

/-- One entry of `this.results`: the properties the report reads. -/
structure VisualResult where
  name : String
  passed : Bool
  isNewBaseline : Bool
  deriving DecidableEq, Repr

/-- The values of the properties of the report. -/
inductive ReportValue where
  | num (n : Nat)
  /-- the value `parseFloat(passRate)`, kept as the two counts it is computed from -/
  | rate (passed total : Nat)
  | results (items : List VisualResult)
  | categories (groups : List (String × List VisualResult))
  | directories
  deriving DecidableEq, Repr

/-- `haystack.includes(needle)` on the characters of two strings. -/
def includes (haystack needle : String) : Bool :=
  haystack.toList.tails.any (fun tail => needle.toList.isPrefixOf tail)

/-- The object literal returned by `generateVisualReport` (visual-regression-tester.js
338-422), as its list of properties in source order; `failedTests` is written twice. -/
def generateVisualReport (results : List VisualResult) : List (String × ReportValue) :=
  let totalTests := results.length
  let passedTests := (results.filter (fun r => r.passed)).length
  let failedTests := totalTests - passedTests
  let categories : List (String × List VisualResult) :=
    [ ("Full Page", results.filter (fun r => includes r.name "full")),
      ("Components", results.filter (fun r =>
        !includes r.name "full" && !includes r.name "mobile" && !includes r.name "tablet")),
      ("Mobile", results.filter (fun r => includes r.name "mobile")),
      ("Tablet", results.filter (fun r => includes r.name "tablet")),
      ("Interactive", results.filter (fun r =>
        includes r.name "hover" || includes r.name "focus" || includes r.name "error")) ]
  let failedTestsDetails := results.filter (fun r => !r.passed)
  let newBaselines := results.filter (fun r => r.isNewBaseline)
  [ ("totalTests", .num totalTests),
    ("passedTests", .num passedTests),
    ("failedTests", .num failedTests),
    ("passRate", .rate passedTests totalTests),
    ("categories", .categories categories),
    ("failedTests", .results failedTestsDetails),
    ("newBaselines", .results newBaselines),
    ("results", .results results),
    ("directories", .directories) ]

/-- Reading a property of an object literal: of two properties with one name the later
one stands. -/
def getProperty (object : List (String × ReportValue)) (key : String) : Option ReportValue :=
  object.reverse.lookup key

/-- The truth value of `value > 0`: an array is compared through its string form, which
is the empty string (the number 0) for `[]` and not a number when it holds objects. -/
def ReportValue.greaterThanZero : Option ReportValue → Bool
  | some (.num n) => decide (n > 0)
  | _ => false

/-- The argument of `process.exit` in the standalone run (visual-regression-tester.js
470): `results.failedTests > 0 ? 1 : 0`. -/
def exitCode (results : List VisualResult) : Nat :=
  if ReportValue.greaterThanZero (getProperty (generateVisualReport results) "failedTests")
  then 1 else 0

/-- The value of `summary.failedTests += visualResults.failedTests` (ui-test-runner.js
166) for a numeric summary: a number when the right side is a number; with an array on
the right `+` concatenates strings, which `none` stands for. -/
def addToSummary (summary : Nat) : Option ReportValue → Option Nat
  | some (.num n) => some (summary + n)
  | _ => none

/-! Concrete data on which the statements below are evaluated. -/

/-- A stand-in for bcrypt that can be evaluated: it tags the plaintext. -/
def sampleBcrypt : Bcrypt :=
  { hash := fun plain _ _ => some ("$2a$12$" ++ plain)
    compare := fun plain hashed => some (hashed == "$2a$12$" ++ plain) }

/-- An environment without storage faults whose clock shows `now`. -/
def sampleEnv (now : Nat) : Env :=
  { now := now
    bcrypt := sampleBcrypt
    entropy := 0
    runFault := none
    getFault := none }

/-- The zone of a process running in UTC. -/
def utc : TimeZone := { offset := fun _ => 0 }

/-- The zone `Asia/Tokyo`: nine hours ahead of UTC, without daylight saving. -/
def tokyo : TimeZone := { offset := fun _ => 9 * 60 * 60 * 1000 }

/-- A zone five hours behind UTC throughout (`Etc/GMT+5`). -/
def fiveWest : TimeZone := { offset := fun _ => -(5 * 60 * 60 * 1000) }

/-- A freshly registered, active user. -/
def aliceRow : Row :=
  { id := 1
    email := "alice@example.com"
    password := "$2a$12$Str0ngPass!"
    firstName := "Alice"
    lastName := "A"
    createdAt := some 1
    updatedAt := some 1
    isActive := some 1
    lastLogin := none
    loginAttempts := some 0
    lockedUntil := none }

/-- A deactivated user with failed attempts on record. -/
def bobRow : Row :=
  { id := 2
    email := "bob@example.com"
    password := "$2a$12$hunter2"
    firstName := "Bob"
    lastName := "B"
    createdAt := some 2
    updatedAt := some 5
    isActive := some 0
    lastLogin := some 3
    loginAttempts := some 7
    lockedUntil := some 4 }

/-- An active user one failed attempt away from the threshold. -/
def carolRow : Row :=
  { id := 3
    email := "carol@example.com"
    password := "$2a$12$correct horse"
    firstName := "Carol"
    lastName := "C"
    createdAt := some 3
    updatedAt := some 6
    isActive := some 1
    lastLogin := none
    loginAttempts := some 4
    lockedUntil := none }

/-- A table holding the three rows above. -/
def sampleDb : Db := { rows := [aliceRow, bobRow, carolRow], seq := 3 }

/-- The object `findByEmail` builds for the first sample row. -/
def alice : User := { User.new aliceRow.selectAll with password := some aliceRow.password }

/-- An object for the second sample row, as read while that row was still active. -/
def bob : User := User.new bobRow.selectAll

/-- The object `findById` builds for the third sample row. -/
def carol : User := User.new carolRow.selectAll

/-- An active user with seven failed attempts on record and a lock until second 4. -/
def erinRow : Row :=
  { id := 1
    email := "erin@example.com"
    password := "$2a$12$tr0ub4dor&3"
    firstName := "Erin"
    lastName := "E"
    createdAt := some 1
    updatedAt := some 3
    isActive := some 1
    lastLogin := none
    loginAttempts := some 7
    lockedUntil := some 4 }

/-- A table holding that row only. -/
def erinDb : Db := { rows := [erinRow], seq := 1 }

/-- The object `findById` builds for that row. -/
def erin : User := User.new erinRow.selectAll

/-- Five failed attempts, ten seconds apart, the fifth while the clock shows 50000 ms. -/
def fiveFailures : List Env :=
  [sampleEnv 10000, sampleEnv 20000, sampleEnv 30000, sampleEnv 40000, sampleEnv 50000]

/-- A registration with an email the sample table does not hold. -/
def daveData : UserData :=
  { email := "dave@example.com", password := "Str0ngPass!", firstName := "Dave", lastName := "D" }

/-- The row the sample table gains when `daveData` is registered while the clock shows
7000 to 7999 milliseconds. -/
def daveRow : Row :=
  { id := 4
    email := "dave@example.com"
    password := "$2a$12$Str0ngPass!"
    firstName := "Dave"
    lastName := "D"
    createdAt := some 7
    updatedAt := some 7
    isActive := some 1
    lastLogin := none
    loginAttempts := some 0
    lockedUntil := none }

/-- A page number of 310 digits, a 1 followed by 309 zeros. -/
def hugePage : Int := Int.ofNat (10 ^ 103 * 10 ^ 103 * 10 ^ 103)

/-- A payload naming the first sample user. -/
def samplePayload : Payload :=
  { userId := some 1, rest := [("email", .str "alice@example.com")] }

/-- A stand-in for jsonwebtoken that can be evaluated: under the default secret it accepts
the token `good`, reports `old` as expired and anything else as malformed; under another
secret it reports a bad signature. -/
def sampleJwt : Jwt :=
  { verify := fun token secret _ =>
      if secret = "your-super-secret-jwt-key-change-in-production" then
        if token = "good" then .ok samplePayload
        else if token = "old" then .error .tokenExpired
        else .error (.jsonWebToken "jwt malformed")
      else .error (.jsonWebToken "invalid signature") }

/-- A process with neither variable set. -/
def plainProcess : ProcessEnv := { JWT_SECRET := none, NODE_ENV := none }

/-- A process started with `NODE_ENV=development`. -/
def developmentProcess : ProcessEnv := { JWT_SECRET := none, NODE_ENV := some "development" }

/-- A request from one client with the given `authorization` header. -/
def sampleRequest (authorization : Option String) : Request :=
  { authorization := authorization, user := none, ip := "203.0.113.7" }

/-- An environment whose queries fail with a disk error. -/
def faultyEnv : Env :=
  { now := 9000
    bcrypt := sampleBcrypt
    entropy := 0
    runFault := none
    getFault := some ⟨"SQLITE_IOERR", "disk I/O error"⟩ }

/-! Auxiliary facts about the table. -/

theorem find_map_update (p : Row → Bool) (id : Nat) (f : Row → Row)
    (hp : ∀ r, p (f r) = p r) (rows : List Row) :
    List.find? p (rows.map (fun r => if r.id = id then f r else r)) =
      (List.find? p rows).map (fun r => if r.id = id then f r else r) := by
  induction rows with
  | nil => rfl
  | cons a as ih =>
    have ha : p (if a.id = id then f a else a) = p a := by
      split
      · exact hp a
      · rfl
    simp only [List.map_cons, List.find?_cons, ha]
    cases p a
    · simpa using ih
    · rfl

theorem incrementSet_id (now : Nat) (r : Row) : (r.incrementSet now).id = r.id := rfl

theorem rowOf_id (db : Db) (id : Nat) (r : Row) (h : db.rowOf id = some r) : r.id = id := by
  have := List.find?_some h
  simpa using this

theorem datetimeNowPlus_lock (now : Nat) :
    datetimeNowPlus now (lockDuration / 1000) = now / 1000 + 900 := by
  show (now + 900 * 1000) / 1000 = now / 1000 + 900
  omega

theorem incrementSet_lockedUntil (now : Nat) (r : Row) (n : Int)
    (h : r.loginAttempts = some n) :
    (r.incrementSet now).lockedUntil =
      if n + 1 ≥ 5 then some (now / 1000 + 900) else r.lockedUntil := by
  simp only [Row.incrementSet, h, maxAttempts, datetimeNowPlus_lock]

theorem rowOf_updateWhereId (db : Db) (id : Nat) (f : Row → Row)
    (hf : ∀ r, (f r).id = r.id) :
    (db.updateWhereId id f).rowOf id = (db.rowOf id).map f := by
  unfold Db.rowOf Db.updateWhereId
  rw [find_map_update _ id f (fun r => by simp [hf r])]
  cases h : List.find? (fun r => r.id == id) db.rows with
  | none => rfl
  | some r =>
    have := List.find?_some h
    simp at this
    simp [this]

theorem incremented_id (now : Nat) (u : User) : (u.incremented now).id = u.id := by
  dsimp only [User.incremented]
  split <;> rfl

theorem incremented_loginAttempts (now : Nat) (u : User) :
    (u.incremented now).loginAttempts = u.loginAttempts.incr := by
  dsimp only [User.incremented]
  split <;> rfl

theorem incremented_lockedUntil (now : Nat) (u : User) :
    (u.incremented now).lockedUntil =
      if u.loginAttempts.incr.ge maxAttempts then some (.isoString (now + lockDuration))
      else u.lockedUntil := by
  dsimp only [User.incremented]
  split <;> rfl

theorem incrementLoginAttemptsSeq_eq_fold (envs : List Env) :
    ∀ (db : Db) (u : User), (∀ e ∈ envs, e.runFault = none) →
      u.incrementLoginAttemptsSeq envs db =
        (envs.foldl (fun d e => d.updateWhereId u.id (Row.incrementSet e.now)) db,
          .ok (envs.foldl (fun v e => v.incremented e.now) u)) := by
  induction envs with
  | nil => intro db u _; rfl
  | cons e es ih =>
    intro db u hok
    have he : e.runFault = none := hok e (List.mem_cons_self _ _)
    have hes : ∀ x ∈ es, x.runFault = none := fun x hx => hok x (List.mem_cons_of_mem _ hx)
    simp only [User.incrementLoginAttemptsSeq, User.incrementLoginAttempts, he, List.foldl_cons]
    rw [ih _ _ hes, incremented_id]

theorem find_fold_incrementSet (p : Row → Bool)
    (hp : ∀ now r, p (Row.incrementSet now r) = p r) (id : Nat) (envs : List Env) :
    ∀ (db : Db) (row : Row), List.find? p db.rows = some row → row.id = id →
      List.find? p
          (envs.foldl (fun d e => d.updateWhereId id (Row.incrementSet e.now)) db).rows =
        some (envs.foldl (fun r e => r.incrementSet e.now) row) := by
  induction envs with
  | nil => intro db row h _; simpa using h
  | cons e es ih =>
    intro db row h hid
    simp only [List.foldl_cons]
    apply ih
    · show List.find? p (db.rows.map _) = _
      rw [find_map_update p id _ (hp e.now), h]
      simp [hid]
    · exact hid

theorem rowFold_attempts (envs : List Env) :
    ∀ (row : Row) (n : Int), row.loginAttempts = some n →
      (envs.foldl (fun r e => r.incrementSet e.now) row).loginAttempts =
        some (n + envs.length) := by
  induction envs with
  | nil => intro row n h; simpa using h
  | cons e es ih =>
    intro row n h
    simp only [List.foldl_cons, List.length_cons]
    rw [ih (row.incrementSet e.now) (n + 1) (by simp [Row.incrementSet, h])]
    congr 1
    push_cast
    ring

theorem rowFold_lockedUntil (envs : List Env) :
    ∀ (row : Row) (n : Int), row.loginAttempts = some n → n + envs.length < 5 →
      (envs.foldl (fun r e => r.incrementSet e.now) row).lockedUntil = row.lockedUntil := by
  induction envs with
  | nil => intro row n _ _; rfl
  | cons e es ih =>
    intro row n h hlt
    simp only [List.foldl_cons, List.length_cons] at hlt ⊢
    push_cast at hlt
    rw [ih (row.incrementSet e.now) (n + 1) (by simp [Row.incrementSet, h]) (by omega)]
    have : ¬ (n + 1 ≥ 5) := by omega
    simp [Row.incrementSet, h, maxAttempts, this]

theorem userFold_attempts (envs : List Env) :
    ∀ (u : User) (n : Int), u.loginAttempts = .num n →
      (envs.foldl (fun v e => v.incremented e.now) u).loginAttempts =
        .num (n + envs.length) := by
  induction envs with
  | nil => intro u n h; simpa using h
  | cons e es ih =>
    intro u n h
    simp only [List.foldl_cons, List.length_cons]
    rw [ih (u.incremented e.now) (n + 1) (by rw [incremented_loginAttempts, h]; rfl)]
    congr 1
    push_cast
    ring

theorem userFold_lockedUntil (envs : List Env) :
    ∀ (u : User) (n : Int), u.loginAttempts = .num n → n + envs.length < 5 →
      (envs.foldl (fun v e => v.incremented e.now) u).lockedUntil = u.lockedUntil := by
  induction envs with
  | nil => intro u n _ _; rfl
  | cons e es ih =>
    intro u n h hlt
    simp only [List.foldl_cons, List.length_cons] at hlt ⊢
    push_cast at hlt
    have hn : ¬ (5 ≤ n + 1) := by omega
    rw [ih (u.incremented e.now) (n + 1) (by rw [incremented_loginAttempts, h]; rfl)
      (by omega)]
    simp [incremented_lockedUntil, h, JsNum.incr, JsNum.ge, maxAttempts, hn]

theorem findByEmail_ok_some (env : Env) (db : Db) (email : String) (incl : Bool) (u : User)
    (h : User.findByEmail env db email incl = .ok (some u)) :
    ∃ row, List.find? (fun r => r.email == email && r.active) db.rows = some row ∧
      u = if incl then { User.new row.selectAll with password := some row.password }
          else User.new row.selectAll := by
  unfold User.findByEmail at h
  cases hf : env.getFault with
  | some err => simp [hf] at h
  | none =>
    cases hr : List.find? (fun r => r.email == email && r.active) db.rows with
    | none => simp [hf, hr] at h
    | some row =>
      refine ⟨row, rfl, ?_⟩
      cases incl <;> simp [hf, hr] at h <;> simp [h]

theorem findByEmail_of_find (env : Env) (db : Db) (email : String) (incl : Bool) (row : Row)
    (hf : env.getFault = none)
    (hr : List.find? (fun r => r.email == email && r.active) db.rows = some row) :
    User.findByEmail env db email incl =
      .ok (some (if incl then { User.new row.selectAll with password := some row.password }
          else User.new row.selectAll)) := by
  unfold User.findByEmail
  cases incl <;> simp [hf, hr]

theorem ofSql_eq_num (o : Option Int) (n : Int) (h : JsNum.ofSql o = .num n) : o = some n := by
  cases o with
  | none => simp [JsNum.ofSql] at h
  | some m => simpa [JsNum.ofSql] using h

theorem listActive_mem (db : Db) (limit offset : Int) (row : Row)
    (h : row ∈ db.listActive limit offset) : row ∈ db.rows ∧ row.active = true := by
  unfold Db.listActive at h
  have hs : row ∈ (db.rows.filter Row.active).insertionSort
      (fun a b => b.createdKey ≤ a.createdKey) := by
    split at h
    · exact List.mem_of_mem_drop h
    · exact List.mem_of_mem_drop (List.mem_of_mem_take h)
  rw [List.mem_insertionSort] at hs
  simpa using hs

theorem nextId_gt (db : Db) : ∀ r ∈ db.rows, r.id < db.nextId := by
  have key : ∀ (rows : List Row), ∀ r ∈ rows,
      r.id ≤ rows.foldr (fun r m => max r.id m) 0 := by
    intro rows
    induction rows with
    | nil => intro r hr; cases hr
    | cons a as ih =>
      intro r hr
      simp only [List.foldr_cons]
      rcases List.mem_cons.1 hr with rfl | h
      · exact le_max_left _ _
      · exact le_trans (ih r h) (le_max_right _ _)
  intro r hr
  have := key db.rows r hr
  unfold Db.nextId
  omega

theorem findById_appended (env : Env) (db : Db) (row : Row) (hf : env.getFault = none)
    (hid : row.id = db.nextId) (hact : row.active = true) (seq : Nat) :
    User.findById env { rows := db.rows ++ [row], seq := seq } db.nextId =
      .ok (some (User.new row.selectAll)) := by
  have hnone : List.find? (fun r => r.id == db.nextId && r.active) db.rows = none := by
    rw [List.find?_eq_none]
    intro x hx hp
    simp only [Bool.and_eq_true, beq_iff_eq] at hp
    have := nextId_gt db x hx
    omega
  simp [User.findById, hf, hnone, hid, hact]

theorem create_ok (env : Env) (db db1 : Db) (ud : UserData) (res : Option User)
    (h : User.create env db ud = (db1, .ok res)) :
    ∃ hashed, env.bcrypt.hash ud.password saltRounds env.entropy = some hashed ∧
      env.runFault = none ∧ env.getFault = none ∧
      (∀ r ∈ db.rows, r.email ≠ ud.email) ∧
      db1 = { rows := db.rows ++
                [insertedRow env.now db.nextId ud.email hashed ud.firstName ud.lastName]
              seq := db.nextId } ∧
      res = some (User.new
        (insertedRow env.now db.nextId ud.email hashed ud.firstName ud.lastName).selectAll) := by
  unfold User.create at h
  cases hh : env.bcrypt.hash ud.password saltRounds env.entropy with
  | none => simp [hh] at h
  | some hashed =>
    cases hrun : env.runFault with
    | some err =>
      simp only [hh, hrun] at h
      split at h <;> simp at h
    | none =>
      cases hany : db.rows.any (fun r => r.email == ud.email) with
      | true =>
        simp only [hh, hrun, hany, if_true] at h
        split at h <;> simp at h
      | false =>
        simp only [hh, hrun, hany] at h
        cases hget : env.getFault with
        | some err => simp [User.findById, hget] at h
        | none =>
          rw [findById_appended env db
            (insertedRow env.now db.nextId ud.email hashed ud.firstName ud.lastName)
            hget rfl rfl] at h
          simp only [Bool.false_eq_true, if_false, Prod.mk.injEq, Except.ok.injEq] at h
          refine ⟨hashed, rfl, rfl, rfl, ?_, h.1.symm, h.2.symm⟩
          intro r hr he
          have := List.any_eq_false.1 hany r hr
          simp [he] at this

/-- C1 (as the code has it). `incrementLoginAttempts` while the clock shows `env.now`
milliseconds, on a user whose stored row has `loginAttempts = n`, resolves and leaves that
row with `loginAttempts = n + 1`; when `n + 1` has reached the threshold (`n + 1 >= 5`)
`lockedUntil` becomes the text for the second `now / 1000 + 900`, the time 900 seconds
from now cut to the whole second, and stays as it was otherwise; only `updatedAt` changes
besides, to the text for the second `now / 1000`.  The stored lock is never later than
now + 15 minutes and less than a second before it. -/
theorem incrementLoginAttempts_stored (env : Env) (db : Db) (u : User) (r : Row) (n : Int)
    (hrow : db.rowOf u.id = some r) (hn : r.loginAttempts = some n)
    (hrun : env.runFault = none) :
    (∃ u1, (u.incrementLoginAttempts env db).2 = .ok u1) ∧
    (u.incrementLoginAttempts env db).1.rowOf u.id =
      some { r with
        loginAttempts := some (n + 1)
        lockedUntil := if n + 1 ≥ 5 then some (env.now / 1000 + 900) else r.lockedUntil
        updatedAt := some (env.now / 1000) } ∧
    ((env.now / 1000 + 900) * 1000 ≤ env.now + 15 * 60 * 1000 ∧
      env.now + 15 * 60 * 1000 < (env.now / 1000 + 900) * 1000 + 1000) := by
  unfold User.incrementLoginAttempts
  rw [hrun]
  refine ⟨⟨_, rfl⟩, ?_, by omega, by omega⟩
  show (db.updateWhereId u.id (Row.incrementSet env.now)).rowOf u.id = _
  rw [rowOf_updateWhereId _ _ _ (incrementSet_id env.now), hrow]
  simp [Row.incrementSet, hn, maxAttempts, datetimeNowPlus_lock, currentTimestamp]

theorem incrementLoginAttempts_stored_witness :
    (sampleDb.rowOf carol.id = some carolRow ∧ carolRow.loginAttempts = some 4 ∧
      (sampleEnv 10500).runFault = none) ∧
    (carol.incrementLoginAttempts (sampleEnv 10500) sampleDb).1.rowOf carol.id =
      some { carolRow with
        loginAttempts := some 5
        lockedUntil := some 910
        updatedAt := some 10 } :=
  ⟨⟨by decide, rfl, rfl⟩,
    (incrementLoginAttempts_stored (sampleEnv 10500) sampleDb carol carolRow 4
      (by decide) rfl rfl).2.1⟩

/-- C1, the claim refuted: a fifth failure recorded while the clock shows 10500 ms stores
the lock for second 910, which is 910000 ms and not 10500 ms + 15 minutes = 910500 ms. -/
theorem incrementLoginAttempts_stored_whole_second :
    ((carol.incrementLoginAttempts (sampleEnv 10500) sampleDb).1.rowOf carol.id).map
        (fun r => (r.loginAttempts, r.lockedUntil)) = some (some 5, some 910) ∧
    910 * 1000 ≠ (sampleEnv 10500).now + 15 * 60 * 1000 := by
  refine ⟨by decide, by decide⟩

/-- C2, the code on five failures.  On the object the five calls ran on, fewer than five
calls leave `isLocked()` false and five calls, the fifth at `e.now`, leave it true at every
`t'` with `e.now <= t' < e.now + 15 min`, in every zone: that object holds an ISO string.
The object a later `findByEmail` reads holds the text of the column, for the second
`e.now / 1000 + 900`, and `isLocked()` reads that text as local time.  In a process nine
hours east of UTC, after failures at 10000, ..., 50000 ms the row holds a lock until
second 950 and the account read back at 50001 ms is not locked; in UTC, with the fifth
failure at 50500 ms, the account read back is no longer locked at 950200 ms, which is
inside the 15 minutes. -/
theorem five_failures_lock :
    (∀ (db : Db) (u : User) (zone : TimeZone),
      u.loginAttempts = .num 0 → u.lockedUntil = none →
      (∀ envs : List Env, envs.length < 5 → (∀ e ∈ envs, e.runFault = none) →
        ∃ db1 u1, u.incrementLoginAttemptsSeq envs db = (db1, .ok u1) ∧
          ∀ t', u1.isLocked zone t' = false ∧
            ∀ env0 email, User.findByEmail env0 db email true = .ok (some u) →
              ∀ env1, env1.getFault = none →
                ∃ v, User.findByEmail env1 db1 email true = .ok (some v) ∧
                  v.isLocked zone t' = false) ∧
      (∀ (envs : List Env) (e : Env), envs.length = 4 →
        (∀ x ∈ envs ++ [e], x.runFault = none) →
        ∃ db1 u1, u.incrementLoginAttemptsSeq (envs ++ [e]) db = (db1, .ok u1) ∧
          u1.lockedUntil = some (.isoString (e.now + 15 * 60 * 1000)) ∧
          (∀ t', e.now ≤ t' → t' < e.now + 15 * 60 * 1000 → u1.isLocked zone t' = true) ∧
          ∀ env0 email, User.findByEmail env0 db email true = .ok (some u) →
            ∀ env1, env1.getFault = none →
              ∃ v, User.findByEmail env1 db1 email true = .ok (some v) ∧
                v.lockedUntil = some (.sqlText (e.now / 1000 + 900)))) ∧
    ((alice.incrementLoginAttemptsSeq fiveFailures sampleDb).1.rowOf 1).map Row.lockedUntil =
      some (some 950) ∧
    (alice.incrementLoginAttemptsSeq fiveFailures sampleDb).2.toOption.map
        (fun u1 => (u1.lockedUntil, u1.isLocked tokyo 50001)) =
      some (some (.isoString 950000), true) ∧
    (User.findByEmail (sampleEnv 50001)
        (alice.incrementLoginAttemptsSeq fiveFailures sampleDb).1
        "alice@example.com" true).toOption.join.map
        (fun v => (v.lockedUntil, v.isLocked tokyo 50001, v.isLocked utc 50001)) =
      some (some (.sqlText 950), false, true) ∧
    (User.findByEmail (sampleEnv 950200)
        (alice.incrementLoginAttemptsSeq
          [sampleEnv 10000, sampleEnv 20000, sampleEnv 30000, sampleEnv 40000,
            sampleEnv 50500] sampleDb).1
        "alice@example.com" true).toOption.join.map
        (fun v => (v.lockedUntil, v.isLocked utc 950200)) =
      some (some (.sqlText 950), false) ∧
    (50500 ≤ 950200 ∧ 950200 < 50500 + 15 * 60 * 1000) := by
  refine ⟨?_, by decide, by decide, by decide, by decide, by decide⟩
  intro db u zone hattempts hlocked
  have hinv : ∀ (email : String) now r,
      (fun r : Row => r.email == email && r.active) (Row.incrementSet now r) =
        (fun r : Row => r.email == email && r.active) r := fun _ _ _ => rfl
  have hrow : ∀ env0 email, User.findByEmail env0 db email true = .ok (some u) →
      ∃ row, List.find? (fun r => r.email == email && r.active) db.rows = some row ∧
        row.id = u.id ∧ row.loginAttempts = some 0 ∧ row.lockedUntil = none := by
    intro env0 email h
    obtain ⟨row, hr, hu⟩ := findByEmail_ok_some _ _ _ _ _ h
    simp only [if_true] at hu
    refine ⟨row, hr, ?_, ?_, ?_⟩
    · rw [hu]; rfl
    · apply ofSql_eq_num
      rw [← hattempts, hu]; rfl
    · have h1 : (row.lockedUntil.map DateText.sqlText) = none := by
        rw [← hlocked, hu]; rfl
      simpa using h1
  constructor
  · intro envs hlen hok
    refine ⟨_, _, incrementLoginAttemptsSeq_eq_fold envs db u hok, ?_⟩
    intro t'
    constructor
    · simp [User.isLocked, userFold_lockedUntil envs u 0 hattempts (by omega), hlocked]
    · intro env0 email h env1 hf
      obtain ⟨row, hr, hid, hn, hl⟩ := hrow env0 email h
      have hfind := find_fold_incrementSet _ (hinv email) u.id envs db row hr hid
      refine ⟨_, findByEmail_of_find env1 _ email true _ hf hfind, ?_⟩
      have := rowFold_lockedUntil envs row 0 hn (by omega)
      simp [User.isLocked, User.new, Row.selectAll, this, hl]
  · intro envs e hlen hok
    have hu := userFold_attempts envs u 0 hattempts
    rw [hlen] at hu
    have hlock : (List.foldl (fun v e => v.incremented e.now) u (envs ++ [e])).lockedUntil =
        some (.isoString (e.now + 15 * 60 * 1000)) := by
      simp [List.foldl_append, incremented_lockedUntil, hu, JsNum.incr, JsNum.ge, maxAttempts,
        lockDuration]
    refine ⟨_, _, incrementLoginAttemptsSeq_eq_fold _ db u hok, hlock, ?_, ?_⟩
    · intro t' h1 h2
      simp only [User.isLocked, hlock, DateText.getTime, decide_eq_true_eq]
      omega
    · intro env0 email h env1 hf
      obtain ⟨row, hr, hid, hn, hl⟩ := hrow env0 email h
      have hfind := find_fold_incrementSet _ (hinv email) u.id (envs ++ [e]) db row hr hid
      refine ⟨_, findByEmail_of_find env1 _ email true _ hf hfind, ?_⟩
      have hr4 := rowFold_attempts envs row 0 hn
      rw [hlen] at hr4
      simp only [List.foldl_append, List.foldl_cons, List.foldl_nil, User.new,
        Row.selectAll, incrementSet_lockedUntil _ _ _ hr4]
      simp

/-- C3, the code on `isLocked()`.  It returns true exactly when `lockedUntil` is set and
`new Date(lockedUntil)` is later than now.  For the ISO string the object's own methods
assign, and for the text of the column in a process in UTC, that is the instant the
property denotes.  For the text of the column elsewhere it is not: nine hours east of UTC
an object whose `lockedUntil` reads second 950 (a lock until 950000 ms) is not locked at
50001 ms, and five hours west of UTC it is still locked at 1000000 ms, after the lock has
ended. -/
theorem isLocked_iff (u : User) (zone : TimeZone) (now : Nat) :
    (u.isLocked zone now = true ↔
      ∃ d, u.lockedUntil = some d ∧ (now : Int) < d.getTime zone) ∧
    (u.lockedUntil = none → u.isLocked zone now = false) ∧
    (∀ ms, u.lockedUntil = some (.isoString ms) → (u.isLocked zone now = true ↔ now < ms)) ∧
    (∀ s, u.lockedUntil = some (.sqlText s) → (u.isLocked utc now = true ↔ now < s * 1000)) ∧
    (User.isLocked { carol with lockedUntil := some (.sqlText 950) } tokyo 50001 = false ∧
      50001 < 950 * 1000) ∧
    (User.isLocked { carol with lockedUntil := some (.sqlText 950) } fiveWest 1000000 = true ∧
      950 * 1000 ≤ 1000000) := by
  refine ⟨?_, ?_, ?_, ?_, by decide, by decide⟩
  · unfold User.isLocked
    cases h : u.lockedUntil with
    | none => simp
    | some d => simp
  · intro h
    simp [User.isLocked, h]
  · intro ms h
    simp [User.isLocked, h, DateText.getTime]
  · intro s h
    simp only [User.isLocked, h, DateText.getTime, utc, decide_eq_true_eq]
    omega

/-- C4 (as the code has it). Whatever the prior `loginAttempts`, `updateLastLogin` while
the clock shows `env.now` milliseconds on a user with a stored row resolves and leaves
`loginAttempts = 0` in the row and in the returned object; `lastLogin` becomes the ISO
string of `now` in the object and the text for the second `now / 1000` in the row, which is
`now` cut to the whole second; and after it fewer than five further
`incrementLoginAttempts` calls never touch `lockedUntil`, in the row or in the object. -/
theorem updateLastLogin_resets (env : Env) (db : Db) (u : User) (r : Row)
    (hrow : db.rowOf u.id = some r) (hrun : env.runFault = none) :
    ∃ db1 u1 r1, u.updateLastLogin env db = (db1, .ok u1) ∧ db1.rowOf u.id = some r1 ∧
      r1.loginAttempts = some 0 ∧ r1.lastLogin = some (env.now / 1000) ∧
      u1.loginAttempts = .num 0 ∧ u1.lastLogin = some (.isoString env.now) ∧
      (env.now / 1000 * 1000 ≤ env.now ∧ env.now < env.now / 1000 * 1000 + 1000) ∧
      ∀ envs : List Env, envs.length < 5 → (∀ e ∈ envs, e.runFault = none) →
        ∃ db2 u2 r2, u1.incrementLoginAttemptsSeq envs db1 = (db2, .ok u2) ∧
          db2.rowOf u.id = some r2 ∧ r2.lockedUntil = r1.lockedUntil ∧
          u2.lockedUntil = u1.lockedUntil := by
  have hupd : (db.updateWhereId u.id (Row.lastLoginSet env.now)).rowOf u.id =
      some (r.lastLoginSet env.now) := by
    rw [rowOf_updateWhereId db u.id (Row.lastLoginSet env.now) (fun _ => rfl), hrow]
    rfl
  refine ⟨db.updateWhereId u.id (Row.lastLoginSet env.now),
    { u with lastLogin := some (.isoString env.now), loginAttempts := .num 0 },
    r.lastLoginSet env.now,
    by simp only [User.updateLastLogin, hrun], hupd, rfl, rfl, rfl, rfl,
    ⟨by omega, by omega⟩, ?_⟩
  intro envs hlen hok
  refine ⟨_, _, envs.foldl (fun x e => x.incrementSet e.now) (r.lastLoginSet env.now),
    incrementLoginAttemptsSeq_eq_fold envs _ _ hok, ?_, ?_, ?_⟩
  · exact find_fold_incrementSet (fun x => x.id == u.id) (fun _ _ => rfl) u.id envs _ _ hupd
      (rowOf_id db u.id r hrow)
  · exact rowFold_lockedUntil envs _ 0 rfl (by omega)
  · exact userFold_lockedUntil envs _ 0 rfl (by omega)

theorem updateLastLogin_resets_witness :
    (sampleDb.rowOf bob.id = some bobRow ∧ (sampleEnv 9500).runFault = none) ∧
    ∃ db1 u1 r1, bob.updateLastLogin (sampleEnv 9500) sampleDb = (db1, .ok u1) ∧
      db1.rowOf bob.id = some r1 ∧ r1.loginAttempts = some 0 ∧ r1.lastLogin = some 9 ∧
      u1.loginAttempts = .num 0 ∧ u1.lastLogin = some (.isoString 9500) := by
  refine ⟨⟨by decide, rfl⟩, ?_⟩
  obtain ⟨db1, u1, r1, h1, h2, h3, h4, h5, h6, _⟩ :=
    updateLastLogin_resets (sampleEnv 9500) sampleDb bob bobRow (by decide) rfl
  exact ⟨db1, u1, r1, h1, h2, h3, h4, h5, h6⟩

/-- C4, the claim refuted: `updateLastLogin` while the clock shows 3500 ms stores
`lastLogin` for second 3, which is 3000 ms and not the current time, while the returned
object holds the ISO string of 3500 ms. -/
theorem updateLastLogin_row_whole_second :
    ((carol.updateLastLogin (sampleEnv 3500) sampleDb).1.rowOf carol.id).map Row.lastLogin =
      some (some 3) ∧
    (carol.updateLastLogin (sampleEnv 3500) sampleDb).2.toOption.map User.lastLogin =
      some (some (.isoString 3500)) ∧
    3 * 1000 ≠ (sampleEnv 3500).now := by
  refine ⟨by decide, by decide, by decide⟩

/-- C5. `toJSON()` has exactly the properties id, email, firstName, lastName, fullName,
createdAt, lastLogin, isActive; `fullName` is firstName, one space, lastName; and the output
does not depend on the password, `loginAttempts`, `lockedUntil` or `updatedAt` of the
object. -/
theorem toJSON_public (u : User) :
    u.toJSON.map Prod.fst =
      ["id", "email", "firstName", "lastName", "fullName", "createdAt", "lastLogin",
        "isActive"] ∧
    u.toJSON.lookup "fullName" = some (.str (u.firstName ++ " " ++ u.lastName)) ∧
    u.toJSON.lookup "password" = none ∧
    ∀ (password : Option String) (loginAttempts : JsNum)
      (lockedUntil updatedAt : Option DateText),
      User.toJSON { u with
        password := password
        loginAttempts := loginAttempts
        lockedUntil := lockedUntil
        updatedAt := updatedAt } = u.toJSON := by
  refine ⟨rfl, ?_, ?_, fun _ _ _ _ => rfl⟩
  · simp [User.toJSON, List.lookup]
  · simp [User.toJSON, List.lookup]

/-- C6. In a table satisfying the schema's key constraints, a stored row with
`isActive = 0` is invisible: `findByEmail` with its email and `findById` with its id
resolve to null, no `findAll` result (any limit and offset) contains a user with its id, and
`count()` is the number of rows with `isActive = 1`. -/
theorem inactive_hidden (env : Env) (db : Db) (r : Row) (hwf : db.WF) (hr : r ∈ db.rows)
    (hin : r.isActive = some 0) (hf : env.getFault = none) :
    (∀ incl, User.findByEmail env db r.email incl = .ok none) ∧
    User.findById env db r.id = .ok none ∧
    (∀ limit offset, ∃ us, User.findAll env db limit offset = .ok us ∧
      ∀ u ∈ us, u.id ≠ r.id) ∧
    User.count env db = .ok (db.rows.countP (fun x => decide (x.isActive = some 1))) := by
  have hna : r.active = false := by simp [Row.active, hin]
  refine ⟨?_, ?_, ?_, ?_⟩
  · intro incl
    have : List.find? (fun x => x.email == r.email && x.active) db.rows = none := by
      rw [List.find?_eq_none]
      intro x hx hp
      simp only [Bool.and_eq_true, beq_iff_eq] at hp
      have := List.inj_on_of_nodup_map hwf.2 hx hr hp.1
      rw [this, hna] at hp
      exact absurd hp.2 (by simp)
    simp [User.findByEmail, hf, this]
  · have : List.find? (fun x => x.id == r.id && x.active) db.rows = none := by
      rw [List.find?_eq_none]
      intro x hx hp
      simp only [Bool.and_eq_true, beq_iff_eq] at hp
      have := List.inj_on_of_nodup_map hwf.1 hx hr hp.1
      rw [this, hna] at hp
      exact absurd hp.2 (by simp)
    simp [User.findById, hf, this]
  · intro limit offset
    refine ⟨(db.listActive limit offset).map (fun row => User.new row.selectListed),
      by simp only [User.findAll, hf], ?_⟩
    intro u hu
    rw [List.mem_map] at hu
    obtain ⟨row, hrowmem, rfl⟩ := hu
    obtain ⟨hmem, hact⟩ := listActive_mem db limit offset row hrowmem
    intro hid
    have : row = r := List.inj_on_of_nodup_map hwf.1 hmem hr hid
    rw [this, hna] at hact
    exact absurd hact (by simp)
  · simp only [User.count, hf]
    congr 1
    rw [List.countP_eq_length_filter]
    congr 1
    apply List.filter_congr
    intro x _
    show (x.isActive == some 1) = decide (x.isActive = some 1)
    cases h : decide (x.isActive = some 1) <;> simp_all

theorem inactive_hidden_witness :
    (sampleDb.WF ∧ bobRow ∈ sampleDb.rows ∧ bobRow.isActive = some 0 ∧
      (sampleEnv 9000).getFault = none) ∧
    User.findByEmail (sampleEnv 9000) sampleDb "bob@example.com" true = .ok none ∧
    User.findById (sampleEnv 9000) sampleDb 2 = .ok none ∧
    User.count (sampleEnv 9000) sampleDb = .ok 2 :=
  have h := inactive_hidden (sampleEnv 9000) sampleDb bobRow (by decide) (by decide) rfl rfl
  ⟨⟨by decide, by decide, rfl, rfl⟩, h.1 true, h.2.1, h.2.2.2⟩

/-- C7, the code on a duplicate email.  When the table already holds a row with the
given email (active or not), `create` with that email rejects for every password, first
and last name and leaves the table as it was; but the rejection is not
`Email already exists`: the driver reports the violation with code `SQLITE_CONSTRAINT`,
the test `err.code === 'SQLITE_CONSTRAINT_UNIQUE'` fails, and whenever hashing produced a
hash and the statement met no other fault the promise rejects with `Database error: `
followed by the driver's message.  So it does for the second sample email. -/
theorem create_duplicate_email (env : Env) (db : Db) (ud : UserData) :
    ((∃ r ∈ db.rows, r.email = ud.email) →
      (User.create env db ud).1 = db ∧
      (∃ msg, (User.create env db ud).2 = .error msg) ∧
      (∀ hashed, env.bcrypt.hash ud.password saltRounds env.entropy = some hashed →
        env.runFault = none →
        (User.create env db ud).2 =
          .error "Database error: SQLITE_CONSTRAINT: UNIQUE constraint failed: users.email")) ∧
    User.create (sampleEnv 7000) sampleDb
        { email := "bob@example.com", password := "An0ther!", firstName := "Rob",
          lastName := "Roy" } =
      (sampleDb,
        .error "Database error: SQLITE_CONSTRAINT: UNIQUE constraint failed: users.email") ∧
    (∃ r ∈ sampleDb.rows, r.email = "bob@example.com") ∧
    uniqueViolation.code ≠ "SQLITE_CONSTRAINT_UNIQUE" ∧
    "Database error: SQLITE_CONSTRAINT: UNIQUE constraint failed: users.email" ≠
      "Email already exists" := by
  refine ⟨?_, rfl, ⟨bobRow, by decide, rfl⟩, by decide, by decide⟩
  rintro ⟨r, hr, he⟩
  have hany : db.rows.any (fun r => r.email == ud.email) = true := by
    rw [List.any_eq_true]
    exact ⟨r, hr, by simp [he]⟩
  unfold User.create
  cases hh : env.bcrypt.hash ud.password saltRounds env.entropy with
  | none => simp
  | some hashed =>
    cases hrun : env.runFault with
    | some err =>
      simp only [reduceCtorEq, false_implies, implies_true, and_true]
      split <;> simp
    | none =>
      simp only [hany, if_true]
      rw [if_neg (by decide : ¬ (uniqueViolation.code = "SQLITE_CONSTRAINT_UNIQUE"))]
      exact ⟨rfl, ⟨_, rfl⟩, fun _ _ _ => rfl⟩

/-- C8 (as the code has it). When `create` resolves, the email was not in the table and
the table is the old one followed by exactly one new row: the given email and names, the
output of the hashing primitive as password, `isActive = 1`, `loginAttempts = 0`,
`lockedUntil` and `lastLogin` null, `createdAt = updatedAt` the text for the second
`now / 1000` (now cut to the whole second), under an id larger than every id in the table
and than every id handed out before; the returned user has that id and no `password`
property. -/
theorem create_inserts (env : Env) (db db1 : Db) (ud : UserData) (res : Option User)
    (h : User.create env db ud = (db1, .ok res)) :
    ∃ hashed u, env.bcrypt.hash ud.password saltRounds env.entropy = some hashed ∧
      (∀ r ∈ db.rows, r.email ≠ ud.email) ∧
      (∀ r ∈ db.rows, r.id < db.nextId) ∧ db.seq < db.nextId ∧
      db1.rows = db.rows ++
        [{ id := db.nextId
           email := ud.email
           password := hashed
           firstName := ud.firstName
           lastName := ud.lastName
           createdAt := some (env.now / 1000)
           updatedAt := some (env.now / 1000)
           isActive := some 1
           lastLogin := none
           loginAttempts := some 0
           lockedUntil := none }] ∧
      (env.now / 1000 * 1000 ≤ env.now ∧ env.now < env.now / 1000 * 1000 + 1000) ∧
      res = some u ∧ u.id = db.nextId ∧ u.password = none := by
  obtain ⟨hashed, hh, _, _, hfresh, hdb, hres⟩ := create_ok env db db1 ud res h
  refine ⟨hashed, _, hh, hfresh, nextId_gt db, ?_, ?_, ⟨by omega, by omega⟩, hres, rfl, rfl⟩
  · unfold Db.nextId; omega
  · rw [hdb]; rfl

theorem create_inserts_witness :
    User.create (sampleEnv 7500) sampleDb daveData =
      ({ rows := sampleDb.rows ++ [daveRow], seq := 4 }, .ok (some (User.new daveRow.selectAll))) ∧
    daveRow.createdAt = some 7 ∧
    ∃ hashed u, sampleBcrypt.hash "Str0ngPass!" 12 0 = some hashed ∧
      hashed = "$2a$12$Str0ngPass!" ∧
      some (User.new daveRow.selectAll) = some u ∧ u.id = 4 ∧ u.password = none := by
  have h : User.create (sampleEnv 7500) sampleDb daveData =
      ({ rows := sampleDb.rows ++ [daveRow], seq := 4 },
        .ok (some (User.new daveRow.selectAll))) := rfl
  obtain ⟨hashed, u, hh, _, _, _, _, _, hres, hid, hpw⟩ :=
    create_inserts (sampleEnv 7500) sampleDb _ daveData _ h
  exact ⟨h, rfl, hashed, u, hh, (Option.some.inj hh).symm, hres, hid, hpw⟩

/-- C8, the claim refuted: a registration while the clock shows 7500 ms stores `createdAt`
and `updatedAt` for second 7, which is 7000 ms and not the current time. -/
theorem create_stamps_whole_second :
    (User.create (sampleEnv 7500) sampleDb daveData).1.rows.getLast?.map
        (fun r => (r.email, r.createdAt, r.updatedAt)) =
      some ("dave@example.com", some 7, some 7) ∧
    7 * 1000 ≠ (sampleEnv 7500).now := by
  refine ⟨by decide, by decide⟩

/-- C9. After `create` resolves with a user, `findByEmail` with the same email resolves to
a user with the same id that carries a hash; provided `bcrypt.compare` accepts exactly the
plaintext that was hashed, `verifyPassword` resolves to true for the registered password
and resolves to false, without rejecting, for every other plaintext. -/
theorem create_then_verify (env env1 : Env) (db db1 : Db) (ud : UserData)
    (res : Option User) (h : User.create env db ud = (db1, .ok res))
    (hf : env1.getFault = none)
    (hcmp : ∀ hashed, env.bcrypt.hash ud.password saltRounds env.entropy = some hashed →
      ∀ p, env1.bcrypt.compare p hashed = some (decide (p = ud.password))) :
    ∃ u v hashed, res = some u ∧
      User.findByEmail env1 db1 ud.email true = .ok (some v) ∧ v.id = u.id ∧
      v.password = some hashed ∧
      User.verifyPassword env1 ud.password hashed = .ok true ∧
      ∀ p, p ≠ ud.password → User.verifyPassword env1 p hashed = .ok false := by
  obtain ⟨hashed, hh, _, _, hfresh, hdb, hres⟩ := create_ok env db db1 ud res h
  have hnone : List.find? (fun r => r.email == ud.email && r.active) db.rows = none := by
    rw [List.find?_eq_none]
    intro x hx hp
    simp only [Bool.and_eq_true, beq_iff_eq] at hp
    exact hfresh x hx hp.1
  have hfind : List.find? (fun r => r.email == ud.email && r.active) db1.rows =
      some (insertedRow env.now db.nextId ud.email hashed ud.firstName ud.lastName) := by
    rw [hdb]
    show List.find? _ (db.rows ++ [_]) = _
    rw [List.find?_append, hnone]
    simp [insertedRow, Row.active]
  refine ⟨_, _, hashed, hres, findByEmail_of_find env1 db1 ud.email true _ hf hfind, rfl, rfl,
    ?_, ?_⟩
  · simp [User.verifyPassword, hcmp hashed hh]
  · intro p hp
    simp [User.verifyPassword, hcmp hashed hh, hp]

theorem sampleBcrypt_compare (plain hashed : String)
    (h : sampleBcrypt.hash plain saltRounds 0 = some hashed) (p : String) :
    sampleBcrypt.compare p hashed = some (decide (p = plain)) := by
  simp only [sampleBcrypt, Option.some.injEq] at h
  subst h
  simp only [sampleBcrypt, Option.some.injEq]
  by_cases hp : p = plain
  · simp [hp]
  · have : ¬ ("$2a$12$" ++ plain = "$2a$12$" ++ p) := by
      intro he
      rw [String.ext_iff, String.data_append, String.data_append] at he
      exact hp (String.ext (List.append_cancel_left he)).symm
    simp [hp, this]

theorem create_then_verify_witness :
    (User.create (sampleEnv 7000) sampleDb daveData =
        ({ rows := sampleDb.rows ++ [daveRow], seq := 4 },
          .ok (some (User.new daveRow.selectAll))) ∧
      (sampleEnv 8000).getFault = none) ∧
    ∃ u v hashed, some (User.new daveRow.selectAll) = some u ∧
      User.findByEmail (sampleEnv 8000) { rows := sampleDb.rows ++ [daveRow], seq := 4 }
        "dave@example.com" true = .ok (some v) ∧ v.id = u.id ∧ v.password = some hashed ∧
      User.verifyPassword (sampleEnv 8000) "Str0ngPass!" hashed = .ok true ∧
      User.verifyPassword (sampleEnv 8000) "str0ngpass!" hashed = .ok false := by
  have h : User.create (sampleEnv 7000) sampleDb daveData =
      ({ rows := sampleDb.rows ++ [daveRow], seq := 4 },
        .ok (some (User.new daveRow.selectAll))) := rfl
  obtain ⟨u, v, hashed, h1, h2, h3, h4, h5, h6⟩ :=
    create_then_verify (sampleEnv 7000) (sampleEnv 8000) sampleDb _ daveData _ h rfl
      (fun hashed hh p => sampleBcrypt_compare daveData.password hashed hh p)
  exact ⟨⟨h, rfl⟩, u, v, hashed, h1, h2, h3, h4, h5, h6 "str0ngpass!" (by decide)⟩

/-- C10. `findByEmail(email, includePassword)` resolves either to an active row whose
email is exactly the argument (the only row with that email when the key constraints hold),
as a user object that carries the stored hash when `includePassword` is true and has no
`password` property otherwise, or to null when no active row has that email; `findById`
never resolves to an object with a `password` property. -/
theorem findByEmail_exact (env : Env) (db : Db) (email : String) (incl : Bool)
    (hf : env.getFault = none) :
    ((∃ row ∈ db.rows, row.email = email ∧ row.isActive = some 1 ∧
        (db.WF → ∀ other ∈ db.rows, other.email = email → other = row) ∧
        ∃ u, User.findByEmail env db email incl = .ok (some u) ∧
          u = { User.new row.selectAll with
                password := if incl then some row.password else none } ∧
          (u.password = some row.password ↔ incl = true)) ∨
      ((∀ row ∈ db.rows, row.email = email → row.isActive ≠ some 1) ∧
        User.findByEmail env db email incl = .ok none)) ∧
    (∀ env2 id u, User.findById env2 db id = .ok (some u) → u.password = none) := by
  constructor
  · cases hr : List.find? (fun r => r.email == email && r.active) db.rows with
    | none =>
      right
      rw [List.find?_eq_none] at hr
      refine ⟨?_, by simp [User.findByEmail, hf, List.find?_eq_none.2 hr]⟩
      intro row hrow he hact
      exact hr row hrow (by simp [he, Row.active, hact])
    | some row =>
      left
      have hmem := List.mem_of_find?_eq_some hr
      have hp := List.find?_some hr
      simp only [Bool.and_eq_true, beq_iff_eq, Row.active] at hp
      refine ⟨row, hmem, hp.1, hp.2, ?_, ?_⟩
      · intro hwf other ho he
        exact List.inj_on_of_nodup_map hwf.2 ho hmem (he.trans hp.1.symm)
      · refine ⟨_, findByEmail_of_find env db email incl row hf hr, ?_, ?_⟩
        · cases incl <;> rfl
        · cases incl <;> simp [User.new]
  · intro env2 id u h
    unfold User.findById at h
    cases hg : env2.getFault with
    | some err => simp [hg] at h
    | none =>
      cases hr : List.find? (fun r => r.id == id && r.active) db.rows with
      | none => simp [hg, hr] at h
      | some row =>
        simp only [hg, hr, Except.ok.injEq, Option.some.injEq] at h
        rw [← h]
        rfl

theorem findByEmail_exact_witness :
    (sampleEnv 9000).getFault = none ∧
    User.findByEmail (sampleEnv 9000) sampleDb "Alice@example.com" true = .ok none ∧
    ∀ u, User.findById (sampleEnv 9000) sampleDb 3 = .ok (some u) → u.password = none := by
  have h := findByEmail_exact (sampleEnv 9000) sampleDb "Alice@example.com" true rfl
  refine ⟨rfl, ?_, h.2 (sampleEnv 9000) 3⟩
  rcases h.1 with ⟨row, hrow, he, _⟩ | ⟨_, hnone⟩
  · exfalso
    simp only [sampleDb, List.mem_cons, List.mem_singleton, List.not_mem_nil, or_false] at hrow
    rcases hrow with rfl | rfl | rfl <;> exact absurd he (by decide)
  · exact hnone

theorem splitOnSpace_ne_nil (cs : List Char) : splitOnSpace cs ≠ [] := by
  cases cs with
  | nil => simp [splitOnSpace]
  | cons c cs =>
    unfold splitOnSpace
    split
    · simp
    · split <;> simp

theorem splitOnSpace_no_space (w : List Char) (h : ' ' ∉ w) : splitOnSpace w = [w] := by
  induction w with
  | nil => rfl
  | cons c cs ih =>
    have hc : ¬ (c = ' ') := fun e => h (by simp [e])
    have hcs : ' ' ∉ cs := fun e => h (List.mem_cons_of_mem _ e)
    simp only [splitOnSpace, hc, if_false, ih hcs]

theorem splitOnSpace_word (w rest : List Char) (h : ' ' ∉ w) :
    splitOnSpace (w ++ ' ' :: rest) = w :: splitOnSpace rest := by
  induction w with
  | nil => simp [splitOnSpace]
  | cons c cs ih =>
    have hc : ¬ (c = ' ') := fun e => h (by simp [e])
    have hcs : ' ' ∉ cs := fun e => h (List.mem_cons_of_mem _ e)
    have hrest := ih hcs
    show splitOnSpace (c :: (cs ++ ' ' :: rest)) = _
    simp only [splitOnSpace, hc, if_false, hrest]

theorem bearerToken_scheme (req : Request) (scheme token : String)
    (hreq : req.authorization = some (scheme ++ " " ++ token))
    (hs : ' ' ∉ scheme.toList) (ht : ' ' ∉ token.toList) (hne : token ≠ "") :
    bearerToken req = some token := by
  have hdata : (scheme ++ " " ++ token).toList = scheme.toList ++ ' ' :: token.toList := by
    simp [String.toList, String.data_append]
  have hsplit : splitOnSpace (scheme ++ " " ++ token).toList = [scheme.toList, token.toList] := by
    rw [hdata, splitOnSpace_word _ _ hs, splitOnSpace_no_space _ ht]
  have hnonempty : scheme ++ " " ++ token ≠ "" := by
    intro he
    have := congrArg String.toList he
    rw [hdata] at this
    simp [String.toList] at this
  unfold bearerToken
  rw [hreq]
  simp only [hnonempty, if_false, hsplit]
  cases hl : token.toList with
  | nil =>
    exfalso
    apply hne
    exact String.ext (by simpa [String.toList] using hl)
  | cons c cs =>
    simp only [List.getElem?_cons_succ, List.getElem?_cons_zero, hl]
    congr 1
    exact String.ext (by simpa [String.toList] using hl.symm)

/-- C11. The `authorization` header yields a token exactly when it is a non-empty string
whose second piece between single spaces is not empty, and the token is that piece,
whatever the first piece is: a header `Bearer <token>` yields `<token>`, no header, an
empty header or a header without a space yields none.  `authenticateToken` calls `next()`
exactly when the header yields a token and `jwt.verify` accepts it under the server secret;
then `req.user` is the decoded payload, nothing else of the request changes and no response
is sent; in every other case `next()` is not called, the request (its `user` included) is
left as it was, and a response is sent.  With the sample verifier `Bearer good` reaches
`next()` with the payload attached, and `Bearer old`, `Bearer` alone and no header do
not. -/
theorem authenticateToken_next_iff (jwt : Jwt) (penv : ProcessEnv) (now : Nat)
    (req : Request) :
    ((authenticateToken jwt penv now req).nextCalled = true ↔
      ∃ token decoded, bearerToken req = some token ∧
        jwt.verify token penv.jwtSecret now = .ok decoded) ∧
    (∀ token decoded, bearerToken req = some token →
      jwt.verify token penv.jwtSecret now = .ok decoded →
      authenticateToken jwt penv now req =
        { req := { req with user := some decoded }, response := none, nextCalled := true }) ∧
    ((authenticateToken jwt penv now req).nextCalled = false →
      (authenticateToken jwt penv now req).req = req ∧
      ∃ res, (authenticateToken jwt penv now req).response = some res) ∧
    (∀ token, bearerToken req = some token ↔
      ∃ header c cs, req.authorization = some header ∧ header ≠ "" ∧
        (splitOnSpace header.toList)[1]? = some (c :: cs) ∧ token = String.mk (c :: cs)) ∧
    (∀ scheme token, req.authorization = some (scheme ++ " " ++ token) →
      ' ' ∉ scheme.toList → ' ' ∉ token.toList → token ≠ "" →
      bearerToken req = some token ∧
      ((authenticateToken jwt penv now req).nextCalled = true ↔
        ∃ decoded, jwt.verify token penv.jwtSecret now = .ok decoded)) ∧
    (req.authorization = none → bearerToken req = none) ∧
    (∀ header, req.authorization = some header → ' ' ∉ header.toList →
      bearerToken req = none) ∧
    (authenticateToken sampleJwt plainProcess 0 (sampleRequest (some "Bearer good")) =
        { req := { sampleRequest (some "Bearer good") with user := some samplePayload }
          response := none
          nextCalled := true } ∧
      (authenticateToken sampleJwt plainProcess 0
        (sampleRequest (some "Bearer old"))).nextCalled = false ∧
      (authenticateToken sampleJwt plainProcess 0
        (sampleRequest (some "Bearer"))).nextCalled = false ∧
      (authenticateToken sampleJwt plainProcess 0 (sampleRequest none)).nextCalled = false ∧
      bearerToken (sampleRequest (some "Basic good")) = some "good") := by
  have hmain : ((authenticateToken jwt penv now req).nextCalled = true ↔
      ∃ token decoded, bearerToken req = some token ∧
        jwt.verify token penv.jwtSecret now = .ok decoded) ∧
    (∀ token decoded, bearerToken req = some token →
      jwt.verify token penv.jwtSecret now = .ok decoded →
      authenticateToken jwt penv now req =
        { req := { req with user := some decoded }, response := none, nextCalled := true }) ∧
    ((authenticateToken jwt penv now req).nextCalled = false →
      (authenticateToken jwt penv now req).req = req ∧
      ∃ res, (authenticateToken jwt penv now req).response = some res) := by
    unfold authenticateToken
    cases ht : bearerToken req with
    | none => simp
    | some token =>
      cases hv : jwt.verify token penv.jwtSecret now with
      | error e =>
        simp only [hv]
        refine ⟨by simp [hv], ?_, by simp⟩
        intro token1 decoded h1 h2
        cases h1
        rw [hv] at h2
        cases h2
      | ok decoded =>
        simp only [hv]
        refine ⟨by simp [hv], ?_, by simp⟩
        intro token1 decoded1 h1 h2
        cases h1
        rw [hv] at h2
        cases h2
        rfl
  refine ⟨hmain.1, hmain.2.1, hmain.2.2, ?_, ?_, ?_, ?_,
    ⟨by decide, by decide, by decide, by decide, by decide⟩⟩
  · intro token
    constructor
    · intro h
      unfold bearerToken at h
      cases ha : req.authorization with
      | none => simp only [ha, reduceCtorEq] at h
      | some header =>
        by_cases he : header = ""
        · simp only [ha, he, if_true, reduceCtorEq] at h
        · cases hs : (splitOnSpace header.toList)[1]? with
          | none => simp only [ha, he, if_false, hs, reduceCtorEq] at h
          | some piece =>
            cases piece with
            | nil => simp only [ha, he, if_false, hs, reduceCtorEq] at h
            | cons c cs =>
              simp only [ha, he, if_false, hs, Option.some.injEq] at h
              exact ⟨header, c, cs, rfl, he, hs, h.symm⟩
    · rintro ⟨header, c, cs, h1, he, h2, h3⟩
      simp only [bearerToken, h1, he, if_false, h2, h3]
  · intro scheme token hreq hs ht hne
    have hb := bearerToken_scheme req scheme token hreq hs ht hne
    refine ⟨hb, ?_⟩
    rw [hmain.1]
    constructor
    · rintro ⟨token1, decoded, h1, h2⟩
      rw [hb] at h1
      cases h1
      exact ⟨decoded, h2⟩
    · rintro ⟨decoded, h⟩
      exact ⟨token, decoded, hb, h⟩
  · intro h
    simp [bearerToken, h]
  · intro header h hns
    unfold bearerToken
    rw [h]
    by_cases he : header = ""
    · simp [he]
    · simp only [he, if_false, splitOnSpace_no_space _ hns]
      rfl

/-- C12 (as the code has it). On a protected route a request whose `authorization` header
yields no token is answered 401 `Access token required`, and a request whose token
`jwt.verify` rejects, for whatever reason, is answered 403 `Invalid or expired token`; the
handler does not run in either case. -/
theorem protectedRoute_rejections (jwt : Jwt) (penv : ProcessEnv) (now : Nat)
    (handler : Request → Payload → Response) (req : Request) :
    (bearerToken req = none →
      protectedRoute jwt penv now handler req =
        some { status := 401, body := .failure "Access token required" }) ∧
    (∀ token e, bearerToken req = some token →
      jwt.verify token penv.jwtSecret now = .error e →
      protectedRoute jwt penv now handler req =
        some { status := 403, body := .failure "Invalid or expired token" }) := by
  constructor
  · intro h
    simp [protectedRoute, authenticateToken, h]
  · intro token e h hv
    simp [protectedRoute, authenticateToken, h, hv]

/-- C12, the claim refuted: on `GET /profile` a malformed token, a token checked under a
different secret and an expired token are each answered 403, not 401. -/
theorem protectedRoute_rejected_token_403 :
    (protectedRoute sampleJwt plainProcess 0 (fun _ => getProfile plainProcess (sampleEnv 0)
        sampleDb) (sampleRequest (some "Bearer garbage"))).map Response.status = some 403 ∧
    (protectedRoute sampleJwt { JWT_SECRET := some "another secret", NODE_ENV := none } 0
        (fun _ => getProfile plainProcess (sampleEnv 0) sampleDb)
        (sampleRequest (some "Bearer good"))).map Response.status = some 403 ∧
    (protectedRoute sampleJwt plainProcess 0 (fun _ => getProfile plainProcess (sampleEnv 0)
        sampleDb) (sampleRequest (some "Bearer old"))).map Response.status = some 403 ∧
    (403 : Nat) ≠ 401 := by
  refine ⟨by decide, by decide, by decide, by decide⟩

/-- C13. Two requests whose tokens `jwt.verify` rejects, for any two reasons, receive the
same response: status 403 and the body `Invalid or expired token`. -/
theorem authenticateToken_rejections_equal (jwt : Jwt) (penv : ProcessEnv) (now1 now2 : Nat)
    (req1 req2 : Request) (token1 token2 : String) (e1 e2 : JwtError)
    (h1 : bearerToken req1 = some token1) (h2 : bearerToken req2 = some token2)
    (hv1 : jwt.verify token1 penv.jwtSecret now1 = .error e1)
    (hv2 : jwt.verify token2 penv.jwtSecret now2 = .error e2) :
    (authenticateToken jwt penv now1 req1).response =
      (authenticateToken jwt penv now2 req2).response ∧
    (authenticateToken jwt penv now1 req1).response =
      some { status := 403, body := .failure "Invalid or expired token" } := by
  simp [authenticateToken, h1, h2, hv1, hv2]

theorem authenticateToken_rejections_equal_witness :
    (bearerToken (sampleRequest (some "Bearer old")) = some "old" ∧
      bearerToken (sampleRequest (some "Bearer tampered")) = some "tampered" ∧
      sampleJwt.verify "old" plainProcess.jwtSecret 0 = .error .tokenExpired ∧
      sampleJwt.verify "tampered" plainProcess.jwtSecret 0 =
        .error (.jsonWebToken "jwt malformed")) ∧
    (authenticateToken sampleJwt plainProcess 0 (sampleRequest (some "Bearer old"))).response =
      (authenticateToken sampleJwt plainProcess 0
        (sampleRequest (some "Bearer tampered"))).response :=
  ⟨⟨by decide, by decide, rfl, rfl⟩,
    (authenticateToken_rejections_equal sampleJwt plainProcess 0 0
      (sampleRequest (some "Bearer old")) (sampleRequest (some "Bearer tampered"))
      "old" "tampered" .tokenExpired (.jsonWebToken "jwt malformed")
      (by decide) (by decide) rfl rfl).1⟩

theorem touchesOnly_updateWhereId (db : Db) (id now : Nat) (f : Row → Row) (hwf : db.WF)
    (hex : ∃ r ∈ db.rows, r.id = id) (hid : ∀ r, (f r).id = r.id)
    (hupd : ∀ r, (f r).updatedAt = some now) :
    db.touchesOnly (db.updateWhereId id f) id now := by
  refine ⟨by simp [Db.updateWhereId], rfl, ?_, ?_⟩
  · obtain ⟨r, hr, hrid⟩ := hex
    have hmem : id ∈ db.rows.map Row.id := List.mem_map.2 ⟨r, hr, hrid⟩
    have hcount := List.count_eq_one_of_mem hwf.1 hmem
    rw [List.count, List.countP_map] at hcount
    exact hcount
  · intro i r hi
    have hget : (db.updateWhereId id f).rows[i]? =
        some (if r.id = id then f r else r) := by
      simp [Db.updateWhereId, List.getElem?_map, hi]
    constructor
    · intro hne
      rw [hget, if_neg hne]
    · intro heq
      refine ⟨f r, by rw [hget, if_pos heq], by rw [hid, heq], hupd r⟩

/-- C14 (as the code has it). In a table satisfying the key constraints,
`updateLastLogin` and `incrementLoginAttempts` on a user whose row is stored, when the
statement runs, rewrite exactly the one row with the user's id, set its `updatedAt` to the
text for the second `now / 1000` (the current time cut to the whole second) and leave every
other row as and where it was.  `create` with an email the table does not hold, when
hashing produced a hash, appends exactly one row, under a new id, with the email and with
`createdAt = updatedAt` that same text, and leaves the old rows as they were; with an
email the table holds, or when hashing failed, it leaves the table as it was. -/
theorem writes_touch_one_row (env : Env) (db : Db) (u : User) (hwf : db.WF)
    (hex : ∃ r ∈ db.rows, r.id = u.id) (hrun : env.runFault = none) :
    db.touchesOnly (u.updateLastLogin env db).1 u.id (env.now / 1000) ∧
    db.touchesOnly (u.incrementLoginAttempts env db).1 u.id (env.now / 1000) ∧
    (∀ ud hashed, env.bcrypt.hash ud.password saltRounds env.entropy = some hashed →
      (∀ r ∈ db.rows, r.email ≠ ud.email) →
      ∃ row, (User.create env db ud).1.rows = db.rows ++ [row] ∧
        row.email = ud.email ∧ (∀ r ∈ db.rows, r.id ≠ row.id) ∧
        row.createdAt = some (env.now / 1000) ∧ row.updatedAt = some (env.now / 1000)) ∧
    (∀ ud, (env.bcrypt.hash ud.password saltRounds env.entropy = none ∨
        ∃ r ∈ db.rows, r.email = ud.email) →
      (User.create env db ud).1 = db) ∧
    (env.now / 1000 * 1000 ≤ env.now ∧ env.now < env.now / 1000 * 1000 + 1000) := by
  refine ⟨?_, ?_, ?_, ?_, ⟨by omega, by omega⟩⟩
  · simp only [User.updateLastLogin, hrun]
    exact touchesOnly_updateWhereId db u.id (env.now / 1000) _ hwf hex (fun _ => rfl)
      (fun _ => rfl)
  · simp only [User.incrementLoginAttempts, hrun]
    exact touchesOnly_updateWhereId db u.id (env.now / 1000) _ hwf hex (fun _ => rfl)
      (fun _ => rfl)
  · intro ud hashed hh hfresh
    have hany : db.rows.any (fun r => r.email == ud.email) = false := by
      rw [List.any_eq_false]
      intro r hr
      simpa using hfresh r hr
    refine ⟨insertedRow env.now db.nextId ud.email hashed ud.firstName ud.lastName, ?_, rfl,
      ?_, rfl, rfl⟩
    · simp only [User.create, hh, hrun, hany]
      rfl
    · intro r hr
      have := nextId_gt db r hr
      show r.id ≠ db.nextId
      omega
  · intro ud hcase
    unfold User.create
    cases hh : env.bcrypt.hash ud.password saltRounds env.entropy with
    | none => rfl
    | some hashed =>
      rcases hcase with hnone | ⟨r, hr, he⟩
      · rw [hh] at hnone
        cases hnone
      · have hany : db.rows.any (fun r => r.email == ud.email) = true := by
          rw [List.any_eq_true]
          exact ⟨r, hr, by simp [he]⟩
        simp only [hrun, hany, if_true]
        split <;> rfl

theorem writes_touch_one_row_witness :
    (sampleDb.WF ∧ (∃ r ∈ sampleDb.rows, r.id = carol.id) ∧
      (sampleEnv 10500).runFault = none) ∧
    sampleDb.touchesOnly (carol.updateLastLogin (sampleEnv 10500) sampleDb).1 3 10 ∧
    sampleDb.touchesOnly (carol.incrementLoginAttempts (sampleEnv 10500) sampleDb).1 3 10 ∧
    (∃ row, (User.create (sampleEnv 10500) sampleDb daveData).1.rows = sampleDb.rows ++ [row] ∧
      row.email = "dave@example.com" ∧ row.updatedAt = some 10) ∧
    (User.create (sampleEnv 10500) sampleDb
      { email := "bob@example.com", password := "An0ther!", firstName := "Rob",
        lastName := "Roy" }).1 = sampleDb := by
  have h := writes_touch_one_row (sampleEnv 10500) sampleDb carol (by decide)
    ⟨carolRow, by decide, rfl⟩ rfl
  refine ⟨⟨by decide, ⟨carolRow, by decide, rfl⟩, rfl⟩, h.1, h.2.1, ?_, ?_⟩
  · obtain ⟨row, h1, h2, _, _, h5⟩ := h.2.2.1 daveData "$2a$12$Str0ngPass!" rfl (by decide)
    exact ⟨row, h1, h2, h5⟩
  · exact h.2.2.2.1 _ (Or.inr ⟨bobRow, by decide, rfl⟩)

/-- C14, the claim refuted: `updateLastLogin` while the clock shows 10500 ms stamps
`updatedAt` for second 10, which is 10000 ms and not the current time. -/
theorem updateLastLogin_stamps_whole_second :
    ((carol.updateLastLogin (sampleEnv 10500) sampleDb).1.rowOf carol.id).map Row.updatedAt =
      some (some 10) ∧
    10 * 1000 ≠ (sampleEnv 10500).now := by
  refine ⟨by decide, by decide⟩

/-- C15 (as the code has it). When the object's `loginAttempts` equals the count stored in
its row before the call, `incrementLoginAttempts` resolves with an object whose
`loginAttempts` equals the count stored after the update, and this call sets the object's
`lockedUntil` exactly when it sets the row's: when the new count is at least 5 the object
gets the ISO string of now + 15 minutes and the row the text for the second
`now / 1000 + 900`, and both are left alone otherwise. -/
theorem incrementLoginAttempts_in_step (env : Env) (db : Db) (u : User) (r : Row) (n : Int)
    (hrow : db.rowOf u.id = some r) (hn : r.loginAttempts = some n)
    (hu : u.loginAttempts = .num n) (hrun : env.runFault = none) :
    ∃ db1 u1 r1, u.incrementLoginAttempts env db = (db1, .ok u1) ∧
      db1.rowOf u.id = some r1 ∧
      u1.loginAttempts = JsNum.ofSql r1.loginAttempts ∧ r1.loginAttempts = some (n + 1) ∧
      (n + 1 ≥ 5 → u1.lockedUntil = some (.isoString (env.now + 15 * 60 * 1000)) ∧
        r1.lockedUntil = some (env.now / 1000 + 900)) ∧
      (n + 1 < 5 → u1.lockedUntil = u.lockedUntil ∧ r1.lockedUntil = r.lockedUntil) := by
  have hdb : (db.updateWhereId u.id (Row.incrementSet env.now)).rowOf u.id =
      some (r.incrementSet env.now) := by
    rw [rowOf_updateWhereId db u.id (Row.incrementSet env.now) (incrementSet_id env.now), hrow]
    rfl
  refine ⟨db.updateWhereId u.id (Row.incrementSet env.now), u.incremented env.now,
    r.incrementSet env.now, by simp only [User.incrementLoginAttempts, hrun], hdb, ?_, ?_, ?_, ?_⟩
  · rw [incremented_loginAttempts, hu]
    simp [Row.incrementSet, hn, JsNum.incr, JsNum.ofSql]
  · simp [Row.incrementSet, hn]
  · intro h5
    rw [incremented_lockedUntil, incrementSet_lockedUntil env.now r n hn, hu]
    simp [JsNum.incr, JsNum.ge, maxAttempts, lockDuration, h5]
  · intro h5
    have : ¬ (5 ≤ n + 1) := by omega
    rw [incremented_lockedUntil, incrementSet_lockedUntil env.now r n hn, hu]
    simp [JsNum.incr, JsNum.ge, maxAttempts, this]

theorem incrementLoginAttempts_in_step_witness :
    (sampleDb.rowOf carol.id = some carolRow ∧ carolRow.loginAttempts = some 4 ∧
      carol.loginAttempts = .num 4 ∧ (sampleEnv 10500).runFault = none) ∧
    ∃ db1 u1 r1, carol.incrementLoginAttempts (sampleEnv 10500) sampleDb = (db1, .ok u1) ∧
      db1.rowOf carol.id = some r1 ∧
      u1.loginAttempts = JsNum.ofSql r1.loginAttempts ∧ r1.loginAttempts = some 5 ∧
      u1.lockedUntil = some (.isoString 910500) ∧ r1.lockedUntil = some 910 := by
  refine ⟨⟨by decide, rfl, rfl, rfl⟩, ?_⟩
  obtain ⟨db1, u1, r1, h1, h2, h3, h4, h5, _⟩ :=
    incrementLoginAttempts_in_step (sampleEnv 10500) sampleDb carol carolRow 4
      (by decide) rfl rfl rfl
  exact ⟨db1, u1, r1, h1, h2, h3, h4, (h5 (by decide)).1, (h5 (by decide)).2⟩

/-- C15, the claim refuted: an object read while the row counted 0 attempts, used after
four failures were recorded through another object, resolves with `loginAttempts = 1` and
no lock while its row holds `loginAttempts = 5` and a lock set by the same call. -/
theorem incrementLoginAttempts_stale_object :
    (alice.incrementLoginAttempts (sampleEnv 50000)
        (alice.incrementLoginAttemptsSeq
          [sampleEnv 10000, sampleEnv 20000, sampleEnv 30000, sampleEnv 40000] sampleDb).1).2 =
      .ok { alice with loginAttempts := .num 1, lockedUntil := none } ∧
    ((alice.incrementLoginAttempts (sampleEnv 50000)
        (alice.incrementLoginAttemptsSeq
          [sampleEnv 10000, sampleEnv 20000, sampleEnv 30000, sampleEnv 40000] sampleDb).1).1.rowOf
        alice.id).map (fun r => (r.loginAttempts, r.lockedUntil)) =
      some (some 5, some 950) ∧
    JsNum.num 1 ≠ JsNum.ofSql (some 5) := by
  refine ⟨rfl, by decide, by decide⟩

theorem shift_eq (k : Nat) : 1 <<< k = 2 ^ k := Nat.one_shiftLeft k

theorem droppedBits_small (n : Nat) (h : n < 2 ^ 53) : ∀ b, droppedBits n b = 0 := by
  intro b
  induction b with
  | zero => rfl
  | succ e ih =>
    have hp : 2 ^ 53 ≤ 2 ^ (e + 53) := Nat.pow_le_pow_right (by decide) (by omega)
    have : ¬ (1 <<< (e + 53) ≤ n) := by
      rw [shift_eq]
      omega
    simp only [droppedBits, this, if_false, ih]

theorem droppedBits_large (n : Nat) (h : 2 ^ 53 ≤ n) :
    ∀ b, 1 ≤ b → 1 ≤ droppedBits n b ∧ 2 ^ (droppedBits n b + 52) ≤ n := by
  intro b
  induction b with
  | zero => intro h0; omega
  | succ e ih =>
    intro _
    by_cases hc : 1 <<< (e + 53) ≤ n
    · simp only [droppedBits, hc, if_true]
      refine ⟨by omega, ?_⟩
      rw [shift_eq] at hc
      have : e + 1 + 52 = e + 53 := by omega
      rw [this]
      exact hc
    · simp only [droppedBits, hc, if_false]
      cases e with
      | zero =>
        exfalso
        apply hc
        rw [shift_eq]
        exact h
      | succ k => exact ih (by omega)

theorem lt_doubleBound (n : Nat) (h : n < 2 ^ 53) : ¬ (doubleBound ≤ n) := by
  have : (2 : Nat) ^ 53 ≤ doubleBound := by decide
  omega

theorem nearestDouble_small (n : Nat) (h : n < 2 ^ 53) : nearestDouble n = some n := by
  have h0 := droppedBits_small n h 971
  have hb := lt_doubleBound n h
  simp only [nearestDouble, hb, if_false, h0, Nat.shiftLeft_zero, Nat.div_one, Nat.mod_one,
    Nat.mul_zero, Nat.mul_one]
  have h1 : ¬ ((1 : Nat) < 0 ∨ ((0 : Nat) = 1 ∧ n % 2 = 1)) := by omega
  simp only [h1, if_false, hb]

theorem nearestDouble_large (n m : Nat) (h : 2 ^ 53 ≤ n) (hm : nearestDouble n = some m) :
    2 ^ 53 ≤ m := by
  obtain ⟨he1, hle⟩ := droppedBits_large n h 971 (by decide)
  unfold nearestDouble at hm
  by_cases hb : doubleBound ≤ n
  · rw [if_pos hb] at hm
    cases hm
  · simp only [hb, if_false] at hm
    generalize droppedBits n 971 = e at he1 hle hm
    have hq : 2 ^ 52 ≤ n / (1 <<< e) := by
      rw [shift_eq, Nat.le_div_iff_mul_le (Nat.pos_pow_of_pos e (by decide))]
      rw [← Nat.pow_add]
      have : 52 + e = e + 52 := by omega
      rw [this]
      exact hle
    have he2 : 2 ≤ 1 <<< e := by
      rw [shift_eq]
      calc 2 = 2 ^ 1 := rfl
        _ ≤ 2 ^ e := Nat.pow_le_pow_right (by decide) he1
    generalize 1 <<< e = w at hq he2 hm
    generalize n / w = q at hq hm
    generalize n % w = r at hm
    have key : ∀ s, q ≤ s → 2 ^ 53 ≤ s * w := by
      intro s hs
      calc 2 ^ 53 = 2 ^ 52 * 2 := by norm_num
        _ ≤ s * w := Nat.mul_le_mul (le_trans hq hs) he2
    split at hm
    · split at hm
      · cases hm
      · cases hm
        exact key _ (by omega)
    · split at hm
      · cases hm
      · cases hm
        exact key _ (le_refl _)

set_option maxRecDepth 100000 in
theorem nearestDouble_samples :
    nearestDouble 9007199254740993 = some 9007199254740992 ∧
    nearestDouble 9007199254740995 = some 9007199254740996 ∧
    nearestDouble (10 ^ 23) = some 99999999999999991611392 ∧
    JsNumber.ofInt (-9007199254740993) = .int (-9007199254740992) ∧
    offsetOf (some (10 ^ 23)) none = .int 999999999999999983222784 ∧
    (offsetOf (some (10 ^ 23)) none).sqlInteger = none ∧
    (offsetOf (some 3) none).sqlInteger = some 20 := by
  refine ⟨by decide, by decide, by decide, by decide, by decide, by decide, by decide⟩

theorem ofInt_small (n : Int) (h0 : 0 ≤ n) (h : n < 2 ^ 53) : JsNumber.ofInt n = .int n := by
  have hn : n.natAbs < 2 ^ 53 := by omega
  have hneg : ¬ (n < 0) := by omega
  simp only [JsNumber.ofInt, nearestDouble_small _ hn, hneg, if_false]
  congr 1
  omega

theorem ofInt_large (n : Int) (h : 2 ^ 53 ≤ n) :
    JsNumber.ofInt n = .posInf ∨ ∃ m : Int, 2 ^ 53 ≤ m ∧ JsNumber.ofInt n = .int m := by
  have hn : 2 ^ 53 ≤ n.natAbs := by omega
  have hneg : ¬ (n < 0) := by omega
  unfold JsNumber.ofInt
  cases hd : nearestDouble n.natAbs with
  | none => left; simp [hneg]
  | some m =>
    right
    have := nearestDouble_large _ m hn hd
    refine ⟨m, by omega, by simp [hneg]⟩

theorem ofInt_nonpos (n : Int) (h : n ≤ 0) :
    JsNumber.ofInt n = .negInf ∨ ∃ k : Int, k ≤ 0 ∧ JsNumber.ofInt n = .int k := by
  by_cases hz : n = 0
  · subst hz
    right
    exact ⟨0, le_refl _, ofInt_small 0 (le_refl _) (by norm_num)⟩
  · have hneg : n < 0 := by omega
    unfold JsNumber.ofInt
    cases hd : nearestDouble n.natAbs with
    | none => left; simp [hneg]
    | some m => right; exact ⟨-(m : Int), by omega, by simp [hneg]⟩

theorem ofInt_huge (n : Int) (h : (doubleBound : Int) ≤ n) : JsNumber.ofInt n = .posInf := by
  have hn : doubleBound ≤ n.natAbs := by omega
  have hneg : ¬ (n < 0) := by omega
  simp only [JsNumber.ofInt, nearestDouble, hn, if_true, hneg, if_false]

theorem orElse_int (k d : Int) :
    (JsNumber.int k).orElse (.int d) = .int (if k = 0 then d else k) := by
  by_cases h : k = 0
  · simp [JsNumber.orElse, h]
  · simp [JsNumber.orElse, h]

theorem pageOf_none : pageOf none = .int 1 := rfl

theorem pageOf_nonpos (n : Int) (h : n ≤ 0) : pageOf (some n) = .int 1 := by
  simp only [pageOf, parseInt]
  rcases ofInt_nonpos n h with h1 | ⟨k, hk, h1⟩
  · rw [h1]; rfl
  · rw [h1, orElse_int]
    by_cases hk0 : k = 0
    · simp [hk0, JsNumber.max]
    · have : Max.max 1 k = 1 := by omega
      simp [hk0, JsNumber.max, this]

theorem pageOf_small (n : Int) (h1 : 1 ≤ n) (h : n < 2 ^ 53) : pageOf (some n) = .int n := by
  simp only [pageOf, parseInt]
  rw [ofInt_small n (by omega) h, orElse_int]
  have hn : ¬ (n = 0) := by omega
  have : Max.max 1 n = n := by omega
  simp [hn, JsNumber.max, this]

theorem pageOf_large (n : Int) (h : 2 ^ 53 ≤ n) :
    pageOf (some n) = .posInf ∨ ∃ p : Int, 2 ^ 53 ≤ p ∧ pageOf (some n) = .int p := by
  simp only [pageOf, parseInt]
  rcases ofInt_large n h with h1 | ⟨m, hm, h1⟩
  · left; rw [h1]; rfl
  · right
    rw [h1, orElse_int]
    have hm0 : ¬ (m = 0) := by omega
    have : Max.max 1 m = m := by omega
    exact ⟨m, hm, by simp [hm0, JsNumber.max, this]⟩

theorem pageOf_huge (n : Int) (h : (doubleBound : Int) ≤ n) : pageOf (some n) = .posInf := by
  simp only [pageOf, parseInt]
  rw [ofInt_huge n h]
  rfl

theorem pageOf_range (parsedPage : Option Int) :
    pageOf parsedPage = .posInf ∨ ∃ p : Int, 1 ≤ p ∧ pageOf parsedPage = .int p := by
  cases parsedPage with
  | none => right; exact ⟨1, le_refl _, rfl⟩
  | some n =>
    by_cases h0 : n ≤ 0
    · right; exact ⟨1, le_refl _, pageOf_nonpos n h0⟩
    · by_cases h53 : n < 2 ^ 53
      · right; exact ⟨n, by omega, pageOf_small n (by omega) h53⟩
      · rcases pageOf_large n (by omega) with h | ⟨p, hp, h⟩
        · left; exact h
        · right; exact ⟨p, by omega, h⟩

theorem limitOf_range (parsedLimit : Option Int) :
    ∃ l : Int, 1 ≤ l ∧ l ≤ 100 ∧ limitOf parsedLimit = .int l := by
  cases parsedLimit with
  | none => exact ⟨10, by decide, by decide, rfl⟩
  | some n =>
    simp only [limitOf, parseInt]
    cases hn : JsNumber.ofInt n with
    | nan => exact ⟨10, by decide, by decide, rfl⟩
    | negInf => exact ⟨1, by decide, by decide, rfl⟩
    | posInf => exact ⟨100, by decide, by decide, rfl⟩
    | int k =>
      rw [orElse_int]
      refine ⟨Min.min 100 (Max.max 1 (if k = 0 then 10 else k)), ?_, ?_, rfl⟩
      · split <;> omega
      · split <;> omega

theorem limitOf_small (n : Int) (h1 : 1 ≤ n) (h100 : n ≤ 100) : limitOf (some n) = .int n := by
  simp only [limitOf, parseInt]
  rw [ofInt_small n (by omega) (by omega), orElse_int]
  have hn : ¬ (n = 0) := by omega
  have h2 : Max.max 1 n = n := by omega
  have h3 : Min.min 100 n = n := by omega
  simp [hn, JsNumber.max, JsNumber.min, h2, h3]

theorem offsetOf_exact (parsedPage parsedLimit : Option Int) (p l : Int)
    (hp : pageOf parsedPage = .int p) (hl : limitOf parsedLimit = .int l)
    (h1 : 1 ≤ p) (hl1 : 1 ≤ l) (h : (p - 1) * l < 2 ^ 53) :
    offsetOf parsedPage parsedLimit = .int ((p - 1) * l) := by
  have hp1 : p - 1 < 2 ^ 53 := by nlinarith
  unfold offsetOf
  rw [hp, hl]
  show (JsNumber.ofInt (p - 1)).mul (.int l) = _
  rw [ofInt_small (p - 1) (by omega) hp1]
  show JsNumber.ofInt ((p - 1) * l) = _
  exact ofInt_small _ (Int.mul_nonneg (by omega) (by omega)) h

theorem offsetOf_large (parsedPage parsedLimit : Option Int) (p l : Int)
    (hp : pageOf parsedPage = .int p) (hl : limitOf parsedLimit = .int l)
    (h1 : 1 ≤ p) (hl1 : 1 ≤ l) (h : 2 ^ 53 ≤ (p - 1) * l) :
    offsetOf parsedPage parsedLimit = .posInf ∨
      ∃ o : Int, 2 ^ 53 ≤ o ∧ offsetOf parsedPage parsedLimit = .int o := by
  unfold offsetOf
  rw [hp, hl]
  show (JsNumber.ofInt (p - 1)).mul (.int l) = _ ∨ ∃ o : Int, _ ∧ (JsNumber.ofInt (p - 1)).mul (.int l) = _
  by_cases hp1 : p - 1 < 2 ^ 53
  · rw [ofInt_small (p - 1) (by omega) hp1]
    exact ofInt_large _ h
  · rcases ofInt_large (p - 1) (by omega) with h2 | ⟨m, hm, h2⟩
    · left
      rw [h2]
      have hs : Int.sign l = 1 := Int.sign_eq_one_of_pos (by omega)
      simp [JsNumber.mul, JsNumber.sign, hs]
    · rw [h2]
      have : (2 : Int) ^ 53 ≤ m * l := by nlinarith
      exact ofInt_large _ this

theorem offsetOf_infinite (parsedPage parsedLimit : Option Int)
    (hp : pageOf parsedPage = .posInf) : offsetOf parsedPage parsedLimit = .posInf := by
  obtain ⟨l, hl1, _, hl⟩ := limitOf_range parsedLimit
  unfold offsetOf
  rw [hp, hl]
  have hs : Int.sign l = 1 := Int.sign_eq_one_of_pos (by omega)
  simp [JsNumber.sub, JsNumber.mul, JsNumber.sign, hs]

theorem ofInt_small_neg (n : Int) (h0 : n ≤ 0) (h : -(2 ^ 53) < n) :
    JsNumber.ofInt n = .int n := by
  by_cases hz : n = 0
  · subst hz
    exact ofInt_small 0 (le_refl _) (by norm_num)
  · have hn : n.natAbs < 2 ^ 53 := by omega
    have hneg : n < 0 := by omega
    simp only [JsNumber.ofInt, nearestDouble_small _ hn, hneg, if_true]
    congr 1
    omega

theorem ofInt_neg_large (n : Int) (h : n ≤ -(2 ^ 53)) :
    JsNumber.ofInt n = .negInf ∨ ∃ k : Int, k ≤ -(2 ^ 53) ∧ JsNumber.ofInt n = .int k := by
  have hn : 2 ^ 53 ≤ n.natAbs := by omega
  have hneg : n < 0 := by omega
  unfold JsNumber.ofInt
  cases hd : nearestDouble n.natAbs with
  | none => left; simp [hneg]
  | some m =>
    right
    have := nearestDouble_large _ m hn hd
    exact ⟨-(m : Int), by omega, by simp [hneg]⟩

theorem limitOf_nonzero (n : Int) (hn : n ≠ 0) :
    limitOf (some n) = .int (min 100 (max 1 n)) := by
  simp only [limitOf, parseInt]
  by_cases hpos : 0 < n
  · by_cases h53 : n < 2 ^ 53
    · rw [ofInt_small n (by omega) h53, orElse_int]
      simp [hn, JsNumber.max, JsNumber.min]
    · rcases ofInt_large n (by omega) with h1 | ⟨m, hm, h1⟩
      · rw [h1]
        have : min 100 (max 1 n) = 100 := by omega
        rw [this]
        rfl
      · rw [h1, orElse_int]
        have hm0 : ¬ (m = 0) := by omega
        have h2 : min 100 (max 1 n) = 100 := by omega
        have h3 : Min.min 100 (Max.max 1 m) = 100 := by omega
        simp [hm0, JsNumber.max, JsNumber.min, h2, h3]
  · have h2 : min 100 (max 1 n) = 1 := by omega
    rw [h2]
    by_cases h53 : -(2 ^ 53) < n
    · rw [ofInt_small_neg n (by omega) h53, orElse_int]
      have h3 : Min.min 100 (Max.max 1 n) = 1 := by omega
      simp [hn, JsNumber.max, JsNumber.min, h3]
    · rcases ofInt_neg_large n (by omega) with h1 | ⟨k, hk, h1⟩
      · rw [h1]
        rfl
      · rw [h1, orElse_int]
        have hk0 : ¬ (k = 0) := by omega
        have h3 : Min.min 100 (Max.max 1 k) = 1 := by omega
        simp [hk0, JsNumber.max, JsNumber.min, h3]

theorem offsetOf_range (parsedPage parsedLimit : Option Int) :
    offsetOf parsedPage parsedLimit = .posInf ∨
      ∃ o : Int, 0 ≤ o ∧ offsetOf parsedPage parsedLimit = .int o := by
  obtain ⟨l, hl1, _, hl⟩ := limitOf_range parsedLimit
  rcases pageOf_range parsedPage with hp | ⟨p, hp1, hp⟩
  · left; exact offsetOf_infinite parsedPage parsedLimit hp
  · by_cases h : (p - 1) * l < 2 ^ 53
    · right
      exact ⟨(p - 1) * l, Int.mul_nonneg (by omega) (by omega),
        offsetOf_exact parsedPage parsedLimit p l hp hl hp1 hl1 h⟩
    · rcases offsetOf_large parsedPage parsedLimit p l hp hl hp1 hl1 (by omega) with
        h1 | ⟨o, ho, h1⟩
      · left; exact h1
      · right; exact ⟨o, by omega, h1⟩

theorem sqlInteger_some (x : JsNumber) (o : Int) (h : x.sqlInteger = some o) :
    x = .int o ∧ -(2 ^ 63) < o ∧ o < 2 ^ 63 := by
  cases x with
  | nan => simp [JsNumber.sqlInteger] at h
  | negInf => simp [JsNumber.sqlInteger] at h
  | posInf => simp [JsNumber.sqlInteger] at h
  | int n =>
    simp only [JsNumber.sqlInteger] at h
    split at h
    · cases h
      rename_i hb
      exact ⟨rfl, hb.1, hb.2⟩
    · cases h

theorem sqlInteger_int (o : Int) (h1 : -(2 ^ 63) < o) (h2 : o < 2 ^ 63) :
    (JsNumber.int o).sqlInteger = some o := by
  simp only [JsNumber.sqlInteger]
  rw [if_pos ⟨h1, h2⟩]

theorem getAll_ok (penv : ProcessEnv) (envList envCount : Env) (db : Db)
    (parsedPage parsedLimit : Option Int) (l o : Int)
    (hl : envList.getFault = none) (hc : envCount.getFault = none)
    (hlim : limitOf parsedLimit = .int l) (hl1 : 1 ≤ l) (hl100 : l ≤ 100)
    (hoff : offsetOf parsedPage parsedLimit = .int o) (ho1 : -(2 ^ 63) < o)
    (ho : o < 2 ^ 63) :
    getAll penv envList envCount db parsedPage parsedLimit =
      { status := 200
        body := .users
          ((db.listActive l o).map (fun row => (User.new row.selectListed).toJSON))
          { currentPage := pageOf parsedPage
            totalPages := .int (ceilDiv (db.rows.filter Row.active).length l)
            totalUsers := (db.rows.filter Row.active).length
            usersPerPage := .int l
            hasNextPage :=
              (pageOf parsedPage).lt (.int (ceilDiv (db.rows.filter Row.active).length l))
            hasPrevPage := (JsNumber.int 1).lt (pageOf parsedPage) } } := by
  have hoff1 : ((pageOf parsedPage).sub (.int 1)).mul (.int l) = .int o := by
    rw [← hlim]; exact hoff
  have hlpos : l > 0 := by omega
  simp only [getAll, User.findAllBound, User.findAll, User.count, hl, hc, hoff1, hlim,
    sqlInteger_int l (by omega) (by omega), sqlInteger_int o ho1 ho, totalPagesOf, hlpos,
    if_true, List.map_map]
  rfl

theorem getAll_mismatch (penv : ProcessEnv) (envList envCount : Env) (db : Db)
    (parsedPage parsedLimit : Option Int) (hl : envList.getFault = none)
    (hoff : (offsetOf parsedPage parsedLimit).sqlInteger = none) :
    getAll penv envList envCount db parsedPage parsedLimit =
      { status := 500
        body := .failureDetail "Failed to fetch users"
          (errorDetail penv "Database error: SQLITE_MISMATCH: datatype mismatch") } := by
  obtain ⟨l, hl1, hl100, hlim⟩ := limitOf_range parsedLimit
  have hoff1 : (((pageOf parsedPage).sub (.int 1)).mul (.int l)).sqlInteger = none := by
    rw [← hlim]; exact hoff
  simp only [getAll, User.findAllBound, hl, hoff1, hlim,
    sqlInteger_int l (by omega) (by omega)]
  rfl

theorem getAll_cases (penv : ProcessEnv) (envList envCount : Env) (db : Db)
    (parsedPage parsedLimit : Option Int) (hl : envList.getFault = none)
    (hc : envCount.getFault = none) :
    (∃ p l o : Int, pageOf parsedPage = .int p ∧ 1 ≤ p ∧
      limitOf parsedLimit = .int l ∧ 1 ≤ l ∧ l ≤ 100 ∧
      offsetOf parsedPage parsedLimit = .int o ∧ 0 ≤ o ∧ o < 2 ^ 63 ∧
      getAll penv envList envCount db parsedPage parsedLimit =
        { status := 200
          body := .users
            ((db.listActive l o).map (fun row => (User.new row.selectListed).toJSON))
            { currentPage := .int p
              totalPages := .int (ceilDiv (db.rows.filter Row.active).length l)
              totalUsers := (db.rows.filter Row.active).length
              usersPerPage := .int l
              hasNextPage := decide (p < ceilDiv (db.rows.filter Row.active).length l)
              hasPrevPage := decide (1 < p) } }) ∨
    ((offsetOf parsedPage parsedLimit).sqlInteger = none ∧
      getAll penv envList envCount db parsedPage parsedLimit =
        { status := 500
          body := .failureDetail "Failed to fetch users"
            (errorDetail penv "Database error: SQLITE_MISMATCH: datatype mismatch") }) := by
  cases hs : (offsetOf parsedPage parsedLimit).sqlInteger with
  | none => right; exact ⟨rfl, getAll_mismatch penv envList envCount db _ _ hl hs⟩
  | some o =>
    left
    obtain ⟨hoff, ho1, ho2⟩ := sqlInteger_some _ o hs
    obtain ⟨l, hl1, hl100, hlim⟩ := limitOf_range parsedLimit
    have ho0 : 0 ≤ o := by
      rcases offsetOf_range parsedPage parsedLimit with h | ⟨o1, ho1, h⟩
      · rw [hoff] at h; cases h
      · rw [hoff] at h; cases h; exact ho1
    rcases pageOf_range parsedPage with hp | ⟨p, hp1, hp⟩
    · have := offsetOf_infinite parsedPage parsedLimit hp
      rw [hoff] at this
      cases this
    · refine ⟨p, l, o, hp, hp1, hlim, hl1, hl100, hoff, ho0, ho2, ?_⟩
      rw [getAll_ok penv envList envCount db parsedPage parsedLimit l o hl hc hlim hl1 hl100
        hoff ho1 ho2, hp]
      rfl

/-- C17 (as the code has it). When the query of a User operation fails inside
`GET /profile`, `GET /all` or `GET /stats`, the response has status 500 and the fixed
message of the route; its `error` property is the fixed text `Internal server error`
unless `NODE_ENV` is `development`, in which case it is the message of the failure,
`Database error: ` followed by the driver's message. -/
theorem storage_failure_response (penv : ProcessEnv) (env : Env) (db : Db)
    (err : SqliteError) (hfault : env.getFault = some err) :
    (∀ decoded, getProfile penv env db decoded =
      { status := 500
        body := .failureDetail "Failed to fetch profile"
          (if penv.NODE_ENV = some "development" then "Database error: " ++ err.message
           else "Internal server error") }) ∧
    (∀ envCount page limit, getAll penv env envCount db page limit =
      { status := 500
        body := .failureDetail "Failed to fetch users"
          (if penv.NODE_ENV = some "development" then "Database error: " ++ err.message
           else "Internal server error") }) ∧
    (∀ envList page limit, envList.getFault = none →
      getAll penv envList env db page limit =
        { status := 500
          body := .failureDetail "Failed to fetch users"
            (if penv.NODE_ENV = some "development" then
              "Database error: " ++
                (if (offsetOf page limit).sqlInteger = none then datatypeMismatch.message
                 else err.message)
             else "Internal server error") }) ∧
    getStats penv env db =
      { status := 500
        body := .failureDetail "Failed to fetch statistics"
          (if penv.NODE_ENV = some "development" then "Database error: " ++ err.message
           else "Internal server error") } := by
  refine ⟨?_, ?_, ?_, ?_⟩
  · intro decoded
    cases hid : decoded.userId <;>
      simp [getProfile, User.findByUserId, User.findById, hid, hfault, errorDetail,
        databaseError]
  · intro envCount page limit
    simp [getAll, User.findAllBound, hfault, errorDetail, databaseError]
  · intro envList page limit hl
    cases hs : (offsetOf page limit).sqlInteger with
    | none =>
      rw [getAll_mismatch penv envList env db page limit hl hs]
      simp only [errorDetail, if_true]
      rfl
    | some o =>
      obtain ⟨hoff, ho1, ho2⟩ := sqlInteger_some _ o hs
      obtain ⟨l, hl1, hl100, hlim⟩ := limitOf_range limit
      have hoff1 : ((pageOf page).sub (.int 1)).mul (.int l) = .int o := by
        rw [← hlim]; exact hoff
      simp [getAll, User.findAllBound, User.findAll, User.count, hl, hfault, errorDetail,
        databaseError, hoff1, hlim, sqlInteger_int l (by omega) (by omega),
        sqlInteger_int o ho1 ho2]
  · simp [getStats, User.count, hfault, errorDetail, databaseError]

theorem storage_failure_response_witness :
    faultyEnv.getFault = some ⟨"SQLITE_IOERR", "disk I/O error"⟩ ∧
    getProfile plainProcess faultyEnv sampleDb samplePayload =
      { status := 500
        body := .failureDetail "Failed to fetch profile" "Internal server error" } ∧
    getStats plainProcess faultyEnv sampleDb =
      { status := 500
        body := .failureDetail "Failed to fetch statistics" "Internal server error" } :=
  have h := storage_failure_response plainProcess faultyEnv sampleDb
    ⟨"SQLITE_IOERR", "disk I/O error"⟩ rfl
  ⟨rfl, h.1 samplePayload, h.2.2.2⟩

/-- C17, the claim refuted: with `NODE_ENV=development` the 500 body of `GET /profile`
carries the message of the storage failure. -/
theorem storage_failure_leaks_in_development :
    getProfile developmentProcess faultyEnv sampleDb samplePayload =
      { status := 500
        body := .failureDetail "Failed to fetch profile" "Database error: disk I/O error" } ∧
    "Database error: disk I/O error" = "Database error: " ++ "disk I/O error" ∧
    faultyEnv.getFault = some ⟨"SQLITE_IOERR", "disk I/O error"⟩ := by
  refine ⟨by decide, by decide, rfl⟩

theorem flatMap_pages {α : Type} (xs : List α) (limit : Nat) (n : Nat) :
    (List.range n).flatMap (fun p => (xs.drop (p * limit)).take limit) =
      xs.take (n * limit) := by
  induction n with
  | zero => simp
  | succ n ih =>
    rw [List.range_succ, List.flatMap_append, ih, Nat.succ_mul, List.take_add]
    simp

theorem listActive_all (db : Db) :
    db.listActive (-1) 0 =
      (db.rows.filter Row.active).insertionSort (fun a b => b.createdKey ≤ a.createdKey) := by
  simp [Db.listActive]

theorem listActive_page (db : Db) (limit p : Nat) :
    db.listActive (limit : Int) ((p : Int) * (limit : Int)) =
      ((db.listActive (-1) 0).drop (p * limit)).take limit := by
  have hoff : ((p : Int) * (limit : Int)).toNat = p * limit := by
    have : (p : Int) * (limit : Int) = ((p * limit : Nat) : Int) := by
      push_cast; ring
    rw [this, Int.toNat_natCast]
  have hneg : ¬ ((limit : Int) < 0) := by omega
  rw [listActive_all]
  simp only [Db.listActive, hoff, hneg, if_false, Int.toNat_natCast]

/-- C16. For a fixed table and a limit between 1 and 100, let `sorted` be the result of
the query of `findAll` without its `LIMIT` and `totalPages = ceil(active users / limit)`.
`sorted` contains every active row exactly once and is ordered by `createdAt` descending:
of two rows the earlier has a `createdAt` at least as late as the later one, rows without
`createdAt` coming last.  For every page `p + 1` up to `totalPages`, `GET /all` answers
with status 200 and the public representations of the rows `p * limit`, ...,
`p * limit + limit - 1` of `sorted`; these pieces concatenated in the order of the pages
are `sorted`; every page holds at most `limit` users and every page before the last holds
exactly `limit`. -/
theorem getAll_pages_partition (penv : ProcessEnv) (envList envCount : Env) (db : Db)
    (limit : Nat) (h1 : 1 ≤ limit) (h100 : limit ≤ 100)
    (hl : envList.getFault = none) (hc : envCount.getFault = none)
    (hsize : (db.rows.filter Row.active).length < 2 ^ 53) :
    ∃ totalPages : Nat,
      (totalPages : Int) = ceilDiv (db.rows.filter Row.active).length limit ∧
      (db.listActive (-1) 0).Perm (db.rows.filter Row.active) ∧
      (db.listActive (-1) 0).Pairwise
        (fun a b => ∀ y, b.createdAt = some y → ∃ x, a.createdAt = some x ∧ y ≤ x) ∧
      (∀ p : Nat, p < totalPages → ∃ pagination,
        getAll penv envList envCount db (some ((p : Int) + 1)) (some (limit : Int)) =
          { status := 200
            body := .users
              ((((db.listActive (-1) 0).drop (p * limit)).take limit).map
                (fun r => (User.new r.selectListed).toJSON)) pagination } ∧
        pagination.currentPage = .int ((p : Int) + 1) ∧
        pagination.totalPages = .int totalPages ∧
        pagination.usersPerPage = .int limit) ∧
      (List.range totalPages).flatMap
          (fun p => ((db.listActive (-1) 0).drop (p * limit)).take limit) =
        db.listActive (-1) 0 ∧
      (∀ p, (((db.listActive (-1) 0).drop (p * limit)).take limit).length ≤ limit) ∧
      (∀ p, p + 1 < totalPages →
        (((db.listActive (-1) 0).drop (p * limit)).take limit).length = limit) := by
  have hall := listActive_all db
  have hperm : (db.listActive (-1) 0).Perm (db.rows.filter Row.active) := by
    rw [hall]
    exact List.perm_insertionSort _ _
  have hlen : (db.listActive (-1) 0).length = (db.rows.filter Row.active).length :=
    hperm.length_eq
  generalize hs : db.listActive (-1) 0 = sorted at hperm hlen hall
  generalize ht : (db.rows.filter Row.active).length = total at hsize hlen
  let n := (total + limit - 1) / limit
  have hpos : 0 < limit := h1
  have hupper : n * limit ≤ total + limit - 1 := Nat.div_mul_le_self _ _
  have hlower : total + limit - 1 < n * limit + limit := Nat.lt_div_mul_add hpos
  have hn : (n : Int) = ceilDiv total limit := by
    have hcast : ((total + limit - 1 : Nat) : Int) = (total : Int) + (limit : Int) - 1 := by
      omega
    show ((((total + limit - 1) / limit : Nat)) : Int) = _
    rw [Int.natCast_div, hcast]
    rfl
  have hnle : n ≤ total := by
    by_contra hgt
    have h2 : (total + 1) * limit ≤ n * limit := Nat.mul_le_mul_right _ (by omega)
    have h3 : (total + 1) * limit = total * limit + limit := by ring
    have h4 : total ≤ total * limit := Nat.le_mul_of_pos_right _ hpos
    omega
  refine ⟨n, hn, hperm, ?_, ?_, ?_, ?_, ?_⟩
  · rw [hall]
    have hsorted := @List.sorted_insertionSort Row (fun a b => b.createdKey ≤ a.createdKey) _
      ⟨fun a b => le_total b.createdKey a.createdKey⟩
      ⟨fun a b c hab hbc => le_trans hbc hab⟩ (db.rows.filter Row.active)
    refine List.Pairwise.imp ?_ hsorted
    intro a b hab y hy
    simp only [Row.createdKey, hy] at hab
    cases ha : a.createdAt with
    | none => simp [ha] at hab
    | some x =>
      simp only [ha] at hab
      exact ⟨x, rfl, by omega⟩
  · intro p hp
    have hp53 : ((p : Int) + 1) < 2 ^ 53 := by omega
    have hpage := pageOf_small ((p : Int) + 1) (by omega) hp53
    have hlimit := limitOf_small (limit : Int) (by omega) (by omega)
    have hmul : (p + 1) * limit ≤ n * limit := Nat.mul_le_mul_right _ hp
    have hmul2 : (p + 1) * limit = p * limit + limit := by ring
    have hoffb : p * limit < 2 ^ 53 := by omega
    have hoffi : ((p : Int) + 1 - 1) * (limit : Int) = ((p * limit : Nat) : Int) := by
      push_cast; ring
    have hoff := offsetOf_exact (some ((p : Int) + 1)) (some (limit : Int)) ((p : Int) + 1)
      limit hpage hlimit (by omega) (by omega) (by rw [hoffi]; omega)
    rw [hoffi] at hoff
    have hget := getAll_ok penv envList envCount db (some ((p : Int) + 1))
      (some (limit : Int)) limit ((p * limit : Nat) : Int) hl hc hlimit (by omega) (by omega)
      hoff (by omega) (by omega)
    have hcast : ((p * limit : Nat) : Int) = (p : Int) * (limit : Int) := by push_cast; ring
    rw [hcast, listActive_page, hs, hpage, ht] at hget
    exact ⟨_, hget, rfl, by rw [hn], rfl⟩
  · have := flatMap_pages sorted limit n
    have htake : sorted.take (n * limit) = sorted :=
      List.take_of_length_le (by rw [hlen]; omega)
    rw [this, htake]
  · intro p
    simp only [List.length_take]
    omega
  · intro p hp
    simp only [List.length_take, List.length_drop, hlen]
    have h2 : (p + 2) * limit ≤ n * limit := Nat.mul_le_mul_right _ (by omega)
    have h3 : (p + 2) * limit = p * limit + 2 * limit := by ring
    show min limit (total - p * limit) = limit
    omega

theorem getAll_pages_partition_witness :
    ((1 ≤ 1 ∧ 1 ≤ 100) ∧ (sampleEnv 9000).getFault = none ∧
      (sampleDb.rows.filter Row.active).length < 2 ^ 53) ∧
    sampleDb.listActive (-1) 0 = [carolRow, aliceRow] ∧
    (carolRow.createdAt = some 3 ∧ aliceRow.createdAt = some 1) ∧
    ∃ totalPages : Nat, totalPages = 2 ∧
      (∀ p : Nat, p < totalPages → ∃ pagination,
        getAll plainProcess (sampleEnv 9000) (sampleEnv 9000) sampleDb
            (some ((p : Int) + 1)) (some ((1 : Nat) : Int)) =
          { status := 200
            body := .users
              ((([carolRow, aliceRow].drop (p * 1)).take 1).map
                (fun r => (User.new r.selectListed).toJSON)) pagination } ∧
        pagination.currentPage = .int ((p : Int) + 1) ∧
        pagination.totalPages = .int totalPages ∧
        pagination.usersPerPage = .int ((1 : Nat) : Int)) := by
  have hsorted : sampleDb.listActive (-1) 0 = [carolRow, aliceRow] := by decide
  refine ⟨⟨⟨by decide, by decide⟩, rfl, by decide⟩, hsorted, ⟨rfl, rfl⟩, ?_⟩
  obtain ⟨totalPages, htotal, _, _, hpages, _⟩ :=
    getAll_pages_partition plainProcess (sampleEnv 9000) (sampleEnv 9000) sampleDb 1
      (by decide) (by decide) rfl rfl (by decide)
  have h2 : totalPages = 2 := by
    have hc : ceilDiv (sampleDb.rows.filter Row.active).length ((1 : Nat) : Int) = 2 := by
      decide
    rw [hc] at htotal
    omega
  refine ⟨totalPages, h2, ?_⟩
  intro p hp
  have := hpages p hp
  rw [hsorted] at this
  exact this

theorem record_self (opts : RateLimitOptions) (store : HitStore) (ip : String) (now : Nat) :
    (store.record opts ip now) ip = some (store.hit opts ip now) := by
  simp [HitStore.record]

theorem record_other (opts : RateLimitOptions) (store : HitStore) (ip k : String) (now : Nat)
    (h : k ≠ ip) : (store.record opts ip now) k = store k := by
  simp [HitStore.record, h]

theorem step_budget (ls : Limiters) (ip0 : String) (now : Nat) (ip : String) (window : Nat) :
    (if ip0 = ip ∧ (ls.step ip0 now).2 = .passedOn window then 1 else 0) +
        (ls.step ip0 now).1.auth.budget ip window ≤ ls.auth.budget ip window := by
  unfold Limiters.step
  by_cases hg : limiterOptions.allows (ls.general.hit limiterOptions ip0 now) = true
  · simp only [hg, if_true]
    by_cases hip : ip0 = ip
    · subst hip
      by_cases ha : authLimiterOptions.allows (ls.auth.hit authLimiterOptions ip0 now) = true
      · simp only [ha, if_true, true_and, Throttle.passedOn.injEq, HitStore.budget,
          record_self]
        simp only [RateLimitOptions.allows, decide_eq_true_eq] at ha
        revert ha
        unfold HitStore.hit
        cases hs : ls.auth ip0 with
        | none =>
          simp only [authLimiterOptions]
          intro ha
          split_ifs <;> omega
        | some entry =>
          simp only [authLimiterOptions]
          by_cases hlive : now < entry.resetTime
          · simp only [hlive, if_true]
            intro ha
            split_ifs <;> omega
          · simp only [hlive, if_false]
            intro ha
            split_ifs <;> omega
      · simp only [ha, Bool.false_eq_true, if_false, reduceCtorEq, and_false, zero_add,
          HitStore.budget, record_self]
        unfold HitStore.hit
        cases hs : ls.auth ip0 with
        | none =>
          simp only [authLimiterOptions]
          split_ifs <;> omega
        | some entry =>
          simp only [authLimiterOptions]
          by_cases hlive : now < entry.resetTime
          · simp only [hlive, if_true]
            split_ifs <;> omega
          · simp only [hlive, if_false]
            split_ifs <;> omega
    · have hne : ip ≠ ip0 := fun h => hip h.symm
      by_cases ha : authLimiterOptions.allows (ls.auth.hit authLimiterOptions ip0 now) = true
      · simp [ha, hip, HitStore.budget, record_other _ _ _ _ _ hne]
      · simp [ha, hip, HitStore.budget, record_other _ _ _ _ _ hne]
  · simp [hg]

theorem budget_le_max (store : HitStore) (ip : String) (window : Nat) :
    store.budget ip window ≤ 5 := by
  unfold HitStore.budget
  cases store ip with
  | none => simp [authLimiterOptions]
  | some entry =>
    simp only [authLimiterOptions]
    split_ifs <;> omega

theorem run_passed_le_budget (reqs : List (String × Nat)) :
    ∀ (ls : Limiters) (ip : String) (window : Nat),
      (ls.run reqs).countP (fun o => decide (o.1 = ip ∧ o.2.2 = .passedOn window)) ≤
        ls.auth.budget ip window := by
  induction reqs with
  | nil => intro ls ip window; simp [Limiters.run]
  | cons req rest ih =>
    intro ls ip window
    obtain ⟨ip0, now⟩ := req
    have hstep := step_budget ls ip0 now ip window
    have hrest := ih (ls.step ip0 now).1 ip window
    rw [Limiters.run, List.countP_cons]
    by_cases hc : ip0 = ip ∧ (ls.step ip0 now).2 = .passedOn window
    · rw [if_pos hc] at hstep
      rw [if_pos (by simpa using hc)]
      omega
    · rw [if_neg hc] at hstep
      rw [if_neg (by simpa using hc)]
      omega

theorem hit_window_bounds (store : HitStore) (ip : String) (now lo : Nat)
    (hinv : ∀ k e, store k = some e → e.resetTime ≤ lo + 900000) (hlo : lo ≤ now) :
    now < (store.hit authLimiterOptions ip now).resetTime ∧
      (store.hit authLimiterOptions ip now).resetTime ≤ now + 900000 := by
  unfold HitStore.hit
  cases hs : store ip with
  | none => simp [authLimiterOptions]
  | some entry =>
    have := hinv ip entry hs
    by_cases hlive : now < entry.resetTime
    · simp only [hlive, if_true]
      refine ⟨trivial, ?_⟩
      show entry.resetTime ≤ now + 900000
      omega
    · simp [hlive, authLimiterOptions]

theorem run_window_bounds (reqs : List (String × Nat)) :
    ∀ (ls : Limiters) (lo : Nat),
      (∀ k e, ls.auth k = some e → e.resetTime ≤ lo + 900000) →
      (reqs.map Prod.snd).Pairwise (· ≤ ·) → (∀ r ∈ reqs, lo ≤ r.2) →
      ∀ o ∈ ls.run reqs, ∀ w, (o.2.2 = .passedOn w ∨ o.2.2 = .tooManyAuth w) →
        o.2.1 < w ∧ w ≤ o.2.1 + 900000 := by
  induction reqs with
  | nil => intro ls lo _ _ _ o ho; simp [Limiters.run] at ho
  | cons req rest ih =>
    intro ls lo hinv hsorted hlo o ho w hw
    obtain ⟨ip0, now⟩ := req
    have hnow : lo ≤ now := hlo (ip0, now) (List.mem_cons_self _ _)
    have hb := hit_window_bounds ls.auth ip0 now lo hinv hnow
    simp only [List.map_cons, List.pairwise_cons] at hsorted
    rw [Limiters.run, List.mem_cons] at ho
    rcases ho with rfl | ho
    · simp only [Limiters.step] at hw
      by_cases hg : limiterOptions.allows (ls.general.hit limiterOptions ip0 now) = true
      · simp only [hg, if_true] at hw
        by_cases ha : authLimiterOptions.allows (ls.auth.hit authLimiterOptions ip0 now) = true
        · simp only [ha, if_true, Throttle.passedOn.injEq, reduceCtorEq, or_false] at hw
          rw [← hw]; exact hb
        · simp only [ha, Bool.false_eq_true, if_false, Throttle.tooManyAuth.injEq,
            reduceCtorEq, false_or] at hw
          rw [← hw]; exact hb
      · simp [hg] at hw
    · refine ih (ls.step ip0 now).1 now ?_ hsorted.2 ?_ o ho w hw
      · intro k e hk
        simp only [Limiters.step] at hk
        by_cases hg : limiterOptions.allows (ls.general.hit limiterOptions ip0 now) = true
        · have hauth : (ls.auth.record authLimiterOptions ip0 now) k = some e := by
            by_cases ha :
                authLimiterOptions.allows (ls.auth.hit authLimiterOptions ip0 now) = true
            · simpa [hg, ha] using hk
            · simpa [hg, ha] using hk
          by_cases hk0 : k = ip0
          · subst hk0
            rw [record_self] at hauth
            cases hauth
            exact hb.2
          · rw [record_other _ _ _ _ _ hk0] at hauth
            have := hinv k e hauth
            omega
        · simp only [hg, Bool.false_eq_true, if_false] at hk
          have := hinv k e hk
          omega
      · intro r hr
        exact hsorted.1 r.2 (List.mem_map.2 ⟨r, hr, rfl⟩)

theorem countP_or_le {α : Type} (p q : α → Bool) (l : List α) :
    l.countP (fun a => p a || q a) ≤ l.countP p + l.countP q := by
  induction l with
  | nil => simp
  | cons a as ih =>
    simp only [List.countP_cons]
    cases p a <;> cases q a <;> simp <;> omega

/-- C18 (as the code has it). Whatever the limiters have counted before and whatever the
requests to paths under `/api/auth`, for every address and every counting window of
`authLimiter` (named by the instant it ends) at most 5 requests of that address counted in
that window are passed on to the auth routes; if 6 or more were counted in one window, one
of them was answered 429; every request not passed on is answered 429.  On a server
started empty whose requests arrive in time order, a counting window spans at most the 15
minutes before its end.  Whether a request is passed on is a function of the limiter
stores, the address and the time: the table and the auth routes are consulted only after
both limiters let the request through.  On a server started empty, of six requests of
one address in six consecutive milliseconds the first five are passed on and the sixth is
answered 429. -/
theorem authLimiter_throttles (ls : Limiters) (reqs : List (String × Nat)) (ip : String)
    (window : Nat) :
    (ls.run reqs).countP (fun o => decide (o.1 = ip ∧ o.2.2 = .passedOn window)) ≤ 5 ∧
    (6 ≤ (ls.run reqs).countP (fun o =>
        decide (o.1 = ip ∧ o.2.2 = .passedOn window) ||
        decide (o.1 = ip ∧ o.2.2 = .tooManyAuth window)) →
      ∃ o ∈ ls.run reqs, o.1 = ip ∧ o.2.2 = .tooManyAuth window ∧
        o.2.2.response.map Response.status = some 429) ∧
    (∀ o ∈ ls.run reqs, (o.2.2.response = none ↔ ∃ w, o.2.2 = .passedOn w) ∧
      ∀ res, o.2.2.response = some res → res.status = 429) ∧
    ((reqs.map Prod.snd).Pairwise (· ≤ ·) →
      ∀ o ∈ Limiters.fresh.run reqs, ∀ w, (o.2.2 = .passedOn w ∨ o.2.2 = .tooManyAuth w) →
        o.2.1 < w ∧ w ≤ o.2.1 + 15 * 60 * 1000) ∧
    (∀ (authRoutes : Db → Request → Db × Response) (db : Db) (req : Request) (now : Nat),
      (∀ tooMany, (ls.step req.ip now).2.response = some tooMany →
        apiAuth authRoutes ls db req now = ((ls.step req.ip now).1, db, tooMany)) ∧
      ((ls.step req.ip now).2.response = none →
        apiAuth authRoutes ls db req now = ((ls.step req.ip now).1, authRoutes db req))) ∧
    (Limiters.fresh.run
        [("203.0.113.7", 0), ("203.0.113.7", 1), ("203.0.113.7", 2), ("203.0.113.7", 3),
          ("203.0.113.7", 4), ("203.0.113.7", 5)]).map
        (fun o => (o.2.2, o.2.2.response.map Response.status)) =
      [(.passedOn 900000, none), (.passedOn 900000, none), (.passedOn 900000, none),
        (.passedOn 900000, none), (.passedOn 900000, none),
        (.tooManyAuth 900000, some 429)] := by
  have hpass : (ls.run reqs).countP (fun o => decide (o.1 = ip ∧ o.2.2 = .passedOn window)) ≤ 5 :=
    le_trans (run_passed_le_budget reqs ls ip window) (budget_le_max _ _ _)
  refine ⟨hpass, ?_, ?_, ?_, ?_, by decide⟩
  · intro h6
    have hor := countP_or_le (fun o : String × Nat × Throttle =>
        decide (o.1 = ip ∧ o.2.2 = .passedOn window))
      (fun o => decide (o.1 = ip ∧ o.2.2 = .tooManyAuth window)) (ls.run reqs)
    have hpos : 0 < (ls.run reqs).countP
        (fun o => decide (o.1 = ip ∧ o.2.2 = .tooManyAuth window)) := by omega
    obtain ⟨o, ho, hq⟩ := List.countP_pos_iff.1 hpos
    simp only [decide_eq_true_eq] at hq
    exact ⟨o, ho, hq.1, hq.2, by rw [hq.2]; rfl⟩
  · intro o _
    cases o.2.2 with
    | tooManyGeneral => simp [Throttle.response, RateLimitOptions.tooMany]
    | tooManyAuth w =>
      refine ⟨by simp [Throttle.response], ?_⟩
      intro res h
      simp only [Throttle.response, Option.some.injEq] at h
      rw [← h]; rfl
    | passedOn w => simp [Throttle.response]
  · intro hsorted o ho w hw
    exact run_window_bounds reqs Limiters.fresh 0
      (by intro k e hk; simp [Limiters.fresh, HitStore.empty] at hk) hsorted
      (fun _ _ => Nat.zero_le _) o ho w hw
  · intro authRoutes db req now
    constructor
    · intro tooMany h
      simp [apiAuth, h]
    · intro h
      simp [apiAuth, h]

/-- C18, the claim refuted: on a server started empty, one address sends a request at
0 ms, four more just before its counting window ends at 900000 ms and five more just after;
all ten are passed on, and nine of them fall within nine milliseconds, far less than 15
minutes. -/
theorem authLimiter_window_boundary :
    (Limiters.fresh.run
        [("203.0.113.7", 0), ("203.0.113.7", 899996), ("203.0.113.7", 899997),
          ("203.0.113.7", 899998), ("203.0.113.7", 899999), ("203.0.113.7", 900000),
          ("203.0.113.7", 900001), ("203.0.113.7", 900002), ("203.0.113.7", 900003),
          ("203.0.113.7", 900004)]).map (fun o => o.2.2) =
      [.passedOn 900000, .passedOn 900000, .passedOn 900000, .passedOn 900000,
        .passedOn 900000, .passedOn 1800000, .passedOn 1800000, .passedOn 1800000,
        .passedOn 1800000, .passedOn 1800000] ∧
    ((Limiters.fresh.run
        [("203.0.113.7", 0), ("203.0.113.7", 899996), ("203.0.113.7", 899997),
          ("203.0.113.7", 899998), ("203.0.113.7", 899999), ("203.0.113.7", 900000),
          ("203.0.113.7", 900001), ("203.0.113.7", 900002), ("203.0.113.7", 900003),
          ("203.0.113.7", 900004)]).filter
        (fun o => decide (899996 ≤ o.2.1 ∧ o.2.1 ≤ 900004) &&
          decide (o.2.2.response = none))).length = 9 ∧
    900004 - 899996 < 15 * 60 * 1000 ∧ 5 < 9 := by
  refine ⟨by decide, by decide, by decide, by decide⟩

theorem any_iff_exists (cls : Char → Bool) (p : String) :
    testClass cls p = true ↔ ∃ c ∈ p.toList, cls c = true := by
  simp [testClass, List.any_eq_true]

/-- C19. `isStrongPassword(p)` is true exactly when `p` has at least 8 characters (UTF-16
code units, which is what `length` counts; the number of characters when all lie in the
basic plane) and contains a lowercase letter a-z, an uppercase letter A-Z, a digit 0-9 and
a character that is none of these; hence it is false as soon as one of the five conditions
fails, and each condition can fail alone, as the five rejected samples of the source
show. -/
theorem isStrongPassword_iff (p : String) :
    (isStrongPassword p = true ↔
      8 ≤ jsLength p ∧
      (∃ c ∈ p.toList, 'a'.toNat ≤ c.toNat ∧ c.toNat ≤ 'z'.toNat) ∧
      (∃ c ∈ p.toList, 'A'.toNat ≤ c.toNat ∧ c.toNat ≤ 'Z'.toNat) ∧
      (∃ c ∈ p.toList, '0'.toNat ≤ c.toNat ∧ c.toNat ≤ '9'.toNat) ∧
      (∃ c ∈ p.toList, ¬ ('a'.toNat ≤ c.toNat ∧ c.toNat ≤ 'z'.toNat) ∧
        ¬ ('A'.toNat ≤ c.toNat ∧ c.toNat ≤ 'Z'.toNat) ∧
        ¬ ('0'.toNat ≤ c.toNat ∧ c.toNat ≤ '9'.toNat))) ∧
    ((∀ c ∈ p.toList, c.toNat < 65536) → jsLength p = p.length) ∧
    (jsLength p < 8 → isStrongPassword p = false) ∧
    ((∀ c ∈ p.toList, ¬ ('a'.toNat ≤ c.toNat ∧ c.toNat ≤ 'z'.toNat)) →
      isStrongPassword p = false) ∧
    ((∀ c ∈ p.toList, ¬ ('A'.toNat ≤ c.toNat ∧ c.toNat ≤ 'Z'.toNat)) →
      isStrongPassword p = false) ∧
    ((∀ c ∈ p.toList, ¬ ('0'.toNat ≤ c.toNat ∧ c.toNat ≤ '9'.toNat)) →
      isStrongPassword p = false) ∧
    ((∀ c ∈ p.toList, ('a'.toNat ≤ c.toNat ∧ c.toNat ≤ 'z'.toNat) ∨
        ('A'.toNat ≤ c.toNat ∧ c.toNat ≤ 'Z'.toNat) ∨
        ('0'.toNat ≤ c.toNat ∧ c.toNat ≤ '9'.toNat)) → isStrongPassword p = false) ∧
    (isStrongPassword "Pass1!" = false ∧ isStrongPassword "password1!" = false ∧
      isStrongPassword "PASSWORD1!" = false ∧ isStrongPassword "Password!" = false ∧
      isStrongPassword "Password1" = false ∧ isStrongPassword "Password1!" = true) := by
  have ha : 'a'.toNat = 97 := rfl
  have hz : 'z'.toNat = 122 := rfl
  have hA : 'A'.toNat = 65 := rfl
  have hZ : 'Z'.toNat = 90 := rfl
  have h0 : '0'.toNat = 48 := rfl
  have h9 : '9'.toNat = 57 := rfl
  have hiff : isStrongPassword p = true ↔
      8 ≤ jsLength p ∧
      (∃ c ∈ p.toList, 97 ≤ c.toNat ∧ c.toNat ≤ 122) ∧
      (∃ c ∈ p.toList, 65 ≤ c.toNat ∧ c.toNat ≤ 90) ∧
      (∃ c ∈ p.toList, 48 ≤ c.toNat ∧ c.toNat ≤ 57) ∧
      (∃ c ∈ p.toList, ¬ (97 ≤ c.toNat ∧ c.toNat ≤ 122) ∧
        ¬ (65 ≤ c.toNat ∧ c.toNat ≤ 90) ∧ ¬ (48 ≤ c.toNat ∧ c.toNat ≤ 57)) := by
    simp only [isStrongPassword, Bool.and_eq_true, decide_eq_true_eq, any_iff_exists,
      isLowerAZ, isUpperAZ, isDigit09, Bool.not_eq_true', Bool.or_eq_false_iff,
      Bool.and_eq_false_imp, decide_eq_false_iff_not, ge_iff_le, and_assoc]
    constructor
    · rintro ⟨h1, h2, h3, h4, c, hc, h5, h6, h7⟩
      exact ⟨h1, h2, h3, h4, c, hc, fun h => h5 h.1 h.2, fun h => h6 h.1 h.2,
        fun h => h7 h.1 h.2⟩
    · rintro ⟨h1, h2, h3, h4, c, hc, h5, h6, h7⟩
      exact ⟨h1, h2, h3, h4, c, hc, fun a b => h5 ⟨a, b⟩, fun a b => h6 ⟨a, b⟩,
        fun a b => h7 ⟨a, b⟩⟩
  rw [ha, hz, hA, hZ, h0, h9]
  have hfalse : ∀ {q : Prop}, (isStrongPassword p = true → q) → ¬ q →
      isStrongPassword p = false := by
    intro q h hq
    cases hs : isStrongPassword p with
    | false => rfl
    | true => exact absurd (h hs) hq
  refine ⟨hiff, ?_, ?_, ?_, ?_, ?_, ?_, by decide⟩
  · intro hbmp
    unfold jsLength
    have hlen : p.length = p.toList.length := rfl
    rw [hlen]
    generalize p.toList = l at hbmp ⊢
    induction l with
    | nil => rfl
    | cons c cs ih =>
      have hc := hbmp c (List.mem_cons_self _ _)
      simp only [List.map_cons, List.sum_cons, hc, if_true, List.length_cons]
      rw [ih (fun d hd => hbmp d (List.mem_cons_of_mem _ hd))]
      omega
  · intro h
    exact hfalse (fun hs => (hiff.1 hs).1) (by omega)
  · intro h
    refine hfalse (fun hs => (hiff.1 hs).2.1) ?_
    rintro ⟨c, hc, hcc⟩
    exact h c hc hcc
  · intro h
    refine hfalse (fun hs => (hiff.1 hs).2.2.1) ?_
    rintro ⟨c, hc, hcc⟩
    exact h c hc hcc
  · intro h
    refine hfalse (fun hs => (hiff.1 hs).2.2.2.1) ?_
    rintro ⟨c, hc, hcc⟩
    exact h c hc hcc
  · intro h
    refine hfalse (fun hs => (hiff.1 hs).2.2.2.2) ?_
    rintro ⟨c, hc, h1, h2, h3⟩
    rcases h c hc with h | h | h
    · exact h1 h
    · exact h2 h
    · exact h3 h

theorem notSpaceAt_matches (x : List EmailSym) :
    x ∈ notSpaceAt.matches' ↔ ∃ a, (a = EmailSym.dot ∨ a = EmailSym.other) ∧ x = [a] := by
  simp only [notSpaceAt, RegularExpression.matches'_add, RegularExpression.matches'_char,
    Language.mem_add]
  constructor
  · rintro (h | h)
    · exact ⟨EmailSym.dot, Or.inl rfl, h⟩
    · exact ⟨EmailSym.other, Or.inr rfl, h⟩
  · rintro ⟨a, (rfl | rfl), rfl⟩
    · exact Or.inl rfl
    · exact Or.inr rfl

theorem star_notSpaceAt_matches (x : List EmailSym) :
    x ∈ (RegularExpression.star notSpaceAt).matches' ↔
      ∀ a ∈ x, a = EmailSym.dot ∨ a = EmailSym.other := by
  rw [RegularExpression.matches'_star, Language.mem_kstar]
  constructor
  · rintro ⟨L, rfl, hL⟩ a ha
    rw [List.mem_flatten] at ha
    obtain ⟨y, hy, hay⟩ := ha
    obtain ⟨b, hb, rfl⟩ := (notSpaceAt_matches y).1 (hL y hy)
    rw [List.mem_singleton] at hay
    rw [hay]; exact hb
  · intro h
    refine ⟨x.map (fun a => [a]), ?_, ?_⟩
    · clear h
      induction x with
      | nil => rfl
      | cons a as ih => simp only [List.map_cons, List.flatten_cons, List.singleton_append, ← ih]
    · intro y hy
      rw [List.mem_map] at hy
      obtain ⟨a, ha, rfl⟩ := hy
      exact (notSpaceAt_matches _).2 ⟨a, h a ha, rfl⟩

theorem notSpaceAtPlus_matches (x : List EmailSym) :
    x ∈ notSpaceAtPlus.matches' ↔
      x ≠ [] ∧ ∀ a ∈ x, a = EmailSym.dot ∨ a = EmailSym.other := by
  rw [notSpaceAtPlus, RegularExpression.matches'_mul, Language.mem_mul]
  constructor
  · rintro ⟨u, hu, v, hv, rfl⟩
    obtain ⟨a, ha, rfl⟩ := (notSpaceAt_matches u).1 hu
    refine ⟨by simp, ?_⟩
    intro b hb
    rcases List.mem_append.1 hb with h | h
    · rw [List.mem_singleton] at h
      rw [h]; exact ha
    · exact (star_notSpaceAt_matches v).1 hv b h
  · rintro ⟨hne, hall⟩
    cases x with
    | nil => exact absurd rfl hne
    | cons a as =>
      refine ⟨[a], (notSpaceAt_matches _).2 ⟨a, hall a (List.mem_cons_self _ _), rfl⟩, as,
        (star_notSpaceAt_matches _).2 (fun b hb => hall b (List.mem_cons_of_mem _ hb)), rfl⟩

theorem emailRegex_matches (t : List EmailSym) :
    t ∈ emailRegex.matches' ↔
      ∃ l x y, t = l ++ EmailSym.at :: (x ++ EmailSym.dot :: y) ∧
        l ∈ notSpaceAtPlus.matches' ∧ x ∈ notSpaceAtPlus.matches' ∧
        y ∈ notSpaceAtPlus.matches' := by
  simp only [emailRegex, RegularExpression.matches'_mul, RegularExpression.matches'_char,
    Language.mem_mul]
  constructor
  · rintro ⟨l, hl, r1, ⟨a, ha, r2, ⟨x, hx, r3, ⟨d, hd, y, hy, rfl⟩, rfl⟩, rfl⟩, rfl⟩
    have ha1 : a = [EmailSym.at] := ha
    have hd1 : d = [EmailSym.dot] := hd
    subst ha1 hd1
    exact ⟨l, x, y, by simp, hl, hx, hy⟩
  · rintro ⟨l, x, y, rfl, hl, hx, hy⟩
    exact ⟨l, hl, _, ⟨[EmailSym.at], rfl, _, ⟨x, hx, _, ⟨[EmailSym.dot], rfl, y, hy, rfl⟩, rfl⟩,
      rfl⟩, by simp⟩

theorem ofChar_cases (c : Char) :
    (isJsSpace c = true ∧ EmailSym.ofChar c = EmailSym.space) ∨
    (isJsSpace c = false ∧ c = '@' ∧ EmailSym.ofChar c = EmailSym.at) ∨
    (isJsSpace c = false ∧ c ≠ '@' ∧ c = '.' ∧ EmailSym.ofChar c = EmailSym.dot) ∨
    (isJsSpace c = false ∧ c ≠ '@' ∧ c ≠ '.' ∧ EmailSym.ofChar c = EmailSym.other) := by
  unfold EmailSym.ofChar
  cases hs : isJsSpace c with
  | true => exact Or.inl ⟨rfl, by rw [if_pos rfl]⟩
  | false =>
    right
    rw [if_neg (by simp)]
    by_cases ha : c = '@'
    · exact Or.inl ⟨rfl, ha, by rw [if_pos ha]⟩
    · right
      rw [if_neg ha]
      by_cases hd : c = '.'
      · exact Or.inl ⟨rfl, ha, hd, by rw [if_pos hd]⟩
      · exact Or.inr ⟨rfl, ha, hd, by rw [if_neg hd]⟩

theorem ofChar_plain (c : Char) :
    (EmailSym.ofChar c = EmailSym.dot ∨ EmailSym.ofChar c = EmailSym.other) ↔
      isJsSpace c = false ∧ c ≠ '@' := by
  rcases ofChar_cases c with ⟨h1, h2⟩ | ⟨h1, h2, h3⟩ | ⟨h1, h2, h3, h4⟩ | ⟨h1, h2, h3, h4⟩
  · simp [h1, h2]
  · rw [h3]; simp [h2]
  · rw [h4]; simp [h1, h2]
  · rw [h4]; simp [h1, h2]

theorem ofChar_at (c : Char) : EmailSym.ofChar c = EmailSym.at ↔ c = '@' := by
  rcases ofChar_cases c with ⟨h1, h2⟩ | ⟨h1, h2, h3⟩ | ⟨h1, h2, h3, h4⟩ | ⟨h1, h2, h3, h4⟩
  · rw [h2]
    constructor
    · intro h; cases h
    · intro h
      rw [h] at h1
      exact absurd h1 (by decide)
  · rw [h3]; simp [h2]
  · rw [h4]; simp [h2]
  · rw [h4]; simp [h2]

theorem ofChar_dot (c : Char) : EmailSym.ofChar c = EmailSym.dot ↔ c = '.' := by
  rcases ofChar_cases c with ⟨h1, h2⟩ | ⟨h1, h2, h3⟩ | ⟨h1, h2, h3, h4⟩ | ⟨h1, h2, h3, h4⟩
  · rw [h2]
    constructor
    · intro h; cases h
    · intro h
      rw [h] at h1
      exact absurd h1 (by decide)
  · rw [h3]
    constructor
    · intro h; cases h
    · intro h
      rw [h] at h2
      exact absurd h2 (by decide)
  · rw [h4]; simp [h3]
  · rw [h4]; simp [h3]

theorem map_plus_matches (s : List Char) :
    s.map EmailSym.ofChar ∈ notSpaceAtPlus.matches' ↔
      s ≠ [] ∧ ∀ c ∈ s, isJsSpace c = false ∧ c ≠ '@' := by
  rw [notSpaceAtPlus_matches]
  constructor
  · rintro ⟨hne, hall⟩
    refine ⟨fun h => hne (by simp [h]), ?_⟩
    intro c hc
    exact (ofChar_plain c).1 (hall _ (List.mem_map.2 ⟨c, hc, rfl⟩))
  · rintro ⟨hne, hall⟩
    refine ⟨fun h => hne (by simpa using h), ?_⟩
    intro a ha
    obtain ⟨c, hc, rfl⟩ := List.mem_map.1 ha
    exact (ofChar_plain c).2 (hall c hc)

theorem isValidEmail_split (s : String) :
    isValidEmail s = true ↔
      ∃ loc x y, s.toList = loc ++ '@' :: (x ++ '.' :: y) ∧
        (loc ≠ [] ∧ ∀ c ∈ loc, isJsSpace c = false ∧ c ≠ '@') ∧
        (x ≠ [] ∧ ∀ c ∈ x, isJsSpace c = false ∧ c ≠ '@') ∧
        (y ≠ [] ∧ ∀ c ∈ y, isJsSpace c = false ∧ c ≠ '@') := by
  unfold isValidEmail
  rw [RegularExpression.rmatch_iff_matches', emailRegex_matches]
  constructor
  · rintro ⟨l, x, y, ht, hl, hx, hy⟩
    obtain ⟨s1, r1, hs, h1, hr1⟩ := List.map_eq_append_iff.1 ht
    obtain ⟨c1, r2, hr1eq, hc1, hr2⟩ := List.map_eq_cons_iff.1 hr1
    obtain ⟨s2, r3, hr2eq, h2, hr3⟩ := List.map_eq_append_iff.1 hr2
    obtain ⟨c2, s3, hr3eq, hc2, h3⟩ := List.map_eq_cons_iff.1 hr3
    rw [ofChar_at] at hc1
    rw [ofChar_dot] at hc2
    subst hc1 hc2 hr3eq hr2eq hr1eq
    rw [← h1] at hl
    rw [← h2] at hx
    rw [← h3] at hy
    exact ⟨s1, s2, s3, hs, (map_plus_matches _).1 hl, (map_plus_matches _).1 hx,
      (map_plus_matches _).1 hy⟩
  · rintro ⟨loc, x, y, hs, hl, hx, hy⟩
    refine ⟨loc.map EmailSym.ofChar, x.map EmailSym.ofChar, y.map EmailSym.ofChar, ?_,
      (map_plus_matches _).2 hl, (map_plus_matches _).2 hx, (map_plus_matches _).2 hy⟩
    rw [hs]
    simp [(ofChar_at '@').2 rfl, (ofChar_dot '.').2 rfl]

theorem split_unique {α : Type} (a : α) :
    ∀ (l1 l2 r1 r2 : List α), a ∉ l1 → a ∉ l2 → l1 ++ a :: r1 = l2 ++ a :: r2 →
      l1 = l2 ∧ r1 = r2 := by
  intro l1
  induction l1 with
  | nil =>
    intro l2 r1 r2 _ h2 h
    cases l2 with
    | nil => simpa using h
    | cons b bs =>
      simp only [List.nil_append, List.cons_append, List.cons.injEq] at h
      exact absurd (h.1 ▸ List.mem_cons_self _ _) h2
  | cons c cs ih =>
    intro l2 r1 r2 h1 h2 h
    cases l2 with
    | nil =>
      simp only [List.nil_append, List.cons_append, List.cons.injEq] at h
      exact absurd (h.1 ▸ List.mem_cons_self _ _) h1
    | cons b bs =>
      simp only [List.cons_append, List.cons.injEq] at h
      obtain ⟨hl, hr⟩ := ih bs r1 r2 (fun hm => h1 (List.mem_cons_of_mem _ hm))
        (fun hm => h2 (List.mem_cons_of_mem _ hm)) h.2
      exact ⟨by rw [h.1, hl], hr⟩

theorem getLast?_append_right {α : Type} (l y : List α) (hy : y ≠ []) :
    (l ++ y).getLast? = y.getLast? := by
  induction l with
  | nil => rfl
  | cons a as ih =>
    cases h : as ++ y with
    | nil =>
      have := List.append_eq_nil.1 h
      exact absurd this.2 hy
    | cons b bs =>
      rw [List.cons_append, h, List.getLast?_cons_cons, ← h, ih]

theorem count_at_split (loc dom : List Char) :
    (loc ++ '@' :: dom).count '@' = 1 ↔ '@' ∉ loc ∧ '@' ∉ dom := by
  rw [List.count_append, List.count_cons, ← List.count_eq_zero, ← List.count_eq_zero]
  simp only [beq_self_eq_true, if_true]
  omega

/-- C20. `isValidEmail(s)` is true exactly when `s` contains no whitespace (the class
`\s`) and exactly one `@`, with something before the `@` and, after it, a `.` that has at
least one character before it and at least one after it.  In particular it is false when
`s` has no `@`, nothing before the `@`, nothing after it, no dot after the `@`, its only
dot directly after the `@`, or a whitespace character; the samples of the source are
classified accordingly. -/
theorem isValidEmail_iff (s : String) :
    (isValidEmail s = true ↔
      (∀ c ∈ s.toList, isJsSpace c = false) ∧ s.toList.count '@' = 1 ∧
      ∃ loc dom, s.toList = loc ++ '@' :: dom ∧ loc ≠ [] ∧
        ∃ x y, dom = x ++ '.' :: y ∧ x ≠ [] ∧ y ≠ []) ∧
    ('@' ∉ s.toList → isValidEmail s = false) ∧
    (∀ dom, s.toList = '@' :: dom → isValidEmail s = false) ∧
    (∀ loc, s.toList = loc ++ ['@'] → isValidEmail s = false) ∧
    (∀ loc dom, s.toList = loc ++ '@' :: dom → '.' ∉ dom → isValidEmail s = false) ∧
    (∀ loc rest, s.toList = loc ++ '@' :: '.' :: rest → '.' ∉ rest →
      isValidEmail s = false) ∧
    ((∃ c ∈ s.toList, isJsSpace c = true) → isValidEmail s = false) ∧
    (isValidEmail "test@example.com" = true ∧ isValidEmail "invalid" = false ∧
      isValidEmail "@example.com" = false ∧ isValidEmail "test@" = false ∧
      isValidEmail "plainaddress" = false ∧ isValidEmail "@missingdomain.com" = false ∧
      isValidEmail "missing@.com" = false ∧ isValidEmail "missing@domain" = false ∧
      isValidEmail "spaces @domain.com" = false) := by
  have hiff : isValidEmail s = true ↔
      (∀ c ∈ s.toList, isJsSpace c = false) ∧ s.toList.count '@' = 1 ∧
      ∃ loc dom, s.toList = loc ++ '@' :: dom ∧ loc ≠ [] ∧
        ∃ x y, dom = x ++ '.' :: y ∧ x ≠ [] ∧ y ≠ [] := by
    rw [isValidEmail_split]
    constructor
    · rintro ⟨loc, x, y, hs, ⟨hl0, hl⟩, ⟨hx0, hx⟩, ⟨hy0, hy⟩⟩
      have hdom : '@' ∉ x ++ '.' :: y := by
        intro hm
        rcases List.mem_append.1 hm with h | h
        · exact (hx _ h).2 rfl
        · rcases List.mem_cons.1 h with h | h
          · exact absurd h (by decide)
          · exact (hy _ h).2 rfl
      refine ⟨?_, ?_, loc, x ++ '.' :: y, hs, hl0, x, y, rfl, hx0, hy0⟩
      · intro c hc
        rw [hs] at hc
        rcases List.mem_append.1 hc with h | h
        · exact (hl c h).1
        · rcases List.mem_cons.1 h with h | h
          · rw [h]; decide
          · rcases List.mem_append.1 h with h | h
            · exact (hx c h).1
            · rcases List.mem_cons.1 h with h | h
              · rw [h]; decide
              · exact (hy c h).1
      · rw [hs, count_at_split]
        exact ⟨fun h => (hl _ h).2 rfl, hdom⟩
    · rintro ⟨hws, hcount, loc, dom, hs, hl0, x, y, hdom, hx0, hy0⟩
      rw [hs, count_at_split] at hcount
      subst hdom
      have hmem : ∀ c, c ∈ loc ∨ c ∈ x ∨ c ∈ y → c ∈ s.toList := by
        intro c hc
        rw [hs]
        rcases hc with h | h | h
        · exact List.mem_append_left _ h
        · exact List.mem_append_right _ (List.mem_cons_of_mem _ (List.mem_append_left _ h))
        · exact List.mem_append_right _ (List.mem_cons_of_mem _
            (List.mem_append_right _ (List.mem_cons_of_mem _ h)))
      refine ⟨loc, x, y, hs, ⟨hl0, ?_⟩, ⟨hx0, ?_⟩, ⟨hy0, ?_⟩⟩
      · intro c hc
        exact ⟨hws c (hmem c (Or.inl hc)), fun h => hcount.1 (h ▸ hc)⟩
      · intro c hc
        exact ⟨hws c (hmem c (Or.inr (Or.inl hc))),
          fun h => hcount.2 (h ▸ List.mem_append_left _ hc)⟩
      · intro c hc
        exact ⟨hws c (hmem c (Or.inr (Or.inr hc))),
          fun h => hcount.2 (h ▸ List.mem_append_right _ (List.mem_cons_of_mem _ hc))⟩
  have hfalse : ∀ {q : Prop}, (isValidEmail s = true → q) → ¬ q → isValidEmail s = false := by
    intro q h hq
    cases hs : isValidEmail s with
    | false => rfl
    | true => exact absurd (h hs) hq
  refine ⟨hiff, ?_, ?_, ?_, ?_, ?_, ?_, by decide⟩
  · intro hno
    refine hfalse (fun hv => (hiff.1 hv).2.1) ?_
    rw [List.count_eq_zero.2 hno]
    decide
  · intro dom hs
    refine hfalse (fun hv => (hiff.1 hv)) ?_
    rintro ⟨_, hcount, loc, dom1, hs1, hl0, _⟩
    rw [hs1, count_at_split] at hcount
    cases loc with
    | nil => exact hl0 rfl
    | cons c cs =>
      rw [hs] at hs1
      simp only [List.cons_append, List.cons.injEq] at hs1
      exact hcount.1 (hs1.1 ▸ List.mem_cons_self _ _)
  · intro loc hs
    refine hfalse (fun hv => (isValidEmail_split s).1 hv) ?_
    rintro ⟨loc1, x, y, hs1, _, _, hy0, hy⟩
    have hlast : (s.toList).getLast? = some '@' := by rw [hs]; simp
    have hy1 : y.getLast? = some '@' := by
      have hassoc : loc1 ++ '@' :: (x ++ '.' :: y) = (loc1 ++ '@' :: (x ++ ['.'])) ++ y := by
        simp
      rw [hs1, hassoc, getLast?_append_right _ y hy0] at hlast
      exact hlast
    exact (hy _ (List.mem_of_getLast?_eq_some hy1)).2 rfl
  · intro loc dom hs hnodot
    refine hfalse (fun hv => (hiff.1 hv)) ?_
    rintro ⟨_, hcount, loc1, dom1, hs1, _, x, y, hdom, _, _⟩
    have h1 := hcount
    rw [hs, count_at_split] at hcount
    rw [hs1, count_at_split] at h1
    have := (split_unique '@' loc loc1 dom dom1 hcount.1 h1.1 (hs.symm.trans hs1)).2
    rw [this, hdom] at hnodot
    exact hnodot (List.mem_append_right _ (List.mem_cons_self _ _))
  · intro loc rest hs hnodot
    refine hfalse (fun hv => (hiff.1 hv)) ?_
    rintro ⟨_, hcount, loc1, dom1, hs1, _, x, y, hdom, hx0, _⟩
    have h1 := hcount
    rw [hs, count_at_split] at hcount
    rw [hs1, count_at_split] at h1
    have := (split_unique '@' loc loc1 _ dom1 hcount.1 h1.1 (hs.symm.trans hs1)).2
    rw [hdom] at this
    cases x with
    | nil => exact hx0 rfl
    | cons c cs =>
      simp only [List.cons_append, List.cons.injEq] at this
      exact hnodot (this.2 ▸ List.mem_append_right _ (List.mem_cons_self _ _))
  · rintro ⟨c, hc, hws⟩
    refine hfalse (fun hv => (hiff.1 hv).1) ?_
    intro h
    rw [h c hc] at hws
    cases hws

theorem jsLength_eq_zero (s : String) : jsLength s = 0 ↔ s = "" := by
  constructor
  · intro h
    apply String.ext
    unfold jsLength at h
    cases hl : s.toList with
    | nil => exact hl
    | cons c cs =>
      rw [hl] at h
      simp only [List.map_cons, List.sum_cons] at h
      split_ifs at h <;> omega
  · intro h
    rw [h]
    rfl

theorem isValidEmail_nonempty (s : String) (h : isValidEmail s = true) : jsLength s ≠ 0 := by
  intro h0
  rw [jsLength_eq_zero] at h0
  rw [h0] at h
  exact absurd h (by decide)

theorem isStrongPassword_length (s : String) (h : isStrongPassword s = true) :
    8 ≤ jsLength s := by
  simp only [isStrongPassword, Bool.and_eq_true, decide_eq_true_eq] at h
  exact h.1.1.1.1

theorem validateForm_fst (data : FormData) :
    (validateForm data).1 =
      (!(jsNot data.firstName || decide (jsLength data.firstName < 2)) &&
        !(jsNot data.lastName || decide (jsLength data.lastName < 2)) &&
        !(jsNot data.email || !isValidEmail data.email) &&
        !(jsNot data.password || !isStrongPassword data.password) &&
        decide (data.password = data.confirmPassword)) := by
  unfold validateForm
  generalize (jsNot data.firstName || decide (jsLength data.firstName < 2)) = c1
  generalize (jsNot data.lastName || decide (jsLength data.lastName < 2)) = c2
  generalize (jsNot data.email || !isValidEmail data.email) = c3
  generalize (jsNot data.password || !isStrongPassword data.password) = c4
  by_cases h5 : data.password = data.confirmPassword <;>
    cases c1 <;> cases c2 <;> cases c3 <;> cases c4 <;> simp [h5]

/-- C21. The form-validation scenario ends with `valid` true exactly when first and last
name each have at least 2 characters (as `length` counts them), `isValidEmail(email)` and
`isStrongPassword(password)` hold and `password` equals `confirmPassword`; of the four
scenarios of the source the empty form, the password mismatch and the weak password end
invalid and the valid registration ends valid. -/
theorem validateForm_iff (data : FormData) :
    ((validateForm data).1 = true ↔
      2 ≤ jsLength data.firstName ∧ 2 ≤ jsLength data.lastName ∧
      isValidEmail data.email = true ∧ isStrongPassword data.password = true ∧
      data.password = data.confirmPassword) ∧
    (validateForm ⟨"", "", "", "", ""⟩).1 = false ∧
    (validateForm ⟨"John", "Doe", "john@example.com", "StrongPass1!", "StrongPass1!"⟩).1 =
      true ∧
    (validateForm ⟨"John", "Doe", "john@example.com", "StrongPass1!", "DifferentPass1!"⟩).1 =
      false ∧
    (validateForm ⟨"John", "Doe", "john@example.com", "weak", "weak"⟩).1 = false := by
  refine ⟨?_, by decide, by decide, by decide, by decide⟩
  rw [validateForm_fst]
  simp only [jsNot, Bool.and_eq_true, Bool.not_eq_true', Bool.or_eq_false_iff,
    decide_eq_false_iff_not, decide_eq_true_eq, Bool.not_eq_false']
  constructor
  · rintro ⟨⟨⟨⟨⟨_, h1⟩, ⟨_, h2⟩⟩, ⟨_, h3⟩⟩, ⟨_, h4⟩⟩, h5⟩
    exact ⟨by omega, by omega, h3, h4, h5⟩
  · rintro ⟨h1, h2, h3, h4, h5⟩
    have he := isValidEmail_nonempty data.email h3
    have hp := isStrongPassword_length data.password h4
    exact ⟨⟨⟨⟨⟨by omega, by omega⟩, ⟨by omega, by omega⟩⟩, ⟨he, h3⟩⟩, ⟨by omega, h4⟩⟩, h5⟩

theorem getPasswordStrength_score (p : String) (hne : jsLength p ≠ 0)
    (b1 b2 b3 b4 b5 : Bool) (h1 : decide (8 ≤ jsLength p) = b1)
    (h2 : testClass isLowerAZ p = b2) (h3 : testClass isUpperAZ p = b3)
    (h4 : testClass isDigit09 p = b4)
    (h5 : testClass (fun c => !(isLowerAZ c || isUpperAZ c || isDigit09 c)) p = b5) :
    getPasswordStrength p =
      if [b1, b2, b3, b4, b5].count true < 3 then
        { text := "Weak password", cssClass := "strength-weak" }
      else if [b1, b2, b3, b4, b5].count true < 5 then
        { text := "Medium strength", cssClass := "strength-medium" }
      else { text := "Strong password", cssClass := "strength-strong" } := by
  unfold getPasswordStrength
  rw [if_neg hne]
  have h1a : (jsLength p ≥ 8) = (b1 = true) := by
    rw [← h1]; simp
  simp only [h1a, h2, h3, h4, h5]
  cases b1 <;> cases b2 <;> cases b3 <;> cases b4 <;> cases b5 <;> decide

/-- C22. `getPasswordStrength` returns empty text and class for the empty string; for any
other string it counts how many of the five criteria hold (length at least 8, a lowercase
letter, an uppercase letter, a digit, a character that is none of these) and returns
`Weak password` for a count below 3, `Medium strength` for 3 or 4 and `Strong password`
for 5; the four samples of the source are rated as it says. -/
theorem getPasswordStrength_spec (p : String) :
    getPasswordStrength "" = { text := "", cssClass := "" } ∧
    (p ≠ "" →
      (([decide (8 ≤ jsLength p), testClass isLowerAZ p, testClass isUpperAZ p,
          testClass isDigit09 p,
          testClass (fun c => !(isLowerAZ c || isUpperAZ c || isDigit09 c)) p].count true < 3 →
        getPasswordStrength p = { text := "Weak password", cssClass := "strength-weak" }) ∧
      (([decide (8 ≤ jsLength p), testClass isLowerAZ p, testClass isUpperAZ p,
          testClass isDigit09 p,
          testClass (fun c => !(isLowerAZ c || isUpperAZ c || isDigit09 c)) p].count true = 3 ∨
        [decide (8 ≤ jsLength p), testClass isLowerAZ p, testClass isUpperAZ p,
          testClass isDigit09 p,
          testClass (fun c => !(isLowerAZ c || isUpperAZ c || isDigit09 c)) p].count true = 4) →
        getPasswordStrength p =
          { text := "Medium strength", cssClass := "strength-medium" }) ∧
      ([decide (8 ≤ jsLength p), testClass isLowerAZ p, testClass isUpperAZ p,
          testClass isDigit09 p,
          testClass (fun c => !(isLowerAZ c || isUpperAZ c || isDigit09 c)) p].count true = 5 →
        getPasswordStrength p =
          { text := "Strong password", cssClass := "strength-strong" }))) ∧
    ((getPasswordStrength "123").text = "Weak password" ∧
      (getPasswordStrength "password").text = "Weak password" ∧
      (getPasswordStrength "Password1").text = "Medium strength" ∧
      (getPasswordStrength "Password1!").text = "Strong password") := by
  refine ⟨by decide, ?_, by decide⟩
  intro hp
  have hne : jsLength p ≠ 0 := fun h => hp ((jsLength_eq_zero p).1 h)
  have hs := getPasswordStrength_score p hne _ _ _ _ _ rfl rfl rfl rfl rfl
  refine ⟨?_, ?_, ?_⟩
  · intro h
    rw [hs, if_pos h]
  · intro h
    rw [hs, if_neg (by omega), if_pos (by omega)]
  · intro h
    rw [hs, if_neg (by omega), if_neg (by omega)]

/-- C27. `isStrongPassword(p)` is true exactly when `getPasswordStrength(p).text` is
`Strong password`. -/
theorem isStrongPassword_iff_strength (p : String) :
    isStrongPassword p = true ↔ (getPasswordStrength p).text = "Strong password" := by
  by_cases h0 : jsLength p = 0
  · have hp : p = "" := (jsLength_eq_zero p).1 h0
    subst hp
    decide
  · rw [getPasswordStrength_score p h0 _ _ _ _ _ rfl rfl rfl rfl rfl]
    unfold isStrongPassword
    simp only [ge_iff_le]
    cases decide (8 ≤ jsLength p) <;> cases testClass isLowerAZ p <;>
      cases testClass isUpperAZ p <;> cases testClass isDigit09 p <;>
      cases testClass (fun c => !(isLowerAZ c || isUpperAZ c || isDigit09 c)) p <;> decide

/-- C23 (as the code has it). For the integers the two query parameters of `GET /all`
spell (`none`: the parameter is missing or not numeric and `parseInt` gives `NaN`): the
computed limit is always an integer between 1 and 100; the computed page is an integer at
least 1 or `Infinity`; it is the parameter's number, or 1 if that is less, when the
number is below `2 ^ 53`, and `Infinity` when the number is `2 ^ 1024` or more, as every
number of 310 or more digits is; the offset `(page - 1) * limit` is an integer that is
not negative or `Infinity`, and it is that product exactly when the product is below
`2 ^ 53`.  `NaN` and 0 give page 1 and limit 10.  The handler answers 200 with these
values when the queries run and the offset is an integer below `2 ^ 63`, and 500 when
the offset is not an integer SQLite can take. -/
theorem page_limit_offset (parsedPage parsedLimit : Option Int) :
    (pageOf parsedPage = .posInf ∨ ∃ p : Int, 1 ≤ p ∧ pageOf parsedPage = .int p) ∧
    (∃ l : Int, 1 ≤ l ∧ l ≤ 100 ∧ limitOf parsedLimit = .int l) ∧
    (offsetOf parsedPage parsedLimit = .posInf ∨
      ∃ o : Int, 0 ≤ o ∧ offsetOf parsedPage parsedLimit = .int o) ∧
    (∀ p l : Int, pageOf parsedPage = .int p → limitOf parsedLimit = .int l →
      (p - 1) * l < 2 ^ 53 → offsetOf parsedPage parsedLimit = .int ((p - 1) * l)) ∧
    (∀ n : Int, parsedPage = some n → n < 2 ^ 53 → pageOf parsedPage = .int (max 1 n)) ∧
    (∀ n : Int, parsedPage = some n → (doubleBound : Int) ≤ n →
      pageOf parsedPage = .posInf ∧ offsetOf parsedPage parsedLimit = .posInf) ∧
    (∀ n : Int, parsedLimit = some n → n ≠ 0 →
      limitOf parsedLimit = .int (min 100 (max 1 n))) ∧
    (pageOf none = .int 1 ∧ pageOf (some 0) = .int 1) ∧
    (limitOf none = .int 10 ∧ limitOf (some 0) = .int 10) ∧
    (∀ (penv : ProcessEnv) (envList envCount : Env) (db : Db),
      envList.getFault = none → envCount.getFault = none →
      (∀ l o : Int, limitOf parsedLimit = .int l →
        offsetOf parsedPage parsedLimit = .int o → o < 2 ^ 63 →
        ∃ pagination,
          getAll penv envList envCount db parsedPage parsedLimit =
            { status := 200
              body := .users
                ((db.listActive l o).map (fun row => (User.new row.selectListed).toJSON))
                pagination } ∧
          pagination.currentPage = pageOf parsedPage ∧
          pagination.usersPerPage = limitOf parsedLimit) ∧
      ((offsetOf parsedPage parsedLimit).sqlInteger = none →
        getAll penv envList envCount db parsedPage parsedLimit =
          { status := 500
            body := .failureDetail "Failed to fetch users"
              (errorDetail penv "Database error: SQLITE_MISMATCH: datatype mismatch") })) := by
  refine ⟨pageOf_range parsedPage, limitOf_range parsedLimit,
    offsetOf_range parsedPage parsedLimit, ?_, ?_, ?_, ?_,
    ⟨rfl, pageOf_nonpos 0 (le_refl _)⟩, ⟨rfl, ?_⟩, ?_⟩
  · intro p l hp hlim h
    obtain ⟨l1, hl1, _, hlim1⟩ := limitOf_range parsedLimit
    rcases pageOf_range parsedPage with hinf | ⟨p1, hp1, hp2⟩
    · rw [hinf] at hp; cases hp
    · rw [hp] at hp2
      rw [hlim] at hlim1
      cases hp2
      cases hlim1
      exact offsetOf_exact parsedPage parsedLimit p l hp hlim hp1 hl1 h
  · intro n hn h53
    subst hn
    by_cases h0 : n ≤ 0
    · rw [pageOf_nonpos n h0]
      congr 1
      omega
    · rw [pageOf_small n (by omega) h53]
      congr 1
      omega
  · intro n hn hbig
    subst hn
    have hp := pageOf_huge n hbig
    exact ⟨hp, offsetOf_infinite _ parsedLimit hp⟩
  · intro n hn hne
    subst hn
    exact limitOf_nonzero n hne
  · simp only [limitOf, parseInt]
    rw [ofInt_small 0 (le_refl _) (by norm_num)]
    rfl
  · intro penv envList envCount db hl hc
    constructor
    · intro l o hlim hoff ho
      obtain ⟨l1, hl1, hl100, hlim1⟩ := limitOf_range parsedLimit
      rw [hlim] at hlim1
      cases hlim1
      have ho0 : 0 ≤ o := by
        rcases offsetOf_range parsedPage parsedLimit with h | ⟨o1, ho1, h⟩
        · rw [hoff] at h; cases h
        · rw [hoff] at h; cases h; exact ho1
      exact ⟨_, getAll_ok penv envList envCount db parsedPage parsedLimit l o hl hc hlim hl1
        hl100 hoff (by omega) ho, rfl, hlim.symm⟩
    · intro hoff
      exact getAll_mismatch penv envList envCount db parsedPage parsedLimit hl hoff

/-- C23, the claim refuted: for a page parameter of 310 digits `parseInt` returns
`Infinity`, the computed page and offset are `Infinity`, not integers, and the request is
answered 500. -/
theorem page_not_an_integer :
    pageOf (some hugePage) = .posInf ∧ offsetOf (some hugePage) none = .posInf ∧
    getAll plainProcess (sampleEnv 9000) (sampleEnv 9000) sampleDb (some hugePage) none =
      { status := 500
        body := .failureDetail "Failed to fetch users" "Internal server error" } ∧
    (∀ p : Int, JsNumber.posInf ≠ .int p) := by
  refine ⟨by decide, by decide, by decide, fun p h => by cases h⟩

theorem ceilDiv_spec (total : Nat) (limit : Int) (hlimit : 1 ≤ limit) :
    (total : Int) ≤ ceilDiv total limit * limit ∧
    (∀ k : Int, (total : Int) ≤ k * limit → ceilDiv total limit ≤ k) ∧
    (∀ page : Int, page < ceilDiv total limit ↔ page * limit < total) := by
  have hne : limit ≠ 0 := by omega
  have hpos : 0 < limit := by omega
  have h1 : ceilDiv total limit * limit ≤ (total : Int) + limit - 1 :=
    Int.ediv_mul_le _ hne
  have h2 : (total : Int) + limit - 1 < (ceilDiv total limit + 1) * limit :=
    Int.lt_ediv_add_one_mul_self _ hpos
  have h3 : (ceilDiv total limit + 1) * limit = ceilDiv total limit * limit + limit := by
    ring
  have ha : (total : Int) ≤ ceilDiv total limit * limit := by omega
  have hmono : ∀ a b : Int, a + 1 ≤ b → a * limit + limit ≤ b * limit := by
    intro a b hab
    have := Int.mul_le_mul_of_nonneg_right hab (by omega : (0 : Int) ≤ limit)
    have h4 : (a + 1) * limit = a * limit + limit := by ring
    omega
  refine ⟨ha, ?_, ?_⟩
  · intro k hk
    by_contra hlt
    have := hmono k (ceilDiv total limit) (by omega)
    omega
  · intro page
    constructor
    · intro hlt
      have := hmono page (ceilDiv total limit) (by omega)
      omega
    · intro hlt
      by_contra hge
      have hle : ceilDiv total limit ≤ page := by omega
      have := Int.mul_le_mul_of_nonneg_right hle (by omega : (0 : Int) ≤ limit)
      omega

/-- C24. In every response of `GET /all` that carries a pagination object, for a table of
fewer than `2 ^ 53` active users: page, limit and offset are integers, `totalPages` is the
least integer whose product with `limit` is at least `totalUsers` (the number of active
users), `hasNextPage` is true exactly when `offset + limit < totalUsers`, and
`hasPrevPage` exactly when `page > 1`.  Such a response is sent whenever the two queries
run and the offset is an integer below `2 ^ 63`. -/
theorem pagination_flags (penv : ProcessEnv) (envList envCount : Env) (db : Db)
    (parsedPage parsedLimit : Option Int) (hl : envList.getFault = none)
    (hc : envCount.getFault = none)
    (hsize : (db.rows.filter Row.active).length < 2 ^ 53) :
    (∀ users pagination,
      getAll penv envList envCount db parsedPage parsedLimit =
        { status := 200, body := .users users pagination } →
      ∃ p l o totalPages : Int,
        pageOf parsedPage = .int p ∧ limitOf parsedLimit = .int l ∧
        offsetOf parsedPage parsedLimit = .int o ∧
        pagination.currentPage = .int p ∧ pagination.usersPerPage = .int l ∧
        pagination.totalPages = .int totalPages ∧
        pagination.totalUsers = (db.rows.filter Row.active).length ∧
        (pagination.totalUsers : Int) ≤ totalPages * l ∧
        (∀ k : Int, (pagination.totalUsers : Int) ≤ k * l → totalPages ≤ k) ∧
        (pagination.hasNextPage = true ↔ o + l < pagination.totalUsers) ∧
        (pagination.hasPrevPage = true ↔ p > 1)) ∧
    (∀ o : Int, offsetOf parsedPage parsedLimit = .int o → o < 2 ^ 63 →
      ∃ users pagination,
        getAll penv envList envCount db parsedPage parsedLimit =
          { status := 200, body := .users users pagination }) := by
  constructor
  · intro users pagination hget
    rcases getAll_cases penv envList envCount db parsedPage parsedLimit hl hc with
      ⟨p, l, o, hp, hp1, hlim, hl1, hl100, hoff, ho0, ho63, h200⟩ | ⟨_, h500⟩
    · rw [h200] at hget
      simp only [Response.mk.injEq, Body.users.injEq, true_and] at hget
      obtain ⟨_, hpag⟩ := hget
      subst hpag
      obtain ⟨ha, hb, hc1⟩ := ceilDiv_spec (db.rows.filter Row.active).length l hl1
      refine ⟨p, l, o, ceilDiv (db.rows.filter Row.active).length l, hp, hlim, hoff, rfl, rfl,
        rfl, rfl, ha, hb, ?_, ?_⟩
      · simp only [decide_eq_true_eq]
        rw [hc1 p]
        by_cases hsmall : (p - 1) * l < 2 ^ 53
        · have := offsetOf_exact parsedPage parsedLimit p l hp hlim hp1 hl1 hsmall
          rw [hoff] at this
          cases this
          have hpl : (p - 1) * l + l = p * l := by ring
          rw [hpl]
        · rcases offsetOf_large parsedPage parsedLimit p l hp hlim hp1 hl1 (by omega) with
            h | ⟨o1, ho1, h⟩
          · rw [hoff] at h; cases h
          · rw [hoff] at h
            cases h
            have hpl : p * l = (p - 1) * l + l := by ring
            constructor
            · intro hlt
              omega
            · intro hlt
              omega
      · simp only [decide_eq_true_eq, gt_iff_lt]
    · rw [h500] at hget
      simp at hget
  · intro o hoff ho
    obtain ⟨l, hl1, hl100, hlim⟩ := limitOf_range parsedLimit
    have ho0 : 0 ≤ o := by
      rcases offsetOf_range parsedPage parsedLimit with h | ⟨o1, ho1, h⟩
      · rw [hoff] at h; cases h
      · rw [hoff] at h; cases h; exact ho1
    exact ⟨_, _, getAll_ok penv envList envCount db parsedPage parsedLimit l o hl hc hlim hl1
      hl100 hoff (by omega) ho⟩

theorem pagination_flags_witness :
    ((sampleEnv 9000).getFault = none ∧ (sampleEnv 9000).getFault = none ∧
      (sampleDb.rows.filter Row.active).length < 2 ^ 53) ∧
    ∃ users pagination,
      getAll plainProcess (sampleEnv 9000) (sampleEnv 9000) sampleDb (some 1) (some 1) =
        { status := 200, body := .users users pagination } ∧
      pagination.totalUsers = 2 ∧ pagination.totalPages = .int 2 ∧
      pagination.hasNextPage = true ∧ pagination.hasPrevPage = false := by
  refine ⟨⟨rfl, rfl, by decide⟩, ?_⟩
  have hthm := pagination_flags plainProcess (sampleEnv 9000) (sampleEnv 9000) sampleDb
    (some 1) (some 1) rfl rfl (by decide)
  have hoff : offsetOf (some 1) (some 1) = .int 0 :=
    offsetOf_exact (some 1) (some 1) 1 1 (pageOf_small 1 (by decide) (by norm_num))
      (limitOf_small 1 (by decide) (by decide)) (by decide) (by decide) (by norm_num)
  obtain ⟨users, pagination, h⟩ := hthm.2 0 hoff (by norm_num)
  obtain ⟨p, l, o, totalPages, hp, hlim, hoff1, _, _, htp, htotal, hle, hleast, hnext, hprev⟩ :=
    hthm.1 users pagination h
  rw [pageOf_small 1 (by decide) (by norm_num)] at hp
  rw [limitOf_small 1 (by decide) (by decide)] at hlim
  rw [hoff] at hoff1
  cases hp
  cases hlim
  cases hoff1
  have htot2 : pagination.totalUsers = 2 := by rw [htotal]; decide
  rw [htot2] at hle hleast hnext
  have h2 : totalPages = 2 := by
    have := hleast 2 (by decide)
    omega
  refine ⟨users, pagination, h, htot2, by rw [htp, h2], hnext.2 (by decide), ?_⟩
  cases hpp : pagination.hasPrevPage with
  | false => rfl
  | true => exact absurd (hprev.1 hpp) (by decide)

theorem rowOf_updateWhereId_ne (db : Db) (j id : Nat) (f : Row → Row) (hne : j ≠ id)
    (hf : ∀ r, (f r).id = r.id) : (db.updateWhereId j f).rowOf id = db.rowOf id := by
  unfold Db.rowOf Db.updateWhereId
  rw [find_map_update _ j f (fun r => by simp [hf r])]
  cases h : List.find? (fun r => r.id == id) db.rows with
  | none => rfl
  | some r =>
    have hid := List.find?_some h
    simp only [beq_iff_eq] at hid
    have : ¬ r.id = j := fun e => hne (e.symm.trans hid)
    simp [this]

theorem rowOf_create (env : Env) (db : Db) (ud : UserData) (id : Nat) (r : Row)
    (h : db.rowOf id = some r) : (User.create env db ud).1.rowOf id = some r := by
  unfold User.create
  cases env.bcrypt.hash ud.password saltRounds env.entropy with
  | none => exact h
  | some hashed =>
    cases env.runFault with
    | some err =>
      simp only
      split <;> exact h
    | none =>
      cases db.rows.any (fun r => r.email == ud.email) with
      | true =>
        simp only [if_true]
        split <;> exact h
      | false =>
        show List.find? _ (db.rows ++ [_]) = _
        unfold Db.rowOf at h
        rw [List.find?_append, h]
        rfl

theorem apply_keeps_attempts (db : Db) (op : WriteOp) (id : Nat) (r : Row) (n : Int)
    (hop : op.resets id = false) (hrow : db.rowOf id = some r)
    (hn : r.loginAttempts = some n) :
    ∃ r1 n1, (op.apply db).rowOf id = some r1 ∧ r1.loginAttempts = some n1 ∧ n ≤ n1 := by
  cases op with
  | create env ud => exact ⟨r, n, rowOf_create env db ud id r hrow, hn, le_refl _⟩
  | updateLastLogin env u =>
    have hne : u.id ≠ id := by simpa [WriteOp.resets] using hop
    refine ⟨r, n, ?_, hn, le_refl _⟩
    simp only [WriteOp.apply, User.updateLastLogin]
    cases env.runFault with
    | some err => exact hrow
    | none =>
      show (db.updateWhereId u.id (Row.lastLoginSet env.now)).rowOf id = some r
      rw [rowOf_updateWhereId_ne db u.id id (Row.lastLoginSet env.now) hne (fun _ => rfl), hrow]
  | incrementLoginAttempts env u =>
    simp only [WriteOp.apply, User.incrementLoginAttempts]
    cases env.runFault with
    | some err => exact ⟨r, n, hrow, hn, le_refl _⟩
    | none =>
      by_cases hid : u.id = id
      · refine ⟨r.incrementSet env.now, n + 1, ?_, by simp [Row.incrementSet, hn], by omega⟩
        show (db.updateWhereId u.id (Row.incrementSet env.now)).rowOf id = _
        rw [hid, rowOf_updateWhereId db id (Row.incrementSet env.now) (incrementSet_id env.now),
          hrow]
        rfl
      · refine ⟨r, n, ?_, hn, le_refl _⟩
        show (db.updateWhereId u.id (Row.incrementSet env.now)).rowOf id = some r
        rw [rowOf_updateWhereId_ne db u.id id (Row.incrementSet env.now) hid
          (incrementSet_id env.now), hrow]

theorem foldl_keeps_attempts (ops : List WriteOp) :
    ∀ (db : Db) (id : Nat) (r : Row) (n : Int), (∀ op ∈ ops, op.resets id = false) →
      db.rowOf id = some r → r.loginAttempts = some n →
      ∃ r1 n1, (ops.foldl WriteOp.apply db).rowOf id = some r1 ∧
        r1.loginAttempts = some n1 ∧ n ≤ n1 := by
  induction ops with
  | nil => intro db id r n _ hrow hn; exact ⟨r, n, hrow, hn, le_refl _⟩
  | cons op rest ih =>
    intro db id r n hops hrow hn
    obtain ⟨r1, n1, h1, h2, h3⟩ :=
      apply_keeps_attempts db op id r n (hops op (List.mem_cons_self _ _)) hrow hn
    obtain ⟨r2, n2, h4, h5, h6⟩ :=
      ih (op.apply db) id r1 n1 (fun o ho => hops o (List.mem_cons_of_mem _ ho)) h1 h2
    exact ⟨r2, n2, h4, h5, by omega⟩

/-- C28, the code on a further failure.  For a user whose stored `loginAttempts` is
already at least 5, every further `incrementLoginAttempts` while the clock shows `env.now`
resolves and sets the row's `lockedUntil`, whatever it was before, to the text for the
second `now / 1000 + 900`; an object whose own count is at least 5 gets the ISO string of
now + 15 minutes and its `isLocked()` holds for those 15 minutes in every zone; and through
any sequence of writes of the model that contains no `updateLastLogin` of this user the
stored count never goes down.  But the account read back from the table is not locked
again in every process: nine hours east of UTC, after a failure at 900000 ms on a user
whose lock ended at second 4, the row holds a lock until second 1800 and `isLocked()` of
the object `findById` reads at 900001 ms is false; in UTC, after a failure at 900500 ms,
it is false at 1800200 ms, inside the 15 minutes. -/
theorem relock_above_threshold (env : Env) (db : Db) (u : User) (r : Row) (n : Int) :
    (db.rowOf u.id = some r → r.loginAttempts = some n → 5 ≤ n → env.runFault = none →
      (∃ db1 u1 r1, u.incrementLoginAttempts env db = (db1, .ok u1) ∧
        db1.rowOf u.id = some r1 ∧ r1.loginAttempts = some (n + 1) ∧
        r1.lockedUntil = some (env.now / 1000 + 900) ∧
        (∀ m : Int, u.loginAttempts = .num m → 5 ≤ m →
          u1.lockedUntil = some (.isoString (env.now + 15 * 60 * 1000)) ∧
          ∀ zone t, env.now ≤ t → t < env.now + 15 * 60 * 1000 →
            u1.isLocked zone t = true)) ∧
      (∀ ops : List WriteOp, (∀ op ∈ ops, op.resets u.id = false) →
        ∃ r2 n2, (ops.foldl WriteOp.apply db).rowOf u.id = some r2 ∧
          r2.loginAttempts = some n2 ∧ 5 ≤ n2)) ∧
    (erinRow.loginAttempts = some 7 ∧ erinRow.lockedUntil = some 4 ∧
      ((erin.incrementLoginAttempts (sampleEnv 900000) erinDb).1.rowOf 1).map
          (fun r1 => (r1.loginAttempts, r1.lockedUntil)) = some (some 8, some 1800) ∧
      (User.findById (sampleEnv 900001)
          (erin.incrementLoginAttempts (sampleEnv 900000) erinDb).1 1).toOption.join.map
          (fun v => (v.lockedUntil, v.isLocked tokyo 900001, v.isLocked utc 900001)) =
        some (some (.sqlText 1800), false, true)) ∧
    ((User.findById (sampleEnv 1800200)
          (erin.incrementLoginAttempts (sampleEnv 900500) erinDb).1 1).toOption.join.map
          (fun v => (v.lockedUntil, v.isLocked utc 1800200)) =
        some (some (.sqlText 1800), false) ∧
      900500 ≤ 1800200 ∧ 1800200 < 900500 + 15 * 60 * 1000) := by
  refine ⟨?_, ⟨rfl, rfl, by decide, by decide⟩, ⟨by decide, by decide, by decide⟩⟩
  intro hrow hn h5 hrun
  constructor
  · have hdb : (db.updateWhereId u.id (Row.incrementSet env.now)).rowOf u.id =
        some (r.incrementSet env.now) := by
      rw [rowOf_updateWhereId db u.id (Row.incrementSet env.now) (incrementSet_id env.now),
        hrow]
      rfl
    have hlock : (r.incrementSet env.now).lockedUntil = some (env.now / 1000 + 900) := by
      rw [incrementSet_lockedUntil env.now r n hn]
      have : n + 1 ≥ 5 := by omega
      simp [this]
    refine ⟨db.updateWhereId u.id (Row.incrementSet env.now), u.incremented env.now,
      r.incrementSet env.now, by simp only [User.incrementLoginAttempts, hrun], hdb,
      by simp [Row.incrementSet, hn], hlock, ?_⟩
    intro m hm h5m
    have hobj : (u.incremented env.now).lockedUntil =
        some (.isoString (env.now + 15 * 60 * 1000)) := by
      rw [incremented_lockedUntil, hm]
      have : (5 : Int) ≤ m + 1 := by omega
      simp [JsNum.incr, JsNum.ge, maxAttempts, lockDuration, this]
    refine ⟨hobj, ?_⟩
    intro zone t h1 h2
    simp only [User.isLocked, hobj, DateText.getTime, decide_eq_true_eq]
    omega
  · intro ops hops
    obtain ⟨r2, n2, h1, h2, h3⟩ := foldl_keeps_attempts ops db u.id r n hops hrow hn
    exact ⟨r2, n2, h1, h2, by omega⟩

/-- C29, the code on `updateLastLogin` and the lock.  When it resolves it rewrites in
the stored row only `lastLogin`, `loginAttempts` and `updatedAt`, and in the object only
`lastLogin` and `loginAttempts`: `lockedUntil` is unchanged in both, and `isLocked()`
gives after the call what it gave before, on the object and on an object read from the
row.  What it gives for a lock that lies in the future is not always true: nine hours
east of UTC, for the user read from a row locked until second 4, `isLocked()` is false at
3500 ms, before and immediately after `updateLastLogin`; in UTC it is true. -/
theorem updateLastLogin_keeps_lock (env : Env) (db : Db) (u : User) (r : Row) :
    (db.rowOf u.id = some r → env.runFault = none →
      ∃ db1 u1 r1, u.updateLastLogin env db = (db1, .ok u1) ∧ db1.rowOf u.id = some r1 ∧
        r1 = { r with
          lastLogin := some (env.now / 1000)
          loginAttempts := some 0
          updatedAt := some (env.now / 1000) } ∧
        u1 = { u with lastLogin := some (.isoString env.now), loginAttempts := .num 0 } ∧
        r1.lockedUntil = r.lockedUntil ∧ u1.lockedUntil = u.lockedUntil ∧
        (∀ zone t, u1.isLocked zone t = u.isLocked zone t) ∧
        (∀ zone t, (User.new r1.selectAll).isLocked zone t =
          (User.new r.selectAll).isLocked zone t)) ∧
    (erin.lockedUntil = some (.sqlText 4) ∧ 3500 < 4 * 1000 ∧
      erin.isLocked tokyo 3500 = false ∧
      (erin.updateLastLogin (sampleEnv 3500) erinDb).2.toOption.map
          (fun u1 => (u1.lockedUntil, u1.isLocked tokyo 3500, u1.isLocked utc 3500)) =
        some (some (.sqlText 4), false, true) ∧
      (User.findById (sampleEnv 3500)
          (erin.updateLastLogin (sampleEnv 3500) erinDb).1 1).toOption.join.map
          (fun v => (v.lockedUntil, v.isLocked tokyo 3500)) =
        some (some (.sqlText 4), false)) := by
  refine ⟨?_, ⟨rfl, by decide, by decide, by decide, by decide⟩⟩
  intro hrow hrun
  have hupd : (db.updateWhereId u.id (Row.lastLoginSet env.now)).rowOf u.id =
      some (r.lastLoginSet env.now) := by
    rw [rowOf_updateWhereId db u.id (Row.lastLoginSet env.now) (fun _ => rfl), hrow]
    rfl
  exact ⟨db.updateWhereId u.id (Row.lastLoginSet env.now),
    { u with lastLogin := some (.isoString env.now), loginAttempts := .num 0 },
    r.lastLoginSet env.now,
    by simp only [User.updateLastLogin, hrun], hupd, rfl, rfl, rfl, rfl, fun _ _ => rfl,
    fun _ _ => rfl⟩

/-- C25, the code on its own list: `mockValidateInput` returns false for three of the four
entries of `sqlPatterns` and true for `admin'--`, which holds no keyword of the pattern as
a whole word and is shorter than 100; `sqlTestsPassed` ends at 3, not at the 4 entries of
the list. -/
theorem mockValidateInput_accepts_admin :
    mockValidateInput "admin'--" = true ∧
    sqlPatterns.map mockValidateInput = [false, false, true, false] ∧
    sqlTestsPassed = 3 ∧ sqlPatterns.length = 4 := by
  refine ⟨by decide, by decide, by decide, by decide⟩

/-- C26, the code on its own list: the pattern rejects all five entries of
`specialInputs`, the two with `shouldPass` true included, so `unicodeTestsPassed` ends at
3 of 5.  In the first class `+-À` is a range that ends at `À` and `ÿ` stands alone, so `ë`
is not a member; `Pässwörd1!` holds no `@`. -/
theorem unicodePattern_rejects_accented :
    unicodePattern.test "tëst@ëxample.com" = false ∧
    unicodePattern.test "Pässwörd1!" = false ∧
    specialInputs.map (fun t => (unicodePattern.test t.2.1, t.2.2)) =
      [(false, true), (false, false), (false, false), (false, true), (false, false)] ∧
    unicodeTestsPassed = 3 ∧ specialInputs.length = 5 ∧
    (unicodeLocalClass 'ë' = false ∧ unicodeLocalClass 'À' = true ∧
      unicodeLocalClass 'ÿ' = true ∧ unicodeLocalClass ',' = true) ∧
    unicodePattern.test "test@example.com" = true := by
  refine ⟨by decide, by decide, by decide, by decide, by decide, by decide, by decide⟩

/-- C30, the code on every list of results: the property `failedTests` of the report is
the list of the failed results (the second property of that name replaces the count), so
comparing it with 0 is false and the standalone run exits with code 0 whether or not a
visual test failed, and adding it to a numeric summary does not give a number; the counts
`totalTests` and `passedTests` are as computed. -/
theorem generateVisualReport_failedTests (results : List VisualResult) :
    getProperty (generateVisualReport results) "failedTests" =
      some (.results (results.filter (fun r => !r.passed))) ∧
    getProperty (generateVisualReport results) "totalTests" = some (.num results.length) ∧
    getProperty (generateVisualReport results) "passedTests" =
      some (.num (results.filter (fun r => r.passed)).length) ∧
    exitCode results = 0 ∧
    (∀ summary, addToSummary summary
      (getProperty (generateVisualReport results) "failedTests") = none) ∧
    (getProperty (generateVisualReport [⟨"home-page-full", false, false⟩]) "failedTests" =
        some (.results [⟨"home-page-full", false, false⟩]) ∧
      exitCode [⟨"home-page-full", false, false⟩] = 0) := by
  have h1 : getProperty (generateVisualReport results) "failedTests" =
      some (.results (results.filter (fun r => !r.passed))) := by
    simp only [generateVisualReport, getProperty, List.reverse_cons, List.reverse_nil,
      List.nil_append, List.cons_append, List.lookup]
    rfl
  refine ⟨h1, ?_, ?_, ?_, ?_, by decide⟩
  · simp only [generateVisualReport, getProperty, List.reverse_cons, List.reverse_nil,
      List.nil_append, List.cons_append, List.lookup]
    rfl
  · simp only [generateVisualReport, getProperty, List.reverse_cons, List.reverse_nil,
      List.nil_append, List.cons_append, List.lookup]
    rfl
  · unfold exitCode
    rw [h1]
    rfl
  · intro summary
    rw [h1]
    rfl

end UserModel
